import Mathlib

/-!
Verification development for the Noir compiler and its NMF codec.

The definitions below are shallow embeddings of the C sources:
module-global state is threaded as explicit structure values, machine
integers become Int or Nat with explicit truncation (mod 2 ^ 64) where
the C code relies on unsigned wrap-around, and code paths that call
abort() are modelled by returning none.
-/

set_option maxHeartbeats 1000000

namespace Noir

/-! Constants from noirdef.h, nmf.h, event.h, token.h and nvm.h. -/

def NMF_MINPITCH : Int := -39
def NMF_MAXPITCH : Int := 48
def NMF_MAXART : Int := 61
def NMF_MAXSECT : Int := 65535
def NMF_MAXNOTE : Int := 1048576
def NOIR_MAXLAYER : Int := 65536
def NOIR_MAXCUE : Int := 0x3dffff
def NVM_MAXSTACK : Int := 1024
def TOKEN_MAXCHAR : Int := 32
def INT32_MAX : Int := 2147483647
def INT32_MIN : Int := -2147483648

def NMF_MAXUINT32 : Nat := 2147483647
def NMF_MAXUINT16 : Nat := 65535
def NMF_MAXBIAS32 : Nat := 4294967295
def NMF_MAXBIAS16 : Nat := 65535
def NMF_BIAS32 : Int := 2147483648
def NMF_BIAS16 : Int := 32768
def NMF_SIGPRI : Int := 1928196216
def NMF_SIGSEC : Int := 1313818926

def NMF_BASIS_Q96 : Int := 0
def NMF_BASIS_44100 : Int := 1
def NMF_BASIS_48000 : Int := 2

def ERR_OK : Int := 0
def ERR_EMPTY : Int := 1
def ERR_IOREAD : Int := 2
def ERR_NULCHAR : Int := 3
def ERR_BADCHAR : Int := 4
def ERR_OVERLINE : Int := 5
def ERR_KEYTOKEN : Int := 6
def ERR_LONGTOKEN : Int := 7
def ERR_PARAMTK : Int := 8
def ERR_RIGHT : Int := 9
def ERR_UNCLOSED : Int := 10
def ERR_TOODEEP : Int := 11
def ERR_INGRACE : Int := 12
def ERR_LONGDUR : Int := 13
def ERR_BADDUR : Int := 14
def ERR_BADPITCH : Int := 15
def ERR_PITCHR : Int := 16
def ERR_BADOP : Int := 17
def ERR_UNDERFLOW : Int := 18
def ERR_BADLAYER : Int := 19
def ERR_STACKFULL : Int := 20
def ERR_HUGETRANS : Int := 21
def ERR_DANGLEART : Int := 22
def ERR_NOLOC : Int := 23
def ERR_LINGER : Int := 24
def ERR_MANYSECT : Int := 25
def ERR_MULTCOUNT : Int := 26
def ERR_TRANSRNG : Int := 27
def ERR_NOPITCH : Int := 28
def ERR_NODUR : Int := 29
def ERR_HUGEGRACE : Int := 30
def ERR_LONGPIECE : Int := 31
def ERR_MANYNOTES : Int := 32

def ASCII_HT : Nat := 0x9
def ASCII_LF : Nat := 0xa
def ASCII_CR : Nat := 0xd
def ASCII_SP : Nat := 0x20
def ASCII_EXCLAIM : Nat := 0x21
def ASCII_NUMSIGN : Nat := 0x23
def ASCII_DOLLAR : Nat := 0x24
def ASCII_AMP : Nat := 0x26
def ASCII_APOS : Nat := 0x27
def ASCII_LPAREN : Nat := 0x28
def ASCII_RPAREN : Nat := 0x29
def ASCII_STAR : Nat := 0x2a
def ASCII_PLUS : Nat := 0x2b
def ASCII_COMMA : Nat := 0x2c
def ASCII_HYPHEN : Nat := 0x2d
def ASCII_PERIOD : Nat := 0x2e
def ASCII_SLASH : Nat := 0x2f
def ASCII_ZERO : Nat := 0x30
def ASCII_NINE : Nat := 0x39
def ASCII_COLON : Nat := 0x3a
def ASCII_SEMICOL : Nat := 0x3b
def ASCII_EQUALS : Nat := 0x3d
def ASCII_ATSIGN : Nat := 0x40
def ASCII_A_UPPER : Nat := 0x41
def ASCII_B_UPPER : Nat := 0x42
def ASCII_C_UPPER : Nat := 0x43
def ASCII_D_UPPER : Nat := 0x44
def ASCII_E_UPPER : Nat := 0x45
def ASCII_F_UPPER : Nat := 0x46
def ASCII_G_UPPER : Nat := 0x47
def ASCII_H_UPPER : Nat := 0x48
def ASCII_N_UPPER : Nat := 0x4e
def ASCII_R_UPPER : Nat := 0x52
def ASCII_S_UPPER : Nat := 0x53
def ASCII_T_UPPER : Nat := 0x54
def ASCII_X_UPPER : Nat := 0x58
def ASCII_Z_UPPER : Nat := 0x5a
def ASCII_LSQUARE : Nat := 0x5b
def ASCII_BSLASH : Nat := 0x5c
def ASCII_RSQUARE : Nat := 0x5d
def ASCII_CARET : Nat := 0x5e
def ASCII_A_LOWER : Nat := 0x61
def ASCII_B_LOWER : Nat := 0x62
def ASCII_C_LOWER : Nat := 0x63
def ASCII_D_LOWER : Nat := 0x64
def ASCII_E_LOWER : Nat := 0x65
def ASCII_F_LOWER : Nat := 0x66
def ASCII_G_LOWER : Nat := 0x67
def ASCII_H_LOWER : Nat := 0x68
def ASCII_N_LOWER : Nat := 0x6e
def ASCII_R_LOWER : Nat := 0x72
def ASCII_S_LOWER : Nat := 0x73
def ASCII_T_LOWER : Nat := 0x74
def ASCII_X_LOWER : Nat := 0x78
def ASCII_Z_LOWER : Nat := 0x7a
def ASCII_LCURLY : Nat := 0x7b
def ASCII_RCURLY : Nat := 0x7d
def ASCII_TILDE : Nat := 0x7e
def ASCII_MINPRNT : Nat := 0x21
def ASCII_MAXPRNT : Nat := 0x7e

/-- Grave accent character, the cue operator.  The updated noirdef.h
defining ASCII_GRACC is not among the sources; token.c compares the
operator byte against it and the notation spec fixes the character as
the grave accent, U+0060. -/
def ASCII_GRACC : Nat := 0x60

/-! Note records.  NMF_NOTE of nmf.h; the EVENT_NOTE record of event.c
has the identical six fields.  The C field widths (int32, int32, int16,
uint16, uint16, uint16) are imposed through well-formedness predicates
where a claim needs them. -/

structure NMF_NOTE where
  t : Int
  dur : Int
  pitch : Int
  art : Int
  sect : Int
  layer_i : Int
deriving DecidableEq, Repr

/-- Comparison of two note events, translated from nmf_cmp of nmf.c:
primary sort by time offset; at equal time, grace notes (negative
duration) are mutually ordered by duration and precede everything else;
two events that are both not grace notes compare equal. -/
def nmf_cmp (pa pb : NMF_NOTE) : Int :=
  if pa.t < pb.t then -1
  else if pa.t > pb.t then 1
  else
    if pa.dur < 0 ∧ pb.dur < 0 then
      if pa.dur < pb.dur then -1
      else if pa.dur > pb.dur then 1
      else 0
    else if pa.dur < 0 then -1
    else if pb.dur < 0 then 1
    else 0

/-- Insertion of a note into an already sorted run, placing the new note
before the first element that is not strictly smaller under nmf_cmp. -/
def nmf_sort_insert (x : NMF_NOTE) : List NMF_NOTE → List NMF_NOTE
  | [] => [x]
  | y :: ys => if nmf_cmp x y ≤ 0 then x :: y :: ys else y :: nmf_sort_insert x ys

/-- Sort of the note table, from nmf_sort of nmf.c.  The C code calls
qsort with comparator nmf_cmp; qsort guarantees exactly that the result
is a permutation ordered with respect to the comparator, so the sort is
realised here as a comparator-respecting insertion sort (for fewer than
two notes the C code skips the qsort call, and the insertion sort is the
identity there as well). -/
def nmf_sort (l : List NMF_NOTE) : List NMF_NOTE := l.foldr nmf_sort_insert []

/-- Ordering stated by the specification for the writer-side sort: time
offsets ascending and, for every pair of notes with equal time offset,
durations ascending (grace notes have negative durations, so this
subsumes grace-before-non-grace and more-negative-first among grace
notes). -/
def claimedSortOrder (l : List NMF_NOTE) : Prop :=
  List.Pairwise (fun x y => x.t < y.t ∨ (x.t = y.t ∧ x.dur ≤ y.dur)) l

/-- Ordering actually guaranteed by nmf_cmp: time offsets ascending; at
equal time offset a grace note never follows a non-grace note, and grace
notes at the same time offset have ascending durations.  Non-grace notes
at the same time offset are unordered. -/
def nmfSortOrder (l : List NMF_NOTE) : Prop :=
  List.Pairwise
    (fun x y => x.t < y.t ∨ (x.t = y.t ∧ (y.dur < 0 → x.dur < 0 ∧ x.dur ≤ y.dur))) l

/-- List of notes sorted with respect to nmf_cmp: every note compares at
most zero against every later note.  This is the postcondition qsort
establishes for any conforming implementation. -/
def nmfCmpSorted (l : List NMF_NOTE) : Prop :=
  List.Pairwise (fun x y => nmf_cmp x y ≤ 0) l

/-! Pitch sets, from nvm.h and nvm.c.  The two uint64 registers are
modelled as natural numbers; every left shift the C code performs on a
uint64 is truncated here with an explicit mod 2 ^ 64.  Register a holds
pitches below zero (pitch p at bit -p-1), register b holds pitches zero
and above (pitch p at bit 63-p).  Paths that reach abort() in C return
none. -/

structure NVM_PITCHSET where
  a : Nat
  b : Nat
deriving DecidableEq, Repr

def U64MOD : Nat := 18446744073709551616

def U64MAX : Nat := 18446744073709551615

def nvm_pitchset_clear : NVM_PITCHSET := ⟨0, 0⟩

def nvm_pitchset_isEmpty (ps : NVM_PITCHSET) : Bool :=
  decide (ps.a = 0) && decide (ps.b = 0)

/-- Translated from nvm_pitchset_add: sets the bit for the pitch; a
pitch outside the valid range is a fault (none). -/
def nvm_pitchset_add (ps : NVM_PITCHSET) (pitch : Int) : Option NVM_PITCHSET :=
  if pitch < NMF_MINPITCH ∨ pitch > NMF_MAXPITCH then none
  else if pitch < 0 then
    some { ps with a := ps.a ||| (1 <<< (-pitch - 1).toNat) }
  else
    some { ps with b := ps.b ||| (0x8000000000000000 >>> pitch.toNat) }

/-- Translated from nvm_pitchset_drop: clears the bit for the pitch; the
C complement of a single-bit uint64 mask is the xor with all 64 one
bits. -/
def nvm_pitchset_drop (ps : NVM_PITCHSET) (pitch : Int) : Option NVM_PITCHSET :=
  if pitch < NMF_MINPITCH ∨ pitch > NMF_MAXPITCH then none
  else if pitch < 0 then
    some { ps with a := ps.a &&& (U64MAX ^^^ (1 <<< (-pitch - 1).toNat)) }
  else
    some { ps with b := ps.b &&& (U64MAX ^^^ (0x8000000000000000 >>> pitch.toNat)) }

/-- One conditional block of the nvm_bit_most cascade: when the masked
bits are non-zero, shift the value right by k and add k to the
accumulated result. -/
def bitMostStage (k M : Nat) (p : Nat × Nat) : Nat × Nat :=
  if p.1 &&& M ≠ 0 then (p.1 >>> k, p.2 + k) else p

/-- Translated from nvm_bit_most of nvm.c: binary cascade of six
conditional blocks locating the most significant set bit; -1 for the
zero input. -/
def nvm_bit_most (v : Nat) : Int :=
  if v ≠ 0 then
    ((bitMostStage 1 0x2
      (bitMostStage 2 0xc
        (bitMostStage 4 0xf0
          (bitMostStage 8 0xff00
            (bitMostStage 16 0xffff0000
              (bitMostStage 32 0xffffffff00000000 (v, 0))))))).2 : Nat)
  else -1

/-- One conditional block of the nvm_bit_least cascade: when the masked
low bits are all zero, shift the value right by k and add k to the
accumulated result. -/
def bitLeastStage (k M : Nat) (p : Nat × Nat) : Nat × Nat :=
  if p.1 &&& M = 0 then (p.1 >>> k, p.2 + k) else p

/-- Translated from nvm_bit_least of nvm.c: binary cascade of six
conditional blocks locating the least significant set bit; -1 for the
zero input. -/
def nvm_bit_least (v : Nat) : Int :=
  if v ≠ 0 then
    ((bitLeastStage 1 0x1
      (bitLeastStage 2 0x3
        (bitLeastStage 4 0xf
          (bitLeastStage 8 0xff
            (bitLeastStage 16 0xffff
              (bitLeastStage 32 0xffffffff (v, 0))))))).2 : Nat)
  else -1

/-- Translated from nvm_pitchset_least: lowest pitch of a non-empty set;
faults (none) on an empty set or a result outside the pitch range. -/
def nvm_pitchset_least (ps : NVM_PITCHSET) : Option Int :=
  if nvm_pitchset_isEmpty ps then none
  else if ps.a ≠ 0 then
    let r := nvm_bit_most ps.a
    if r < 0 then none
    else
      let result := -(r + 1)
      if result > NMF_MAXPITCH ∨ result < NMF_MINPITCH then none else some result
  else
    let r := nvm_bit_most ps.b
    if r < 0 then none
    else
      let result := 63 - r
      if result > NMF_MAXPITCH ∨ result < NMF_MINPITCH then none else some result

/-- Translated from nvm_pitchset_most: highest pitch of a non-empty set;
faults (none) on an empty set or a result outside the pitch range. -/
def nvm_pitchset_most (ps : NVM_PITCHSET) : Option Int :=
  if nvm_pitchset_isEmpty ps then none
  else if ps.b ≠ 0 then
    let r := nvm_bit_least ps.b
    if r < 0 then none
    else
      let result := 63 - r
      if result > NMF_MAXPITCH ∨ result < NMF_MINPITCH then none else some result
  else
    let r := nvm_bit_least ps.a
    if r < 0 then none
    else
      let result := -(r + 1)
      if result > NMF_MAXPITCH ∨ result < NMF_MINPITCH then none else some result

/-- The three uint64 register updates of the transpose-down branch of
nvm_pitchset_transpose: shift register a left, transfer the top bits of
register b to the bottom of a, shift register b left. -/
def psShiftDown (ps : NVM_PITCHSET) (shv : Nat) : NVM_PITCHSET :=
  ⟨((ps.a <<< shv) % U64MOD) ||| (ps.b >>> ((64 : Int) - shv).toNat),
    (ps.b <<< shv) % U64MOD⟩

/-- The three uint64 register updates of the transpose-up branch of
nvm_pitchset_transpose: shift register b right, transfer the bottom bits
of register a to the top of b, shift register a right. -/
def psShiftUp (ps : NVM_PITCHSET) (shv : Nat) : NVM_PITCHSET :=
  ⟨ps.a >>> shv,
    (ps.b >>> shv) ||| ((ps.a <<< ((64 : Int) - shv).toNat) % U64MOD)⟩

/-- Translated from nvm_pitchset_transpose.  Returns the status flag and
the resulting set: on a failed range check the set is returned
untouched, mirroring the C code, which only mutates after the check
passes.  The C shift amounts shv and 64-shv are int values used as
uint64 shift counts; the embedding clamps a negative 64-shv to zero and
truncates every left shift mod 2 ^ 64, which is one concrete resolution
of the undefined C behaviour reached when shv is 64 or more (see the
claim C10 theorems). -/
def nvm_pitchset_transpose (ps : NVM_PITCHSET) (offset : Int) :
    Option (Bool × NVM_PITCHSET) :=
  if offset ≠ 0 ∧ nvm_pitchset_isEmpty ps = false then
    if offset < 0 then
      match nvm_pitchset_least ps with
      | none => none
      | some bound_pitch =>
        if offset ≥ NMF_MINPITCH - bound_pitch then
          some (true, psShiftDown ps (-offset).toNat)
        else some (false, ps)
    else
      match nvm_pitchset_most ps with
      | none => none
      | some bound_pitch =>
        if offset ≤ NMF_MAXPITCH - bound_pitch then
          some (true, psShiftUp ps offset.toNat)
        else some (false, ps)
  else some (true, ps)

/-- Membership of a pitch in a pitch set register pair, the abstract
reading of the bitmap representation. -/
def psMem (ps : NVM_PITCHSET) (p : Int) : Bool :=
  if NMF_MINPITCH ≤ p ∧ p < 0 then ps.a.testBit (-p - 1).toNat
  else if 0 ≤ p ∧ p ≤ NMF_MAXPITCH then ps.b.testBit (63 - p).toNat
  else false

/-- Well-formed pitch set: register a only holds bits 0..38 (pitches
-39..-1) and register b only holds bits 15..63 (pitches 0..48).  Every
pitch set the program builds through nvm_pitchset_add satisfies this. -/
def psWF (ps : NVM_PITCHSET) : Prop :=
  ps.a < 2 ^ 39 ∧ ps.b < 2 ^ 64 ∧ ps.b % 2 ^ 15 = 0

instance (ps : NVM_PITCHSET) : Decidable (psWF ps) := by
  unfold psWF; infer_instance

/-- Ascending list of the pitches contained in a pitch set; the
reference enumeration the repeat loop is compared against. -/
def psCandidates : List Int := (List.range 88).map (fun (n : Nat) => (n : Int) - 39)

def psList (ps : NVM_PITCHSET) : List Int :=
  psCandidates.filter (fun p => psMem ps p)

/-! Event buffer, from event.c.  The section table and the note table
are lists; the capacity-doubling reallocation of the C code only
affects storage and is invisible in this functional reading.  Paths
that reach abort() in C return none; the status flag the C functions
return is the Bool of the pair. -/

def EVENT_MAXSECT : Int := 65535

def EVENT_MAXNOTE : Int := 1048576

def NOIR_MINPITCH : Int := -39

def NOIR_MAXPITCH : Int := 48

def NOIR_MAXART : Int := 61

structure EVENT_STATE where
  sects : List Int
  notes : List NMF_NOTE
deriving DecidableEq, Repr

/-- State set up by event_init: one section at offset zero, no notes. -/
def event_initState : EVENT_STATE := ⟨[0], []⟩

/-- Translated from event_section of event.c. -/
def event_section (st : EVENT_STATE) (offset : Int) : Option (Bool × EVENT_STATE) :=
  match st.sects.getLast? with
  | none => none
  | some lastOff =>
    if offset < lastOff then none
    else if (st.sects.length : Int) < EVENT_MAXSECT then
      some (true, { st with sects := st.sects ++ [offset] })
    else some (false, st)

/-- Translated from event_note of event.c, parameter checks in the
order the C code makes them; the stored layer_i is layer - 1. -/
def event_note (st : EVENT_STATE) (t dur pitch art sect layer : Int) :
    Option (Bool × EVENT_STATE) :=
  if dur = 0 ∨ dur < -INT32_MAX then none
  else if pitch < NOIR_MINPITCH ∨ pitch > NOIR_MAXPITCH then none
  else if art < 0 ∨ art > NOIR_MAXART then none
  else if sect < 0 ∨ sect ≥ (st.sects.length : Int) then none
  else if layer < 1 ∨ layer > NOIR_MAXLAYER then none
  else
    match st.sects.get? sect.toNat with
    | none => none
    | some sectOff =>
      if t < sectOff then none
      else if (st.notes.length : Int) < EVENT_MAXNOTE then
        some (true, { st with
          notes := st.notes ++ [⟨t, dur, pitch, art, sect, layer - 1⟩] })
      else some (false, st)

/-- One iteration body of the event_flip loop: fault when the note is
not a grace note or its offset exceeds max_offs, otherwise store the
negated flipped offset as the duration. -/
def event_flipNote (max_offs : Int) (n : NMF_NOTE) : Option NMF_NOTE :=
  if n.dur ≥ 0 then none
  else if (max_offs + 1) + n.dur < 1 then none
  else some { n with dur := -((max_offs + 1) + n.dur) }

/-- Pointwise pass of event_flipNote over a run of notes. -/
def event_flipList (max_offs : Int) : List NMF_NOTE → Option (List NMF_NOTE)
  | [] => some []
  | n :: rest =>
    match event_flipNote max_offs n, event_flipList max_offs rest with
    | some m, some ms => some (m :: ms)
    | _, _ => none

/-- Translated from event_flip of event.c.  The C loop visits the
distinct indices note_count - i for i = 1 .. count, so it is rendered
as a pointwise pass over the last count notes of the table. -/
def event_flip (st : EVENT_STATE) (count max_offs : Int) : Option EVENT_STATE :=
  if count < 0 ∨ max_offs < 1 then none
  else if count > (st.notes.length : Int) then none
  else if count > 0 then
    match event_flipList max_offs (st.notes.drop (st.notes.length - count.toNat)) with
    | none => none
    | some flipped =>
      some { st with
        notes := st.notes.take (st.notes.length - count.toNat) ++ flipped }
  else some st

/-! Virtual machine, from nvm.c.  The module-global registers become the
fields of NVM_STATE; the four stacks are lists with the top element at
the head (only peeks and pushes after a capacity check appear in the
embedded operations, so the dynamic reallocation is invisible).  Every
operation returns the C status flag, the error code written through the
per pointer on failure (ERR_OK stands for the untouched pointer on
success), and the state after the call; paths that reach abort() in C
return none. -/

structure NVM_LAYERREG where
  sect : Int
  layer_i : Int
deriving DecidableEq, Repr

structure NVM_STATE where
  cursor : Int
  pitch_filled : Bool
  pitch : NVM_PITCHSET
  dur : Int
  sect : Int
  baset : Int
  locstack : List Int
  transstack : List Int
  layerstack : List NVM_LAYERREG
  baselayer : NVM_LAYERREG
  artstack : List Int
  immart : Int
  gracecount : Int
  graceoffset : Int
  ev : EVENT_STATE
deriving DecidableEq, Repr

/-- Translated from nvm_graceFlush of nvm.c: flip the last gracecount
events when there are any, then clear both grace registers. -/
def nvm_graceFlush (st : NVM_STATE) : Option NVM_STATE :=
  if st.gracecount > 0 then
    match event_flip st.ev st.gracecount st.graceoffset with
    | none => none
    | some ev2 => some { st with ev := ev2, gracecount := 0, graceoffset := 0 }
  else some { st with gracecount := 0, graceoffset := 0 }

/-- Modelled from the spec: event_cue of the Event Buffer module is
declared in the event.h of this repository but its implementation file
is not among the sources.  Following the header contract and section
5.1.2 of doc/noir_spec.md, the cue is stored as a note event with zero
duration and zero pitch, the 16 least significant bits of the cue number
in the layer field and the most significant bits in the articulation
field, after the same section and offset checks event_note makes and
with the same capacity failure. -/
def event_cue (st : EVENT_STATE) (t sect cue_num : Int) : Option (Bool × EVENT_STATE) :=
  if cue_num < 0 ∨ cue_num > NOIR_MAXCUE then none
  else if sect < 0 ∨ sect ≥ (st.sects.length : Int) then none
  else
    match st.sects.get? sect.toNat with
    | none => none
    | some sectOff =>
      if t < sectOff then none
      else if (st.notes.length : Int) < EVENT_MAXNOTE then
        some (true, { st with notes := st.notes ++
          [⟨t, 0, 0, cue_num / 65536, sect, cue_num % 65536⟩] })
      else some (false, st)

/-- Translated from nvm_op_cue of nvm.c: validate the cue number and
report the cue event at the cursor in the current section.  No grace
flush is performed. -/
def nvm_op_cue (st : NVM_STATE) (cue_num : Int) : Option (Bool × Int × NVM_STATE) :=
  if cue_num < 0 ∨ cue_num > NOIR_MAXCUE then none
  else
    match event_cue st.ev st.cursor st.sect cue_num with
    | none => none
    | some (ok, ev2) =>
      if ok then some (true, ERR_OK, { st with ev := ev2 })
      else some (false, ERR_MANYNOTES, { st with ev := ev2 })

/-- Emission loop of nvm_op_repeat: report the least pitch of the local
pitch set copy, drop it, count grace events, until the copy is empty.
The fuel argument bounds the iteration count; a well-formed pitch set
holds at most 88 pitches, so fuel 88 never runs out on the sets the
program builds. -/
def nvm_repeatLoop : Nat → NVM_PITCHSET → NVM_STATE → Int → Int → NVM_LAYERREG →
    Option (Bool × Int × NVM_STATE)
  | 0, ps, st, _, _, _ =>
    if nvm_pitchset_isEmpty ps then some (true, ERR_OK, st) else none
  | fuel + 1, ps, st, durval, art, lr =>
    if nvm_pitchset_isEmpty ps then some (true, ERR_OK, st)
    else
      match nvm_pitchset_least ps with
      | none => none
      | some pitch =>
        match nvm_pitchset_drop ps pitch with
        | none => none
        | some ps2 =>
          match event_note st.ev st.cursor durval pitch art lr.sect (lr.layer_i + 1) with
          | none => none
          | some (ok, ev2) =>
            if ok then
              if durval < 0 then
                if st.gracecount < INT32_MAX then
                  nvm_repeatLoop fuel ps2
                    { st with ev := ev2, gracecount := st.gracecount + 1 } durval art lr
                else some (false, ERR_HUGEGRACE, { st with ev := ev2 })
              else nvm_repeatLoop fuel ps2 { st with ev := ev2 } durval art lr
            else some (false, ERR_MANYNOTES, { st with ev := ev2 })

/-- Register bump nvm_op_repeat performs before emitting: the grace
offset increment a zero duration causes, and the clearing of a consumed
immediate articulation register. -/
def nvm_repeat_bump (st : NVM_STATE) : NVM_STATE :=
  let st1 := if st.dur = 0 then { st with graceoffset := st.graceoffset + 1 } else st
  if st1.immart ≥ 0 then { st1 with immart := -1 } else st1

/-- Effective duration nvm_op_repeat uses (the local durval of the C
function): the grace offset register (after the increment a zero
duration causes) negated when positive, otherwise the duration
register. -/
def nvm_repeat_durval (st : NVM_STATE) : Int :=
  let go := if st.dur = 0 then st.graceoffset + 1 else st.graceoffset
  if go > 0 then -go else st.dur

/-- Effective articulation nvm_op_repeat uses: the immediate
articulation register when set, else the top of the articulation stack,
else zero. -/
def nvm_repeat_art (st : NVM_STATE) : Int :=
  if st.immart ≥ 0 then st.immart
  else
    match st.artstack with
    | [] => 0
    | a :: _ => a

/-- Effective layer register nvm_op_repeat uses: the top of the layer
stack, else the base layer register. -/
def nvm_repeat_lr (st : NVM_STATE) : NVM_LAYERREG :=
  match st.layerstack with
  | [] => st.baselayer
  | l :: _ => l

/-- Translated from nvm_op_repeat of nvm.c: require a filled pitch
register and a defined duration, bump the grace offset for a zero
duration, choose duration, articulation, section and layer, emit one
note per pitch of the pitch register from the least pitch up, and
advance the cursor by a positive duration. -/
def nvm_op_repeat (st : NVM_STATE) : Option (Bool × Int × NVM_STATE) :=
  if st.pitch_filled = false then some (false, ERR_NOPITCH, st)
  else if st.dur < 0 then some (false, ERR_NODUR, st)
  else if st.dur = 0 ∧ ¬ (st.graceoffset < INT32_MAX) then
    some (false, ERR_HUGEGRACE, st)
  else
    match nvm_repeatLoop 88 (nvm_repeat_bump st).pitch (nvm_repeat_bump st)
        (nvm_repeat_durval st) (nvm_repeat_art st) (nvm_repeat_lr st) with
    | none => none
    | some (ok, err, st3) =>
      if ok then
        if nvm_repeat_durval st > 0 then
          if st3.cursor ≤ INT32_MAX - nvm_repeat_durval st then
            some (true, ERR_OK, { st3 with cursor := st3.cursor + nvm_repeat_durval st })
          else some (false, ERR_LONGPIECE, st3)
        else some (true, ERR_OK, st3)
      else some (false, err, st3)

/-- Transposition value nvm_pset reads: the top of the transposition
stack, zero when the stack is empty. -/
def nvm_trans_top (st : NVM_STATE) : Int :=
  match st.transstack with
  | [] => 0
  | v :: _ => v

/-- Translated from nvm_pset of nvm.c: transpose a local copy of the
given pitch set by the top of the transposition stack (zero when the
stack is empty); on a failed transposition report ERR_TRANSRNG without
touching the state, otherwise store the transposed copy in the pitch
register, mark it filled, and run the repeat operation. -/
def nvm_pset (st : NVM_STATE) (ps : NVM_PITCHSET) : Option (Bool × Int × NVM_STATE) :=
  match nvm_pitchset_transpose ps (nvm_trans_top st) with
  | none => none
  | some (ok, pss) =>
    if ok then nvm_op_repeat { st with pitch := pss, pitch_filled := true }
    else some (false, ERR_TRANSRNG, st)

/-! Entity module, from the entity.c source (src/unnamed/part_000).
Tokens are byte lists without the terminating NUL.  entity_op is
embedded at dispatch level: the result names the VM operation the
switch invokes together with its decoded parameter, or carries the
rejection error code the function writes. -/

/-- Translated from entity_validAtomicOp: the token has exactly one
character. -/
def entity_validAtomicOp (tok : List Nat) : Bool := decide (tok.length = 1)

/-- Digit loop of entity_intOp: accumulate decimal digits until the
semicolon, with the two overflow guards of the C code. -/
def entity_intDigits : List Nat → Int → Option Int
  | [], _ => none
  | c :: rest, result =>
    if c = ASCII_SEMICOL then some result
    else if c < ASCII_ZERO ∨ c > ASCII_NINE then none
    else if ¬ (result ≤ INT32_MAX / 10) then none
    else if ¬ (result * 10 ≤ INT32_MAX - ((c : Int) - ASCII_ZERO)) then none
    else entity_intDigits rest (result * 10 + ((c : Int) - ASCII_ZERO))

/-- Translated from entity_intOp: at least three characters, a trailing
semicolon, an optional sign after the operator character (requiring a
fourth character), then the digit loop; a negative sign negates the
accumulated value. -/
def entity_intOp (tok : List Nat) : Option Int :=
  if tok.length < 3 then none
  else if tok.getD (tok.length - 1) 0 ≠ ASCII_SEMICOL then none
  else if (tok.getD 1 0 = ASCII_PLUS ∨ tok.getD 1 0 = ASCII_HYPHEN) ∧
      tok.length < 4 then none
  else
    match tok with
    | [] => none
    | _ :: rest =>
      match rest with
      | [] => none
      | c1 :: rest1 =>
        if c1 = ASCII_PLUS then entity_intDigits rest1 0
        else if c1 = ASCII_HYPHEN then
          match entity_intDigits rest1 0 with
          | none => none
          | some r => some (-r)
        else entity_intDigits rest 0

/-- Translated from entity_keyOp: a two-character token whose second
character encodes keys 0-9, A-Z as 10-35, a-z as 36-61; -1 on an
invalid token. -/
def entity_keyOp (tok : List Nat) : Int :=
  if tok.length ≠ 2 then -1
  else
    let c := tok.getD 1 0
    if ASCII_ZERO ≤ c ∧ c ≤ ASCII_NINE then (c : Int) - ASCII_ZERO
    else if ASCII_A_UPPER ≤ c ∧ c ≤ ASCII_Z_UPPER then ((c : Int) - ASCII_A_UPPER) + 10
    else if ASCII_A_LOWER ≤ c ∧ c ≤ ASCII_Z_LOWER then ((c : Int) - ASCII_A_LOWER) + 36
    else -1

/-- Dispatch result of entity_op: the virtual machine operation the
switch invokes with its decoded parameter, or the rejection error the
function writes through per. -/
inductive ENTITY_ACTION where
  | act_repeat
  | act_section
  | act_ret
  | act_pushloc
  | act_retloc
  | act_poploc
  | act_poptrans
  | act_popart
  | act_poplayer
  | act_multiple (v : Int)
  | act_pushtrans (v : Int)
  | act_setbase (v : Int)
  | act_pushlayer (v : Int)
  | act_immart (v : Int)
  | act_pushart (v : Int)
  | act_reject (err : Int)
deriving DecidableEq, Repr

/-- Translated from the switch of entity_op: the operator character
selects the VM operation; an empty token or an unknown operator
character is rejected with ERR_BADOP.  There is no case for the grave
accent character. -/
def entity_op (tok : List Nat) : ENTITY_ACTION :=
  match tok.head? with
  | none => .act_reject ERR_BADOP
  | some c =>
    if c = ASCII_SLASH then
      if entity_validAtomicOp tok then .act_repeat else .act_reject ERR_BADOP
    else if c = ASCII_DOLLAR then
      if entity_validAtomicOp tok then .act_section else .act_reject ERR_BADOP
    else if c = ASCII_ATSIGN then
      if entity_validAtomicOp tok then .act_ret else .act_reject ERR_BADOP
    else if c = ASCII_LCURLY then
      if entity_validAtomicOp tok then .act_pushloc else .act_reject ERR_BADOP
    else if c = ASCII_COLON then
      if entity_validAtomicOp tok then .act_retloc else .act_reject ERR_BADOP
    else if c = ASCII_RCURLY then
      if entity_validAtomicOp tok then .act_poploc else .act_reject ERR_BADOP
    else if c = ASCII_EQUALS then
      if entity_validAtomicOp tok then .act_poptrans else .act_reject ERR_BADOP
    else if c = ASCII_TILDE then
      if entity_validAtomicOp tok then .act_popart else .act_reject ERR_BADOP
    else if c = ASCII_HYPHEN then
      if entity_validAtomicOp tok then .act_poplayer else .act_reject ERR_BADOP
    else if c = ASCII_BSLASH then
      match entity_intOp tok with
      | some v => .act_multiple v
      | none => .act_reject ERR_BADOP
    else if c = ASCII_CARET then
      match entity_intOp tok with
      | some v => .act_pushtrans v
      | none => .act_reject ERR_BADOP
    else if c = ASCII_AMP then
      match entity_intOp tok with
      | some v => .act_setbase v
      | none => .act_reject ERR_BADOP
    else if c = ASCII_PLUS then
      match entity_intOp tok with
      | some v => .act_pushlayer v
      | none => .act_reject ERR_BADOP
    else if c = ASCII_STAR then
      if entity_keyOp tok ≥ 0 then .act_immart (entity_keyOp tok)
      else .act_reject ERR_BADOP
    else if c = ASCII_EXCLAIM then
      if entity_keyOp tok ≥ 0 then .act_pushart (entity_keyOp tok)
      else .act_reject ERR_BADOP
    else .act_reject ERR_BADOP

/-! Lexer, from the token.c source included in src/nmf.h.  The input
file is a byte list; getc yields the head or end of file on the empty
list.  The reader state carries the first-byte flag, the previous-byte
register, the line counter and the pushback register.  Recursive reads
take a fuel argument; fuel at least the remaining input length plus one
never runs out, and exhaustion is reported as a read error.  Character
classification functions take the int the byte readers return. -/

structure TOKEN_SRC where
  input : List Nat
  first : Bool
  prev : Int
  line : Int
  pushback : Int
deriving DecidableEq, Repr

structure TOKEN where
  str : List Nat
  status : Int
  line : Int
deriving DecidableEq, Repr

/-- Translated from token_isWhitespace. -/
def token_isWhitespace (c : Int) : Bool :=
  decide (c = (ASCII_SP : Int) ∨ c = (ASCII_HT : Int) ∨
    c = (ASCII_LF : Int) ∨ c = (ASCII_CR : Int))

/-- Translated from token_isPrinting. -/
def token_isPrinting (c : Int) : Bool :=
  decide ((ASCII_MINPRNT : Int) ≤ c ∧ c ≤ (ASCII_MAXPRNT : Int))

/-- Translated from token_isSuffix: apostrophe, comma and period all
qualify as suffix characters. -/
def token_isSuffix (c : Int) : Bool :=
  decide (c = (ASCII_APOS : Int) ∨ c = (ASCII_COMMA : Int) ∨ c = (ASCII_PERIOD : Int))

/-- Translated from token_isAccidental. -/
def token_isAccidental (c : Int) : Bool :=
  decide (c = (ASCII_X_LOWER : Int) ∨ c = (ASCII_X_UPPER : Int) ∨
    c = (ASCII_S_LOWER : Int) ∨ c = (ASCII_S_UPPER : Int) ∨
    c = (ASCII_N_LOWER : Int) ∨ c = (ASCII_N_UPPER : Int) ∨
    c = (ASCII_H_LOWER : Int) ∨ c = (ASCII_H_UPPER : Int) ∨
    c = (ASCII_T_LOWER : Int) ∨ c = (ASCII_T_UPPER : Int))

/-- Translated from token_isAtomic. -/
def token_isAtomic (c : Int) : Bool :=
  decide (c = (ASCII_LPAREN : Int) ∨ c = (ASCII_RPAREN : Int) ∨
    c = (ASCII_R_UPPER : Int) ∨ c = (ASCII_R_LOWER : Int) ∨
    c = (ASCII_LSQUARE : Int) ∨ c = (ASCII_RSQUARE : Int) ∨
    c = (ASCII_SLASH : Int) ∨ c = (ASCII_DOLLAR : Int) ∨
    c = (ASCII_ATSIGN : Int) ∨ c = (ASCII_LCURLY : Int) ∨
    c = (ASCII_COLON : Int) ∨ c = (ASCII_RCURLY : Int) ∨
    c = (ASCII_EQUALS : Int) ∨ c = (ASCII_TILDE : Int) ∨
    c = (ASCII_HYPHEN : Int))

/-- Translated from token_isPitchString. -/
def token_isPitchString (c : Int) : Bool :=
  decide (((ASCII_A_UPPER : Int) ≤ c ∧ c ≤ (ASCII_G_UPPER : Int)) ∨
    ((ASCII_A_LOWER : Int) ≤ c ∧ c ≤ (ASCII_G_LOWER : Int)))

/-- Translated from token_isRhythmString. -/
def token_isRhythmString (c : Int) : Bool :=
  decide ((ASCII_ZERO : Int) ≤ c ∧ c ≤ (ASCII_NINE : Int))

/-- Translated from token_isParamOp; the grave accent is among the
parameter operators the lexer recognises. -/
def token_isParamOp (c : Int) : Bool :=
  decide (c = (ASCII_BSLASH : Int) ∨ c = (ASCII_CARET : Int) ∨
    c = (ASCII_AMP : Int) ∨ c = (ASCII_PLUS : Int) ∨ c = (ASCII_GRACC : Int))

/-- Translated from token_isKeyOp. -/
def token_isKeyOp (c : Int) : Bool :=
  decide (c = (ASCII_STAR : Int) ∨ c = (ASCII_EXCLAIM : Int))

/-- Translated from token_readByteFilter: reject a literal nul, strip a
UTF-8 byte order mark at the very start, collapse CR-LF and LF-CR pairs,
convert CR to LF, and report end of file as zero.  The result is the
character read (or -1 on error), the error code written on error, and
the reader state after the call. -/
def token_readByteFilter : Nat → TOKEN_SRC → Int × Int × TOKEN_SRC
  | 0, st => (-1, ERR_IOREAD, st)
  | fuel + 1, st =>
    match st.input with
    | [] => (0, ERR_OK, { st with first := false, prev := 0 })
    | b :: rest =>
      if b = 0 then (-1, ERR_NULCHAR, { st with input := rest })
      else if st.first ∧ b = 0xef then
        match rest with
        | [] => (-1, ERR_BADCHAR, { st with input := [], first := false })
        | b2 :: rest2 =>
          if b2 ≠ 0xbb then (-1, ERR_BADCHAR, { st with input := rest2, first := false })
          else
            match rest2 with
            | [] => (-1, ERR_BADCHAR, { st with input := [], first := false })
            | b3 :: rest3 =>
              if b3 ≠ 0xbf then
                (-1, ERR_BADCHAR, { st with input := rest3, first := false })
              else token_readByteFilter fuel { st with input := rest3, first := false }
      else
        if ((b : Int) = (ASCII_LF : Int) ∧ st.prev = (ASCII_CR : Int)) ∨
            ((b : Int) = (ASCII_CR : Int) ∧ st.prev = (ASCII_LF : Int)) then
          token_readByteFilter fuel { st with input := rest, first := false, prev := -1 }
        else
          let st3 : TOKEN_SRC := { st with input := rest, first := false, prev := (b : Int) }
          if (b : Int) = (ASCII_CR : Int) then ((ASCII_LF : Int), ERR_OK, st3)
          else ((b : Int), ERR_OK, st3)

/-- Comment loop of token_readByteFinal: discard characters until an
error, end of file, or a line feed. -/
def token_skipComment : Nat → TOKEN_SRC → Int × Int × TOKEN_SRC
  | 0, st => (-1, ERR_IOREAD, st)
  | fuel + 1, st =>
    match token_readByteFilter (fuel + 1) st with
    | (c, err, st1) =>
      if c > 0 ∧ c ≠ (ASCII_LF : Int) then token_skipComment fuel st1
      else (c, err, st1)

/-- Translated from token_readByteFinal: serve the pushback register if
set, otherwise read through the filter, discard a number-sign comment,
and count line feeds. -/
def token_readByteFinal (fuel : Nat) (st : TOKEN_SRC) : Int × Int × TOKEN_SRC :=
  if st.pushback ≥ 0 then (st.pushback, ERR_OK, { st with pushback := -1 })
  else
    match token_readByteFilter fuel st with
    | (c, err, st1) =>
      match (if c = (ASCII_NUMSIGN : Int) then token_skipComment fuel st1
        else (c, err, st1)) with
      | (c2, err2, st2) =>
        if c2 = (ASCII_LF : Int) then
          if st2.line < INT32_MAX then
            ((ASCII_LF : Int), err2, { st2 with line := st2.line + 1 })
          else (-1, ERR_OVERLINE, st2)
        else (c2, err2, st2)

/-- Translated from token_pushback: the pushed character must be in the
byte range. -/
def token_pushbackFn (st : TOKEN_SRC) (c : Int) : Option TOKEN_SRC :=
  if c < 0 ∨ c > 255 then none else some { st with pushback := c }

/-- Whitespace loop at the start of token_read. -/
def token_skipWhite : Nat → TOKEN_SRC → Int × Int × TOKEN_SRC
  | 0, st => (-1, ERR_IOREAD, st)
  | fuel + 1, st =>
    match token_readByteFinal (fuel + 1) st with
    | (c, err, st1) =>
      if c > 0 ∧ token_isWhitespace c then token_skipWhite fuel st1
      else (c, err, st1)

/-- Character collection loop of token_read, shared by the accidental
loop, the suffix loop and the parameter loop: append characters
satisfying the predicate to the token buffer, guarding against buffer
overflow, and stop at the first character that does not satisfy it.
The result is the loop status, the character the loop stopped on, the
error code, the token buffer, and the reader state. -/
def token_collectWhile (pred : Int → Bool) :
    Nat → TOKEN_SRC → List Nat → Bool × Int × Int × List Nat × TOKEN_SRC
  | 0, st, acc => (true, -1, ERR_IOREAD, acc, st)
  | fuel + 1, st, acc =>
    match token_readByteFinal (fuel + 1) st with
    | (c, err, st1) =>
      if pred c then
        if (acc.length : Int) < TOKEN_MAXCHAR - 1 then
          token_collectWhile pred fuel st1 (acc ++ [c.toNat])
        else (false, c, ERR_LONGTOKEN, acc, st1)
      else (true, c, err, acc, st1)

/-- Translated from token_read: skip whitespace, classify the first
character, and read the rest of the token according to its class.  The
status flag, the token structure (its string, error status and line
number), and the reader state are returned; an out-of-range pushback,
which aborts in C, is none. -/
def token_read (fuel : Nat) (src : TOKEN_SRC) : Option (Bool × TOKEN × TOKEN_SRC) :=
  match token_skipWhite fuel src with
  | (c, err, st1) =>
    if c < 0 then some (false, ⟨[], err, st1.line⟩, st1)
    else if c = 0 then some (true, ⟨[], ERR_OK, st1.line⟩, st1)
    else
      if token_isAtomic c then some (true, ⟨[c.toNat], ERR_OK, st1.line⟩, st1)
      else if token_isPitchString c then
        match token_collectWhile token_isAccidental fuel st1 [c.toNat] with
        | (status, c2, err2, str1, st2) =>
          if status = false then some (false, ⟨[], err2, st2.line⟩, st2)
          else if c2 < 0 then some (false, ⟨[], err2, st2.line⟩, st2)
          else
            match token_pushbackFn st2 c2 with
            | none => none
            | some st3 =>
              match token_collectWhile token_isSuffix fuel st3 str1 with
              | (status2, c3, err3, str2, st4) =>
                if status2 = false then some (false, ⟨[], err3, st4.line⟩, st4)
                else if c3 < 0 then some (false, ⟨[], err3, st4.line⟩, st4)
                else
                  match token_pushbackFn st4 c3 with
                  | none => none
                  | some st5 => some (true, ⟨str2, ERR_OK, st1.line⟩, st5)
      else if token_isRhythmString c then
        match token_readByteFinal fuel st1 with
        | (c2, err2, st2) =>
          if c2 < 0 then some (false, ⟨[], err2, st2.line⟩, st2)
          else if token_isSuffix c2 then
            some (true, ⟨[c.toNat, c2.toNat], ERR_OK, st1.line⟩, st2)
          else
            match token_pushbackFn st2 c2 with
            | none => none
            | some st3 => some (true, ⟨[c.toNat], ERR_OK, st1.line⟩, st3)
      else if token_isParamOp c then
        match token_collectWhile
            (fun x => token_isPrinting x && ! decide (x = (ASCII_SEMICOL : Int)))
            fuel st1 [c.toNat] with
        | (status2, c2, err2, str1, st2) =>
          if status2 = false then some (false, ⟨[], err2, st2.line⟩, st2)
          else if c2 < 0 then some (false, ⟨[], err2, st2.line⟩, st2)
          else if c2 ≠ (ASCII_SEMICOL : Int) then
            some (false, ⟨[], ERR_PARAMTK, st2.line⟩, st2)
          else if (str1.length : Int) < TOKEN_MAXCHAR - 1 then
            some (true, ⟨str1 ++ [ASCII_SEMICOL], ERR_OK, st1.line⟩, st2)
          else some (false, ⟨[], ERR_LONGTOKEN, st2.line⟩, st2)
      else if token_isKeyOp c then
        match token_readByteFinal fuel st1 with
        | (c2, err2, st2) =>
          if c2 < 0 then some (false, ⟨[], err2, st2.line⟩, st2)
          else if token_isPrinting c2 = false then
            some (false, ⟨[], ERR_KEYTOKEN, st2.line⟩, st2)
          else some (true, ⟨[c.toNat, c2.toNat], ERR_OK, st1.line⟩, st2)
      else some (false, ⟨[], ERR_BADCHAR, st1.line⟩, st1)

/-! NMF codec, from the nmf.c sources concatenated into src/event.c (the
nmf_serialize at line 2065 and nmf_parse at line 1534 the claims cite).
A file is a byte list; writers append to the buffer they are given and
readers consume from the front.  A read that fails in C by returning -1
or status zero either carries the -1 sentinel or is none; the bytes a
failing C read consumed are irrelevant because every caller then fails
as a whole.  C integer casts to uint32/uint16 are the explicit mod-and-
toNat conversions. -/

structure NMF_DATA where
  basis : Int
  sects : List Int
  notes : List NMF_NOTE
deriving DecidableEq, Repr

/-- Translated from nmf_writeUint32: four bytes, most significant
first. -/
def nmf_writeUint32 (out : List Nat) (v : Nat) : List Nat :=
  out ++ [v >>> 24, (v >>> 16) &&& 0xff, (v >>> 8) &&& 0xff, v &&& 0xff]

/-- Translated from nmf_writeUint16: two bytes, most significant
first. -/
def nmf_writeUint16 (out : List Nat) (v : Nat) : List Nat :=
  out ++ [v >>> 8, v &&& 0xff]

/-- Translated from nmf_writeBias32: add the 32-bit bias and write the
raw value, faulting when the biased value leaves the unsigned 32-bit
range. -/
def nmf_writeBias32 (out : List Nat) (v : Int) : Option (List Nat) :=
  let rv := v + NMF_BIAS32
  if 0 ≤ rv ∧ rv ≤ 4294967295 then some (nmf_writeUint32 out rv.toNat) else none

/-- Translated from nmf_writeBias16: add the 16-bit bias and write the
raw value, faulting when the biased value leaves the unsigned 16-bit
range. -/
def nmf_writeBias16 (out : List Nat) (v : Int) : Option (List Nat) :=
  let rv := v + NMF_BIAS16
  if 0 ≤ rv ∧ rv ≤ 65535 then some (nmf_writeUint16 out rv.toNat) else none

/-- Translated from nmf_read32: accumulate four bytes most significant
first into a uint32; none when the input runs out. -/
def nmf_read32 (inp : List Nat) : Option (Nat × List Nat) :=
  match inp with
  | b0 :: b1 :: b2 :: b3 :: rest =>
    some ((((((((0 <<< 8) % 4294967296 ||| b0) <<< 8) % 4294967296 ||| b1) <<< 8)
      % 4294967296 ||| b2) <<< 8) % 4294967296 ||| b3, rest)
  | _ => none

/-- Translated from nmf_read16: accumulate two bytes most significant
first into a uint16; none when the input runs out. -/
def nmf_read16 (inp : List Nat) : Option (Nat × List Nat) :=
  match inp with
  | b0 :: b1 :: rest =>
    some ((((0 <<< 8) % 65536 ||| b0) <<< 8) % 65536 ||| b1, rest)
  | _ => none

/-- Translated from nmf_readUint32: the raw 32-bit value, range-checked
against NMF_MAXUINT32; -1 signals failure. -/
def nmf_readUint32 (inp : List Nat) : Int × List Nat :=
  match nmf_read32 inp with
  | none => (-1, inp)
  | some (rv, rest) => if rv > NMF_MAXUINT32 then (-1, rest) else ((rv : Int), rest)

/-- Translated from nmf_readUint16: the raw 16-bit value, range-checked
against NMF_MAXUINT16; -1 signals failure. -/
def nmf_readUint16 (inp : List Nat) : Int × List Nat :=
  match nmf_read16 inp with
  | none => (-1, inp)
  | some (rv, rest) => if rv > NMF_MAXUINT16 then (-1, rest) else ((rv : Int), rest)

/-- Translated from nmf_readBias32: the raw value must be in
[1, NMF_MAXBIAS32] and is unbiased by NMF_BIAS32. -/
def nmf_readBias32 (inp : List Nat) : Option (Int × List Nat) :=
  match nmf_read32 inp with
  | none => none
  | some (rv, rest) =>
    if rv < 1 ∨ rv > NMF_MAXBIAS32 then none
    else some ((rv : Int) - NMF_BIAS32, rest)

/-- Translated from nmf_readBias16: the raw value must be in
[1, NMF_MAXBIAS16] and is unbiased by NMF_BIAS16. -/
def nmf_readBias16 (inp : List Nat) : Option (Int × List Nat) :=
  match nmf_read16 inp with
  | none => none
  | some (rv, rest) =>
    if rv < 1 ∨ rv > NMF_MAXBIAS16 then none
    else some ((rv : Int) - NMF_BIAS16, rest)

/-- Section-table loop of nmf_serialize. -/
def nmf_writeSects : List Int → List Nat → List Nat
  | [], out => out
  | v :: rest, out => nmf_writeSects rest (nmf_writeUint32 out (v % 4294967296).toNat)

/-- One iteration of the note loop of nmf_serialize. -/
def nmf_writeNote (out : List Nat) (n : NMF_NOTE) : Option (List Nat) :=
  match nmf_writeBias32 (nmf_writeUint32 out (n.t % 4294967296).toNat) n.dur with
  | none => none
  | some out2 =>
    match nmf_writeBias16 out2 n.pitch with
    | none => none
    | some out3 =>
      some (nmf_writeUint16 (nmf_writeUint16 (nmf_writeUint16 out3
        (n.art % 65536).toNat) (n.sect % 65536).toNat) (n.layer_i % 65536).toNat)

/-- Note-table loop of nmf_serialize. -/
def nmf_writeNotes : List NMF_NOTE → List Nat → Option (List Nat)
  | [], out => some out
  | n :: rest, out =>
    match nmf_writeNote out n with
    | none => none
    | some out2 => nmf_writeNotes rest out2

/-- Translated from nmf_serialize: signatures, quantum basis, section
and note counts, the section table, then the notes; status zero with
nothing written when there are no notes. -/
def nmf_serialize (d : NMF_DATA) : Option (Bool × List Nat) :=
  if 0 < d.notes.length then
    match nmf_writeNotes d.notes
      (nmf_writeSects d.sects
        (nmf_writeUint32
          (nmf_writeUint16
            (nmf_writeUint16
              (nmf_writeUint32 (nmf_writeUint32 [] NMF_SIGPRI.toNat) NMF_SIGSEC.toNat)
              (d.basis % 65536).toNat)
            ((d.sects.length : Int) % 65536).toNat)
          ((d.notes.length : Int) % 4294967296).toNat)) with
    | none => none
    | some out => some (true, out)
  else some (false, [])

/-- Section-table loop of nmf_parse: each value must be non-negative,
the first must be zero, and later values must not decrease. -/
def nmf_parseSects : Nat → List Nat → List Int → Option (List Int × List Nat)
  | 0, inp, acc => some (acc, inp)
  | k + 1, inp, acc =>
    match nmf_readUint32 inp with
    | (v, rest) =>
      if v < 0 then none
      else
        match acc.getLast? with
        | none => if v ≠ 0 then none else nmf_parseSects k rest (acc ++ [v])
        | some prevv => if v < prevv then none else nmf_parseSects k rest (acc ++ [v])

/-- One iteration of the note loop of nmf_parse, with the per-field
reads and the range checks in source order. -/
def nmf_parseNote (inp : List Nat) (sects : List Int) : Option (NMF_NOTE × List Nat) :=
  match nmf_readUint32 inp with
  | (t, r1) =>
    if t < 0 then none
    else
      match nmf_readBias32 r1 with
      | none => none
      | some (dur, r2) =>
        match nmf_readBias16 r2 with
        | none => none
        | some (pitch, r3) =>
          match nmf_readUint16 r3 with
          | (art, r4) =>
            if art < 0 then none
            else
              match nmf_readUint16 r4 with
              | (sect, r5) =>
                if sect < 0 then none
                else
                  match nmf_readUint16 r5 with
                  | (layer_i, r6) =>
                    if layer_i < 0 then none
                    else if pitch < NMF_MINPITCH ∨ pitch > NMF_MAXPITCH then none
                    else if art > NMF_MAXART then none
                    else if sect ≥ (sects.length : Int) then none
                    else
                      match sects.get? sect.toNat with
                      | none => none
                      | some soff =>
                        if t < soff then none
                        else some (⟨t, dur, pitch, art, sect, layer_i⟩, r6)

/-- Note-table loop of nmf_parse. -/
def nmf_parseNotes : Nat → List Nat → List Int → List NMF_NOTE →
    Option (List NMF_NOTE × List Nat)
  | 0, inp, _, acc => some (acc, inp)
  | k + 1, inp, sects, acc =>
    match nmf_parseNote inp sects with
    | none => none
    | some (n, rest) => nmf_parseNotes k rest sects (acc ++ [n])

/-- Translated from nmf_parse: signatures, quantum basis with its three
legal values, the range-checked section and note counts, the section
table, then the notes.  Trailing bytes after the notes are ignored, as
in the C code. -/
def nmf_parse (inp : List Nat) : Option NMF_DATA :=
  match nmf_readUint32 inp with
  | (sig1, r1) =>
    if sig1 ≠ NMF_SIGPRI then none
    else
      match nmf_readUint32 r1 with
      | (sig2, r2) =>
        if sig2 ≠ NMF_SIGSEC then none
        else
          match nmf_readUint16 r2 with
          | (basis, r3) =>
            if basis ≠ NMF_BASIS_Q96 ∧ basis ≠ NMF_BASIS_44100 ∧
                basis ≠ NMF_BASIS_48000 then none
            else
              match nmf_readUint16 r3 with
              | (sect_count, r4) =>
                if sect_count < 1 ∨ sect_count > NMF_MAXSECT then none
                else
                  match nmf_readUint32 r4 with
                  | (note_count, r5) =>
                    if note_count < 1 ∨ note_count > NMF_MAXNOTE then none
                    else
                      match nmf_parseSects sect_count.toNat r5 [] with
                      | none => none
                      | some (sects, r6) =>
                        match nmf_parseNotes note_count.toNat r6 sects [] with
                        | none => none
                        | some (notes, _) => some ⟨basis, sects, notes⟩

/-- Per-note format invariants relative to a section table, from the
NMF_NOTE contract in the nmf.c sources: every field within its file
range, the note's section defined, and the time offset at least the
section offset. -/
def nmf_noteWF (sects : List Int) (n : NMF_NOTE) : Prop :=
  0 ≤ n.t ∧ n.t ≤ 2147483647 ∧
  -2147483647 ≤ n.dur ∧ n.dur ≤ 2147483647 ∧
  NMF_MINPITCH ≤ n.pitch ∧ n.pitch ≤ NMF_MAXPITCH ∧
  0 ≤ n.art ∧ n.art ≤ NMF_MAXART ∧
  0 ≤ n.sect ∧ n.sect < (sects.length : Int) ∧
  0 ≤ n.layer_i ∧ n.layer_i ≤ 65535 ∧
  (∀ soff : Int, sects.get? n.sect.toNat = some soff → soff ≤ n.t)

/-- Format invariants of an NMF data value, from the NMF_DATA contract
in the nmf.c sources: a legal basis, section and note counts in range,
first section at offset zero and offsets non-decreasing, every note
well formed against the section table. -/
def nmfWF (d : NMF_DATA) : Prop :=
  (d.basis = NMF_BASIS_Q96 ∨ d.basis = NMF_BASIS_44100 ∨ d.basis = NMF_BASIS_48000) ∧
  1 ≤ d.sects.length ∧ (d.sects.length : Int) ≤ NMF_MAXSECT ∧
  1 ≤ d.notes.length ∧ (d.notes.length : Int) ≤ NMF_MAXNOTE ∧
  d.sects.head? = some 0 ∧
  List.Chain' (· ≤ ·) d.sects ∧
  (∀ s ∈ d.sects, 0 ≤ s ∧ s ≤ 2147483647) ∧
  (∀ n ∈ d.notes, nmf_noteWF d.sects n)

/-! Theorems.  Everything below this point is a lemma or a claim
theorem about the definitions above. -/

theorem nmf_cmp_le_char (pa pb : NMF_NOTE) :
    nmf_cmp pa pb ≤ 0 ↔
      pa.t < pb.t ∨
        (pa.t = pb.t ∧
          ((pa.dur < 0 ∧ pb.dur < 0 ∧ pa.dur ≤ pb.dur) ∨
            (pa.dur < 0 ∧ 0 ≤ pb.dur) ∨ (0 ≤ pa.dur ∧ 0 ≤ pb.dur))) := by
  unfold nmf_cmp
  split_ifs <;> omega

theorem nmf_cmp_total (pa pb : NMF_NOTE) :
    nmf_cmp pa pb ≤ 0 ∨ nmf_cmp pb pa ≤ 0 := by
  unfold nmf_cmp
  split_ifs <;> omega

theorem nmf_cmp_trans (pa pb pc : NMF_NOTE)
    (h1 : nmf_cmp pa pb ≤ 0) (h2 : nmf_cmp pb pc ≤ 0) : nmf_cmp pa pc ≤ 0 := by
  rw [nmf_cmp_le_char] at h1 h2 ⊢
  omega

theorem nmf_sort_insert_mem (x a : NMF_NOTE) (l : List NMF_NOTE)
    (h : a ∈ nmf_sort_insert x l) : a = x ∨ a ∈ l := by
  induction l with
  | nil =>
    simp only [nmf_sort_insert, List.mem_singleton] at h
    exact Or.inl h
  | cons y ys ih =>
    unfold nmf_sort_insert at h
    by_cases hc : nmf_cmp x y ≤ 0
    · simp only [if_pos hc] at h
      rcases List.mem_cons.mp h with rfl | h
      · exact Or.inl rfl
      · exact Or.inr h
    · simp only [if_neg hc] at h
      rcases List.mem_cons.mp h with rfl | h
      · exact Or.inr (List.mem_cons_self _ _)
      · rcases ih h with h' | h'
        · exact Or.inl h'
        · exact Or.inr (List.mem_cons_of_mem _ h')

theorem nmf_sort_insert_sorted (x : NMF_NOTE) (l : List NMF_NOTE)
    (h : nmfCmpSorted l) : nmfCmpSorted (nmf_sort_insert x l) := by
  induction l with
  | nil => simp [nmf_sort_insert, nmfCmpSorted]
  | cons y ys ih =>
    unfold nmfCmpSorted at h
    rw [List.pairwise_cons] at h
    unfold nmf_sort_insert
    by_cases hc : nmf_cmp x y ≤ 0
    · simp only [if_pos hc]
      unfold nmfCmpSorted
      rw [List.pairwise_cons, List.pairwise_cons]
      refine ⟨?_, h.1, h.2⟩
      intro a ha
      rcases List.mem_cons.mp ha with rfl | ha
      · exact hc
      · exact nmf_cmp_trans x y a hc (h.1 a ha)
    · simp only [if_neg hc]
      unfold nmfCmpSorted
      rw [List.pairwise_cons]
      constructor
      · intro a ha
        have hyx : nmf_cmp y x ≤ 0 := by
          rcases nmf_cmp_total x y with h' | h'
          · exact absurd h' hc
          · exact h'
        rcases nmf_sort_insert_mem x a ys ha with rfl | ha
        · exact hyx
        · exact h.1 a ha
      · exact ih h.2

theorem nmf_sort_sorted (l : List NMF_NOTE) : nmfCmpSorted (nmf_sort l) := by
  induction l with
  | nil => simp [nmf_sort, nmfCmpSorted]
  | cons x xs ih => exact nmf_sort_insert_sorted x (nmf_sort xs) ih

/-- Claim C1 (corrected).  The list produced by the writer-side sort is
weakly ordered by time offset ascending; at equal time offsets grace
notes precede non-grace notes and grace notes appear in ascending
duration order.  The original claim additionally required ascending
durations among non-grace notes at the same time offset, which nmf_cmp
does not enforce. -/
theorem C1_sort_order_amended (l : List NMF_NOTE) : nmfSortOrder (nmf_sort l) := by
  have hs := nmf_sort_sorted l
  unfold nmfCmpSorted at hs
  unfold nmfSortOrder
  refine List.Pairwise.imp ?_ hs
  intro a b hab
  rw [nmf_cmp_le_char] at hab
  omega

theorem and_low_mask (v k : Nat) : v &&& (2 ^ k - 1) = v % 2 ^ k := by
  apply Nat.eq_of_testBit_eq
  intro i
  rw [Nat.testBit_and, Nat.testBit_two_pow_sub_one, Nat.testBit_mod_two_pow]
  exact Bool.and_comm _ _

theorem and_high_mask (v k : Nat) :
    v &&& ((2 ^ k - 1) <<< k) = ((v >>> k) % 2 ^ k) <<< k := by
  apply Nat.eq_of_testBit_eq
  intro i
  rw [Nat.testBit_and, Nat.testBit_shiftLeft, Nat.testBit_shiftLeft,
    Nat.testBit_two_pow_sub_one, Nat.testBit_mod_two_pow, Nat.testBit_shiftRight]
  by_cases h : k ≤ i
  · have hik : k + (i - k) = i := by omega
    rw [hik]
    cases hv : v.testBit i <;> simp [h]
  · simp [h]

theorem shiftLeft_eq_zero_iff (x k : Nat) : x <<< k = 0 ↔ x = 0 := by
  rw [Nat.shiftLeft_eq]
  simp [Nat.pos_iff_ne_zero.mp (Nat.two_pow_pos k)]

/-- High-half mask test of the bit scan cascades: for a value confined
to 2k bits, testing the upper k bits is testing whether the value
reaches 2 to the k. -/
theorem high_mask_test (v k : Nat) (hlt : v < 2 ^ (2 * k)) :
    v &&& ((2 ^ k - 1) <<< k) ≠ 0 ↔ 2 ^ k ≤ v := by
  rw [and_high_mask]
  rw [Ne, shiftLeft_eq_zero_iff]
  have hsm : v >>> k < 2 ^ k := by
    rw [Nat.shiftRight_eq_div_pow]
    apply (Nat.div_lt_iff_lt_mul (Nat.two_pow_pos k)).mpr
    calc v < 2 ^ (2 * k) := hlt
    _ = 2 ^ k * 2 ^ k := by rw [← pow_add]; ring_nf
  rw [Nat.mod_eq_of_lt hsm]
  rw [Nat.shiftRight_eq_div_pow]
  constructor
  · intro h
    by_contra hc
    push_neg at hc
    exact h (Nat.div_eq_of_lt hc)
  · intro h hc
    have := (Nat.one_le_div_iff (Nat.two_pow_pos k)).mpr h
    omega

/-- Low-half mask test of the least-bit cascade. -/
theorem low_mask_test (v k : Nat) : v &&& (2 ^ k - 1) = 0 ↔ v % 2 ^ k = 0 := by
  rw [and_low_mask]

theorem shiftRight_shiftRight (v m n : Nat) : (v >>> m) >>> n = v >>> (m + n) := by
  rw [Nat.shiftRight_eq_div_pow, Nat.shiftRight_eq_div_pow, Nat.shiftRight_eq_div_pow,
    Nat.div_div_eq_div_mul, pow_add]

theorem shiftRight_lt_of_lt (v k w : Nat) (h : v < 2 ^ (w + k)) : v >>> k < 2 ^ w := by
  rw [Nat.shiftRight_eq_div_pow]
  apply (Nat.div_lt_iff_lt_mul (Nat.two_pow_pos k)).mpr
  calc v < 2 ^ (w + k) := h
  _ = 2 ^ w * 2 ^ k := pow_add 2 w k

theorem shiftRight_pos (v k : Nat) (h : 2 ^ k ≤ v) : 0 < v >>> k := by
  rw [Nat.shiftRight_eq_div_pow]
  exact (Nat.one_le_div_iff (Nat.two_pow_pos k)).mpr h
/-- Invariant transfer across one block of the most-significant-bit
cascade: the running value stays the right shift of the input by the
accumulated count, stays positive, and halves its width. -/
theorem bitMostStage_spec (v k M : Nat) (hM : M = (2 ^ k - 1) <<< k) (p : Nat × Nat)
    (h1 : 0 < p.1) (h2 : p.1 < 2 ^ (2 * k)) (hv : v >>> p.2 = p.1) :
    v >>> (bitMostStage k M p).2 = (bitMostStage k M p).1 ∧
      0 < (bitMostStage k M p).1 ∧ (bitMostStage k M p).1 < 2 ^ k ∧
      (bitMostStage k M p).2 = p.2 ∨
    v >>> (bitMostStage k M p).2 = (bitMostStage k M p).1 ∧
      0 < (bitMostStage k M p).1 ∧ (bitMostStage k M p).1 < 2 ^ k ∧
      (bitMostStage k M p).2 = p.2 + k := by
  subst hM
  unfold bitMostStage
  by_cases hc : p.1 &&& ((2 ^ k - 1) <<< k) ≠ 0
  · rw [if_pos hc]
    have hge := (high_mask_test p.1 k h2).mp hc
    refine Or.inr ⟨?_, shiftRight_pos p.1 k hge, ?_, rfl⟩
    · rw [← hv, shiftRight_shiftRight]
    · exact shiftRight_lt_of_lt p.1 k k (by rw [two_mul] at h2; exact h2)
  · rw [if_neg hc]
    refine Or.inl ⟨hv, h1, ?_, rfl⟩
    by_contra hge
    push_neg at hge
    exact hc ((high_mask_test p.1 k h2).mpr hge)

/-- The most significant bit scan locates the unique exponent m with
v >>> m = 1 whenever the input is a non-zero uint64 value. -/
theorem nvm_bit_most_spec (v : Nat) (h0 : 0 < v) (h64 : v < 2 ^ 64) :
    ∃ m : Nat, nvm_bit_most v = (m : Int) ∧ m ≤ 63 ∧ v >>> m = 1 := by
  have hne : v ≠ 0 := Nat.pos_iff_ne_zero.mp h0
  have s1 := bitMostStage_spec v 32 0xffffffff00000000
    (by rw [Nat.shiftLeft_eq]; norm_num) (v, 0) h0 (by norm_num at h64 ⊢; omega) rfl
  set q1 := bitMostStage 32 0xffffffff00000000 (v, 0) with hq1
  have f1 : v >>> q1.2 = q1.1 ∧ 0 < q1.1 ∧ q1.1 < 2 ^ 32 ∧ q1.2 ≤ 32 := by
    rcases s1 with ⟨e, g, l, b⟩ | ⟨e, g, l, b⟩ <;> exact ⟨e, g, l, by omega⟩
  obtain ⟨e1, g1, l1, b1⟩ := f1
  have s2 := bitMostStage_spec v 16 0xffff0000
    (by rw [Nat.shiftLeft_eq]; norm_num) q1 g1 (by norm_num at l1 ⊢; omega) e1
  set q2 := bitMostStage 16 0xffff0000 q1 with hq2
  have f2 : v >>> q2.2 = q2.1 ∧ 0 < q2.1 ∧ q2.1 < 2 ^ 16 ∧ q2.2 ≤ 48 := by
    rcases s2 with ⟨e, g, l, b⟩ | ⟨e, g, l, b⟩ <;> exact ⟨e, g, l, by omega⟩
  obtain ⟨e2, g2, l2, b2⟩ := f2
  have s3 := bitMostStage_spec v 8 0xff00
    (by rw [Nat.shiftLeft_eq]; norm_num) q2 g2 (by norm_num at l2 ⊢; omega) e2
  set q3 := bitMostStage 8 0xff00 q2 with hq3
  have f3 : v >>> q3.2 = q3.1 ∧ 0 < q3.1 ∧ q3.1 < 2 ^ 8 ∧ q3.2 ≤ 56 := by
    rcases s3 with ⟨e, g, l, b⟩ | ⟨e, g, l, b⟩ <;> exact ⟨e, g, l, by omega⟩
  obtain ⟨e3, g3, l3, b3⟩ := f3
  have s4 := bitMostStage_spec v 4 0xf0
    (by rw [Nat.shiftLeft_eq]; norm_num) q3 g3 (by norm_num at l3 ⊢; omega) e3
  set q4 := bitMostStage 4 0xf0 q3 with hq4
  have f4 : v >>> q4.2 = q4.1 ∧ 0 < q4.1 ∧ q4.1 < 2 ^ 4 ∧ q4.2 ≤ 60 := by
    rcases s4 with ⟨e, g, l, b⟩ | ⟨e, g, l, b⟩ <;> exact ⟨e, g, l, by omega⟩
  obtain ⟨e4, g4, l4, b4⟩ := f4
  have s5 := bitMostStage_spec v 2 0xc
    (by rw [Nat.shiftLeft_eq]; norm_num) q4 g4 (by norm_num at l4 ⊢; omega) e4
  set q5 := bitMostStage 2 0xc q4 with hq5
  have f5 : v >>> q5.2 = q5.1 ∧ 0 < q5.1 ∧ q5.1 < 2 ^ 2 ∧ q5.2 ≤ 62 := by
    rcases s5 with ⟨e, g, l, b⟩ | ⟨e, g, l, b⟩ <;> exact ⟨e, g, l, by omega⟩
  obtain ⟨e5, g5, l5, b5⟩ := f5
  have s6 := bitMostStage_spec v 1 0x2
    (by rw [Nat.shiftLeft_eq]; norm_num) q5 g5 (by norm_num at l5 ⊢; omega) e5
  set q6 := bitMostStage 1 0x2 q5 with hq6
  have f6 : v >>> q6.2 = q6.1 ∧ 0 < q6.1 ∧ q6.1 < 2 ^ 1 ∧ q6.2 ≤ 63 := by
    rcases s6 with ⟨e, g, l, b⟩ | ⟨e, g, l, b⟩ <;> exact ⟨e, g, l, by omega⟩
  obtain ⟨e6, g6, l6, b6⟩ := f6
  refine ⟨q6.2, ?_, b6, ?_⟩
  · unfold nvm_bit_most
    rw [if_pos hne, ← hq1, ← hq2, ← hq3, ← hq4, ← hq5, ← hq6]
  · rw [e6]
    norm_num at l6
    omega

/-- Invariant transfer across one block of the least-significant-bit
cascade. -/
theorem bitLeastStage_spec (v k M : Nat) (hM : M = 2 ^ k - 1) (p : Nat × Nat)
    (h1 : v % 2 ^ p.2 = 0) (hv : v >>> p.2 = p.1) (h3 : p.1 % 2 ^ (2 * k) ≠ 0) :
    v % 2 ^ (bitLeastStage k M p).2 = 0 ∧
      v >>> (bitLeastStage k M p).2 = (bitLeastStage k M p).1 ∧
      (bitLeastStage k M p).1 % 2 ^ k ≠ 0 ∧
      ((bitLeastStage k M p).2 = p.2 ∨ (bitLeastStage k M p).2 = p.2 + k) := by
  subst hM
  unfold bitLeastStage
  by_cases hc : p.1 &&& (2 ^ k - 1) = 0
  · rw [if_pos hc]
    rw [low_mask_test] at hc
    obtain ⟨q, hq⟩ := Nat.dvd_iff_mod_eq_zero.mpr hc
    have hsq : p.1 >>> k = q := by
      rw [Nat.shiftRight_eq_div_pow, hq, Nat.mul_div_cancel_left q (Nat.two_pow_pos k)]
    refine ⟨?_, ?_, ?_, Or.inr rfl⟩
    · obtain ⟨w, hw⟩ := Nat.dvd_iff_mod_eq_zero.mpr h1
      have hwv : w = p.1 := by
        rw [← hv, Nat.shiftRight_eq_div_pow, hw,
          Nat.mul_div_cancel_left w (Nat.two_pow_pos p.2)]
      rw [hw, hwv, hq, pow_add]
      rw [show 2 ^ p.2 * (2 ^ k * q) = 2 ^ p.2 * 2 ^ k * q by ring]
      exact Nat.mul_mod_right _ _
    · rw [← shiftRight_shiftRight, hv]
    · rw [hsq]
      intro hqz
      apply h3
      rw [hq, two_mul, pow_add]
      rw [show 2 ^ k * q % (2 ^ k * 2 ^ k) = 2 ^ k * (q % 2 ^ k) from
        Nat.mul_mod_mul_left _ _ _]
      rw [hqz, Nat.mul_zero]
  · rw [if_neg hc]
    rw [low_mask_test] at hc
    exact ⟨h1, hv, hc, Or.inl rfl⟩

/-- The least significant bit scan locates the unique exponent l with
the low l bits of v zero and bit l set, for a non-zero uint64 input. -/
theorem nvm_bit_least_spec (v : Nat) (h0 : 0 < v) (h64 : v < 2 ^ 64) :
    ∃ l : Nat, nvm_bit_least v = (l : Int) ∧ l ≤ 63 ∧
      v % 2 ^ l = 0 ∧ (v >>> l) % 2 = 1 := by
  have hne : v ≠ 0 := Nat.pos_iff_ne_zero.mp h0
  have hstart : v % 2 ^ 64 ≠ 0 := by
    rw [Nat.mod_eq_of_lt h64]; exact hne
  have s1 := bitLeastStage_spec v 32 0xffffffff (by norm_num) (v, 0)
    (by simp [Nat.mod_one]) rfl (by norm_num at hstart ⊢; omega)
  set q1 := bitLeastStage 32 0xffffffff (v, 0) with hq1
  have f1 : v % 2 ^ q1.2 = 0 ∧ v >>> q1.2 = q1.1 ∧ q1.1 % 2 ^ 32 ≠ 0 ∧ q1.2 ≤ 32 := by
    obtain ⟨m, e, r, b⟩ := s1
    exact ⟨m, e, r, by rcases b with b | b <;> omega⟩
  obtain ⟨m1, e1, r1, b1⟩ := f1
  have s2 := bitLeastStage_spec v 16 0xffff (by norm_num) q1 m1 e1
    (by norm_num at r1 ⊢; omega)
  set q2 := bitLeastStage 16 0xffff q1 with hq2
  have f2 : v % 2 ^ q2.2 = 0 ∧ v >>> q2.2 = q2.1 ∧ q2.1 % 2 ^ 16 ≠ 0 ∧ q2.2 ≤ 48 := by
    obtain ⟨m, e, r, b⟩ := s2
    exact ⟨m, e, r, by rcases b with b | b <;> omega⟩
  obtain ⟨m2, e2, r2, b2⟩ := f2
  have s3 := bitLeastStage_spec v 8 0xff (by norm_num) q2 m2 e2
    (by norm_num at r2 ⊢; omega)
  set q3 := bitLeastStage 8 0xff q2 with hq3
  have f3 : v % 2 ^ q3.2 = 0 ∧ v >>> q3.2 = q3.1 ∧ q3.1 % 2 ^ 8 ≠ 0 ∧ q3.2 ≤ 56 := by
    obtain ⟨m, e, r, b⟩ := s3
    exact ⟨m, e, r, by rcases b with b | b <;> omega⟩
  obtain ⟨m3, e3, r3, b3⟩ := f3
  have s4 := bitLeastStage_spec v 4 0xf (by norm_num) q3 m3 e3
    (by norm_num at r3 ⊢; omega)
  set q4 := bitLeastStage 4 0xf q3 with hq4
  have f4 : v % 2 ^ q4.2 = 0 ∧ v >>> q4.2 = q4.1 ∧ q4.1 % 2 ^ 4 ≠ 0 ∧ q4.2 ≤ 60 := by
    obtain ⟨m, e, r, b⟩ := s4
    exact ⟨m, e, r, by rcases b with b | b <;> omega⟩
  obtain ⟨m4, e4, r4, b4⟩ := f4
  have s5 := bitLeastStage_spec v 2 0x3 (by norm_num) q4 m4 e4
    (by norm_num at r4 ⊢; omega)
  set q5 := bitLeastStage 2 0x3 q4 with hq5
  have f5 : v % 2 ^ q5.2 = 0 ∧ v >>> q5.2 = q5.1 ∧ q5.1 % 2 ^ 2 ≠ 0 ∧ q5.2 ≤ 62 := by
    obtain ⟨m, e, r, b⟩ := s5
    exact ⟨m, e, r, by rcases b with b | b <;> omega⟩
  obtain ⟨m5, e5, r5, b5⟩ := f5
  have s6 := bitLeastStage_spec v 1 0x1 (by norm_num) q5 m5 e5
    (by norm_num at r5 ⊢; omega)
  set q6 := bitLeastStage 1 0x1 q5 with hq6
  have f6 : v % 2 ^ q6.2 = 0 ∧ v >>> q6.2 = q6.1 ∧ q6.1 % 2 ^ 1 ≠ 0 ∧ q6.2 ≤ 63 := by
    obtain ⟨m, e, r, b⟩ := s6
    exact ⟨m, e, r, by rcases b with b | b <;> omega⟩
  obtain ⟨m6, e6, r6, b6⟩ := f6
  refine ⟨q6.2, ?_, b6, m6, ?_⟩
  · unfold nvm_bit_least
    rw [if_pos hne, ← hq1, ← hq2, ← hq3, ← hq4, ← hq5, ← hq6]
  · rw [e6]
    norm_num at r6
    omega


theorem shiftRight_eq_one_bounds (v m : Nat) (h : v >>> m = 1) :
    2 ^ m ≤ v ∧ v < 2 ^ (m + 1) := by
  rw [Nat.shiftRight_eq_div_pow] at h
  constructor
  · exact (Nat.one_le_div_iff (Nat.two_pow_pos m)).mp (le_of_eq h.symm)
  · have := (Nat.div_lt_iff_lt_mul (Nat.two_pow_pos m)).mp (by omega : v / 2 ^ m < 2)
    calc v < 2 * 2 ^ m := this
    _ = 2 ^ (m + 1) := by ring

theorem testBit_true_of_shiftRight_eq_one (v m : Nat) (h : v >>> m = 1) :
    v.testBit m = true := by
  rw [Nat.testBit_to_div_mod]
  rw [Nat.shiftRight_eq_div_pow] at h
  simp [h]

theorem testBit_false_of_gt_msb (v m j : Nat) (h : v >>> m = 1) (hj : m < j) :
    v.testBit j = false := by
  apply Nat.testBit_eq_false_of_lt
  have hb := (shiftRight_eq_one_bounds v m h).2
  calc v < 2 ^ (m + 1) := hb
  _ ≤ 2 ^ j := Nat.pow_le_pow_right (by norm_num) (by omega)

theorem testBit_true_of_odd_shift (v l : Nat) (h : (v >>> l) % 2 = 1) :
    v.testBit l = true := by
  rw [Nat.testBit_to_div_mod]
  rw [Nat.shiftRight_eq_div_pow] at h
  simp [h]

theorem testBit_false_of_mod_two_pow (v l j : Nat) (h : v % 2 ^ l = 0) (hj : j < l) :
    v.testBit j = false := by
  have hb := Nat.testBit_mod_two_pow v l j
  rw [h, Nat.zero_testBit] at hb
  simp only [hj, decide_True, Bool.true_and] at hb
  exact hb.symm

theorem testBit_implies_ge (v j : Nat) (h : v.testBit j = true) : 2 ^ j ≤ v := by
  by_contra hc
  push_neg at hc
  rw [Nat.testBit_eq_false_of_lt hc] at h
  exact Bool.false_ne_true h

/-- Correctness of nvm_pitchset_least on well-formed non-empty pitch
sets: the function returns the minimum of the pitches contained in the
set, a value inside the valid pitch range. -/
theorem nvm_pitchset_least_spec (ps : NVM_PITCHSET) (hwf : psWF ps)
    (hne : nvm_pitchset_isEmpty ps = false) :
    ∃ L : Int, nvm_pitchset_least ps = some L ∧
      NMF_MINPITCH ≤ L ∧ L ≤ NMF_MAXPITCH ∧ psMem ps L = true ∧
      ∀ p : Int, psMem ps p = true → L ≤ p := by
  obtain ⟨hwa, hwb, hwbl⟩ := hwf
  unfold nvm_pitchset_least
  rw [hne]
  simp only [Bool.false_eq_true, if_false]
  by_cases ha : ps.a ≠ 0
  · rw [if_pos ha]
    obtain ⟨m, hmeq, hm63, hm1⟩ := nvm_bit_most_spec ps.a (Nat.pos_of_ne_zero ha)
      (lt_trans hwa (by norm_num))
    have hm38 : m ≤ 38 := by
      have h2m := (shiftRight_eq_one_bounds ps.a m hm1).1
      by_contra hgt
      push_neg at hgt
      have : (2 : Nat) ^ 39 ≤ 2 ^ m := Nat.pow_le_pow_right (by norm_num) hgt
      omega
    rw [hmeq]
    have hrng : ¬ (-(((m : Int)) + 1) > NMF_MAXPITCH ∨ -(((m : Int)) + 1) < NMF_MINPITCH) := by
      unfold NMF_MAXPITCH NMF_MINPITCH
      omega
    simp only [show ¬ ((m : Int) < 0) by omega, if_neg, if_false]
    rw [if_neg hrng]
    refine ⟨-(((m : Int)) + 1), by simp, by unfold NMF_MINPITCH; omega,
      by unfold NMF_MAXPITCH; omega, ?_, ?_⟩
    · unfold psMem
      rw [if_pos (by unfold NMF_MINPITCH; omega)]
      have : (-(-(((m : Int)) + 1)) - 1).toNat = m := by omega
      rw [this]
      exact testBit_true_of_shiftRight_eq_one ps.a m hm1
    · intro p hp
      unfold psMem at hp
      by_cases hneg : NMF_MINPITCH ≤ p ∧ p < 0
      · rw [if_pos hneg] at hp
        have hle : (-p - 1).toNat ≤ m := by
          by_contra hgt
          push_neg at hgt
          rw [testBit_false_of_gt_msb ps.a m _ hm1 hgt] at hp
          exact Bool.false_ne_true hp
        omega
      · rw [if_neg hneg] at hp
        by_cases hpos : 0 ≤ p ∧ p ≤ NMF_MAXPITCH
        · omega
        · rw [if_neg hpos] at hp
          exact absurd hp (Bool.false_ne_true)
  · rw [if_neg ha]
    rw [not_not] at ha
    have hb : ps.b ≠ 0 := by
      intro hb0
      unfold nvm_pitchset_isEmpty at hne
      rw [ha, hb0] at hne
      simp at hne
    obtain ⟨m, hmeq, hm63, hm1⟩ := nvm_bit_most_spec ps.b (Nat.pos_of_ne_zero hb) hwb
    have hm15 : 15 ≤ m := by
      by_contra hlt
      push_neg at hlt
      have := testBit_false_of_mod_two_pow ps.b 15 m hwbl hlt
      rw [testBit_true_of_shiftRight_eq_one ps.b m hm1] at this
      simp at this
    rw [hmeq]
    have hrng : ¬ ((63 - (m : Int)) > NMF_MAXPITCH ∨ (63 - (m : Int)) < NMF_MINPITCH) := by
      unfold NMF_MAXPITCH NMF_MINPITCH
      omega
    simp only [show ¬ ((m : Int) < 0) by omega, if_neg, if_false]
    rw [if_neg hrng]
    refine ⟨63 - (m : Int), by simp, by unfold NMF_MINPITCH; omega,
      by unfold NMF_MAXPITCH; omega, ?_, ?_⟩
    · unfold psMem
      rw [if_neg (by unfold NMF_MINPITCH; omega), if_pos (by unfold NMF_MAXPITCH; omega)]
      have : ((63 : Int) - (63 - (m : Int))).toNat = m := by omega
      rw [this]
      exact testBit_true_of_shiftRight_eq_one ps.b m hm1
    · intro p hp
      unfold psMem at hp
      by_cases hneg : NMF_MINPITCH ≤ p ∧ p < 0
      · rw [if_pos hneg, ha, Nat.zero_testBit] at hp
        exact absurd hp (Bool.false_ne_true)
      · rw [if_neg hneg] at hp
        by_cases hpos : 0 ≤ p ∧ p ≤ NMF_MAXPITCH
        · rw [if_pos hpos] at hp
          have hle : ((63 : Int) - p).toNat ≤ m := by
            by_contra hgt
            push_neg at hgt
            rw [testBit_false_of_gt_msb ps.b m _ hm1 hgt] at hp
            exact Bool.false_ne_true hp
          unfold NMF_MAXPITCH at hpos
          omega
        · rw [if_neg hpos] at hp
          exact absurd hp (Bool.false_ne_true)

/-- Correctness of nvm_pitchset_most on well-formed non-empty pitch
sets: the function returns the maximum of the pitches contained in the
set, a value inside the valid pitch range. -/
theorem nvm_pitchset_most_spec (ps : NVM_PITCHSET) (hwf : psWF ps)
    (hne : nvm_pitchset_isEmpty ps = false) :
    ∃ M : Int, nvm_pitchset_most ps = some M ∧
      NMF_MINPITCH ≤ M ∧ M ≤ NMF_MAXPITCH ∧ psMem ps M = true ∧
      ∀ p : Int, psMem ps p = true → p ≤ M := by
  obtain ⟨hwa, hwb, hwbl⟩ := hwf
  unfold nvm_pitchset_most
  rw [hne]
  simp only [Bool.false_eq_true, if_false]
  by_cases hb : ps.b ≠ 0
  · rw [if_pos hb]
    obtain ⟨l, hleq, hl63, hlm, hl1⟩ := nvm_bit_least_spec ps.b (Nat.pos_of_ne_zero hb) hwb
    have hl15 : 15 ≤ l := by
      by_contra hlt
      push_neg at hlt
      have := testBit_false_of_mod_two_pow ps.b 15 l hwbl hlt
      rw [testBit_true_of_odd_shift ps.b l hl1] at this
      simp at this
    rw [hleq]
    have hrng : ¬ ((63 - (l : Int)) > NMF_MAXPITCH ∨ (63 - (l : Int)) < NMF_MINPITCH) := by
      unfold NMF_MAXPITCH NMF_MINPITCH
      omega
    simp only [show ¬ ((l : Int) < 0) by omega, if_neg, if_false]
    rw [if_neg hrng]
    refine ⟨63 - (l : Int), by simp, by unfold NMF_MINPITCH; omega,
      by unfold NMF_MAXPITCH; omega, ?_, ?_⟩
    · unfold psMem
      rw [if_neg (by unfold NMF_MINPITCH; omega), if_pos (by unfold NMF_MAXPITCH; omega)]
      have : ((63 : Int) - (63 - (l : Int))).toNat = l := by omega
      rw [this]
      exact testBit_true_of_odd_shift ps.b l hl1
    · intro p hp
      unfold psMem at hp
      by_cases hneg : NMF_MINPITCH ≤ p ∧ p < 0
      · rw [if_pos hneg] at hp
        omega
      · rw [if_neg hneg] at hp
        by_cases hpos : 0 ≤ p ∧ p ≤ NMF_MAXPITCH
        · rw [if_pos hpos] at hp
          have hge : l ≤ ((63 : Int) - p).toNat := by
            by_contra hgt
            push_neg at hgt
            rw [testBit_false_of_mod_two_pow ps.b l _ hlm hgt] at hp
            exact Bool.false_ne_true hp
          unfold NMF_MAXPITCH at hpos
          omega
        · rw [if_neg hpos] at hp
          exact absurd hp (Bool.false_ne_true)
  · rw [if_neg hb]
    rw [not_not] at hb
    have ha : ps.a ≠ 0 := by
      intro ha0
      unfold nvm_pitchset_isEmpty at hne
      rw [ha0, hb] at hne
      simp at hne
    obtain ⟨l, hleq, hl63, hlm, hl1⟩ := nvm_bit_least_spec ps.a (Nat.pos_of_ne_zero ha)
      (lt_trans hwa (by norm_num))
    have hl38 : l ≤ 38 := by
      have := testBit_implies_ge ps.a l (testBit_true_of_odd_shift ps.a l hl1)
      by_contra hgt
      push_neg at hgt
      have h2 : (2 : Nat) ^ 39 ≤ 2 ^ l := Nat.pow_le_pow_right (by norm_num) hgt
      omega
    rw [hleq]
    have hrng : ¬ (-(((l : Int)) + 1) > NMF_MAXPITCH ∨ -(((l : Int)) + 1) < NMF_MINPITCH) := by
      unfold NMF_MAXPITCH NMF_MINPITCH
      omega
    simp only [show ¬ ((l : Int) < 0) by omega, if_neg, if_false]
    rw [if_neg hrng]
    refine ⟨-(((l : Int)) + 1), by simp, by unfold NMF_MINPITCH; omega,
      by unfold NMF_MAXPITCH; omega, ?_, ?_⟩
    · unfold psMem
      rw [if_pos (by unfold NMF_MINPITCH; omega)]
      have : (-(-(((l : Int)) + 1)) - 1).toNat = l := by omega
      rw [this]
      exact testBit_true_of_odd_shift ps.a l hl1
    · intro p hp
      unfold psMem at hp
      by_cases hneg : NMF_MINPITCH ≤ p ∧ p < 0
      · rw [if_pos hneg] at hp
        have hge : l ≤ (-p - 1).toNat := by
          by_contra hgt
          push_neg at hgt
          rw [testBit_false_of_mod_two_pow ps.a l _ hlm hgt] at hp
          exact Bool.false_ne_true hp
        omega
      · rw [if_neg hneg] at hp
        by_cases hpos : 0 ≤ p ∧ p ≤ NMF_MAXPITCH
        · rw [if_pos hpos, hb, Nat.zero_testBit] at hp
          exact absurd hp (Bool.false_ne_true)
        · rw [if_neg hpos] at hp
          exact absurd hp (Bool.false_ne_true)

theorem psMem_neg_eq (ps : NVM_PITCHSET) (p : Int)
    (h1 : NMF_MINPITCH ≤ p) (h2 : p < 0) :
    psMem ps p = ps.a.testBit (-p - 1).toNat := by
  unfold psMem
  rw [if_pos ⟨h1, h2⟩]

theorem psMem_nonneg_eq (ps : NVM_PITCHSET) (p : Int)
    (h1 : 0 ≤ p) (h2 : p ≤ NMF_MAXPITCH) :
    psMem ps p = ps.b.testBit (63 - p).toNat := by
  unfold psMem
  rw [if_neg (by omega), if_pos ⟨h1, h2⟩]

theorem psMem_out (ps : NVM_PITCHSET) (p : Int)
    (h : ¬ (NMF_MINPITCH ≤ p ∧ p ≤ NMF_MAXPITCH)) : psMem ps p = false := by
  unfold psMem
  unfold NMF_MINPITCH NMF_MAXPITCH at h ⊢
  rw [if_neg (by omega), if_neg (by omega)]

theorem psMem_isEmpty_false (ps : NVM_PITCHSET) (p : Int)
    (h : psMem ps p = true) : nvm_pitchset_isEmpty ps = false := by
  unfold psMem at h
  unfold nvm_pitchset_isEmpty
  by_cases hneg : NMF_MINPITCH ≤ p ∧ p < 0
  · rw [if_pos hneg] at h
    have : ps.a ≠ 0 := by
      intro h0
      rw [h0, Nat.zero_testBit] at h
      exact Bool.false_ne_true h
    simp [this]
  · rw [if_neg hneg] at h
    by_cases hpos : 0 ≤ p ∧ p ≤ NMF_MAXPITCH
    · rw [if_pos hpos] at h
      have : ps.b ≠ 0 := by
        intro h0
        rw [h0, Nat.zero_testBit] at h
        exact Bool.false_ne_true h
      simp [this]
    · rw [if_neg hpos] at h
      exact absurd h (Bool.false_ne_true)

theorem psWF_a_bit (ps : NVM_PITCHSET) (hwf : psWF ps) (n : Nat) (hn : 39 ≤ n) :
    ps.a.testBit n = false := by
  apply Nat.testBit_eq_false_of_lt
  calc ps.a < 2 ^ 39 := hwf.1
  _ ≤ 2 ^ n := Nat.pow_le_pow_right (by norm_num) hn

theorem psWF_b_low_bit (ps : NVM_PITCHSET) (hwf : psWF ps) (j : Nat) (hj : j < 15) :
    ps.b.testBit j = false :=
  testBit_false_of_mod_two_pow ps.b 15 j hwf.2.2 hj

theorem psWF_b_high_bit (ps : NVM_PITCHSET) (hwf : psWF ps) (j : Nat) (hj : 64 ≤ j) :
    ps.b.testBit j = false := by
  apply Nat.testBit_eq_false_of_lt
  calc ps.b < 2 ^ 64 := hwf.2.1
  _ ≤ 2 ^ j := Nat.pow_le_pow_right (by norm_num) hj

/-- Two well-formed pitch sets containing the same pitches are the same
register pair. -/
theorem psExt (ps qs : NVM_PITCHSET) (hwf1 : psWF ps) (hwf2 : psWF qs)
    (h : ∀ p : Int, NMF_MINPITCH ≤ p → p ≤ NMF_MAXPITCH → psMem ps p = psMem qs p) :
    ps = qs := by
  obtain ⟨pa, pb⟩ := ps
  obtain ⟨qa, qb⟩ := qs
  simp only [NVM_PITCHSET.mk.injEq]
  constructor
  · apply Nat.eq_of_testBit_eq
    intro n
    by_cases hn : n ≤ 38
    · have hm := h (-((n : Int) + 1)) (by unfold NMF_MINPITCH; omega)
        (by unfold NMF_MAXPITCH; omega)
      rw [psMem_neg_eq _ _ (by unfold NMF_MINPITCH; omega) (by omega),
        psMem_neg_eq _ _ (by unfold NMF_MINPITCH; omega) (by omega)] at hm
      have harg : (-(-((n : Int) + 1)) - 1).toNat = n := by omega
      rw [harg] at hm
      exact hm
    · rw [psWF_a_bit ⟨pa, pb⟩ hwf1 n (by omega), psWF_a_bit ⟨qa, qb⟩ hwf2 n (by omega)]
  · apply Nat.eq_of_testBit_eq
    intro j
    by_cases hjlow : j < 15
    · rw [psWF_b_low_bit ⟨pa, pb⟩ hwf1 j hjlow, psWF_b_low_bit ⟨qa, qb⟩ hwf2 j hjlow]
    · by_cases hjhigh : 64 ≤ j
      · rw [psWF_b_high_bit ⟨pa, pb⟩ hwf1 j hjhigh, psWF_b_high_bit ⟨qa, qb⟩ hwf2 j hjhigh]
      · have hm := h (63 - (j : Int)) (by unfold NMF_MINPITCH; omega)
          (by unfold NMF_MAXPITCH; omega)
        rw [psMem_nonneg_eq _ _ (by omega) (by unfold NMF_MAXPITCH; omega),
          psMem_nonneg_eq _ _ (by omega) (by unfold NMF_MAXPITCH; omega)] at hm
        have harg : ((63 : Int) - (63 - (j : Int))).toNat = j := by omega
        rw [harg] at hm
        exact hm

theorem shiftLeft_big_mod (x s : Nat) (h : 64 ≤ s) : (x <<< s) % 2 ^ 64 = 0 := by
  rw [Nat.shiftLeft_eq]
  obtain ⟨d, rfl⟩ := Nat.exists_eq_add_of_le h
  rw [pow_add, show x * (2 ^ 64 * 2 ^ d) = x * 2 ^ d * 2 ^ 64 by ring]
  exact Nat.mul_mod_left _ _

/-- Claim C1 counterexample.  Two non-grace notes at the same time
offset with durations 5 then 3: the list is already sorted with respect
to nmf_cmp, the realised sort leaves it unchanged, and the result
violates the claimed ascending-duration order at equal time offsets. -/
theorem C1_sort_order_counterexample :
    nmf_sort [⟨0, 5, 0, 0, 0, 0⟩, ⟨0, 3, 0, 0, 0, 0⟩] =
        [(⟨0, 5, 0, 0, 0, 0⟩ : NMF_NOTE), ⟨0, 3, 0, 0, 0, 0⟩] ∧
      nmfCmpSorted [⟨0, 5, 0, 0, 0, 0⟩, ⟨0, 3, 0, 0, 0, 0⟩] ∧
      ¬ claimedSortOrder [⟨0, 5, 0, 0, 0, 0⟩, ⟨0, 3, 0, 0, 0, 0⟩] := by
  refine ⟨by decide, ?_, ?_⟩
  · unfold nmfCmpSorted; decide
  · unfold claimedSortOrder; decide


theorem lt_two_pow_of_high_bits (x w : Nat) (h : ∀ i, w ≤ i → x.testBit i = false) :
    x < 2 ^ w := by
  have hx : x = x % 2 ^ w := by
    apply Nat.eq_of_testBit_eq
    intro i
    rw [Nat.testBit_mod_two_pow]
    by_cases hi : i < w
    · simp [hi]
    · simp [hi]
      exact h i (by omega)
  rw [hx]
  exact Nat.mod_lt _ (Nat.two_pow_pos w)

theorem mod_two_pow_eq_zero_of_low_bits (x w : Nat)
    (h : ∀ j, j < w → x.testBit j = false) : x % 2 ^ w = 0 := by
  apply Nat.eq_of_testBit_eq
  intro j
  rw [Nat.testBit_mod_two_pow, Nat.zero_testBit]
  by_cases hj : j < w
  · simp [hj, h j hj]
  · simp [hj]

theorem U64MOD_eq : U64MOD = 2 ^ 64 := by norm_num [U64MOD]

theorem psShiftDown_a_bit (ps : NVM_PITCHSET) (shv : Nat) (hs64 : shv ≤ 64) (n : Nat) :
    (psShiftDown ps shv).a.testBit n =
      ((decide (n < 64) && (decide (n ≥ shv) && ps.a.testBit (n - shv))) ||
        ps.b.testBit (64 - shv + n)) := by
  unfold psShiftDown
  have hcast : (((64 : Int) - (shv : Nat))).toNat = 64 - shv := by omega
  rw [hcast, U64MOD_eq]
  simp only [Nat.testBit_or, Nat.testBit_mod_two_pow, Nat.testBit_shiftLeft,
    Nat.testBit_shiftRight]

theorem psShiftDown_b_bit (ps : NVM_PITCHSET) (shv : Nat) (j : Nat) :
    (psShiftDown ps shv).b.testBit j =
      (decide (j < 64) && (decide (j ≥ shv) && ps.b.testBit (j - shv))) := by
  unfold psShiftDown
  rw [U64MOD_eq]
  simp only [Nat.testBit_mod_two_pow, Nat.testBit_shiftLeft]

theorem psShiftUp_a_bit (ps : NVM_PITCHSET) (shv : Nat) (n : Nat) :
    (psShiftUp ps shv).a.testBit n = ps.a.testBit (shv + n) := by
  unfold psShiftUp
  simp only [Nat.testBit_shiftRight]

theorem psShiftUp_b_bit (ps : NVM_PITCHSET) (shv : Nat) (hs64 : shv ≤ 64) (j : Nat) :
    (psShiftUp ps shv).b.testBit j =
      (ps.b.testBit (shv + j) ||
        (decide (j < 64) && (decide (j ≥ 64 - shv) && ps.a.testBit (j - (64 - shv))))) := by
  unfold psShiftUp
  have hcast : (((64 : Int) - (shv : Nat))).toNat = 64 - shv := by omega
  rw [hcast, U64MOD_eq]
  simp only [Nat.testBit_or, Nat.testBit_mod_two_pow, Nat.testBit_shiftLeft,
    Nat.testBit_shiftRight]

/-- Semantics of the transpose-down register shuffle: under the range
check every pitch moves down by the shift amount, and well-formedness is
preserved.  Valid for shift amounts up to 64; larger amounts reach
undefined C behaviour and are treated separately. -/
theorem psShiftDown_mem (ps : NVM_PITCHSET) (hwf : psWF ps) (shv : Nat)
    (hs1 : 1 ≤ shv) (hs64 : shv ≤ 64) (L : Int)
    (hLmin : ∀ p : Int, psMem ps p = true → L ≤ p)
    (hchk : (shv : Int) ≤ 39 + L) :
    (∀ p : Int, NMF_MINPITCH ≤ p → p ≤ NMF_MAXPITCH →
      psMem (psShiftDown ps shv) p = psMem ps (p + shv)) ∧
    psWF (psShiftDown ps shv) := by
  have hb_of_mem : ∀ j : Nat, 15 ≤ j → j ≤ 63 → ps.b.testBit j = true →
      L ≤ 63 - (j : Int) := by
    intro j h15 h63 hbit
    apply hLmin
    rw [psMem_nonneg_eq _ _ (by omega) (by unfold NMF_MAXPITCH; omega)]
    have : ((63 : Int) - (63 - (j : Int))).toNat = j := by omega
    rw [this]
    exact hbit
  have ha_of_mem : ∀ m : Nat, m ≤ 38 → ps.a.testBit m = true →
      L ≤ -((m : Int) + 1) := by
    intro m h38 hbit
    apply hLmin
    rw [psMem_neg_eq _ _ (by unfold NMF_MINPITCH; omega) (by omega)]
    have : (-(-((m : Int) + 1)) - 1).toNat = m := by omega
    rw [this]
    exact hbit
  constructor
  · intro p hlo hhi
    unfold NMF_MINPITCH at hlo
    unfold NMF_MAXPITCH at hhi
    by_cases hpneg : p < 0
    · rw [psMem_neg_eq _ _ (by unfold NMF_MINPITCH; omega) hpneg]
      rw [psShiftDown_a_bit ps shv hs64]
      have hn : (-p - 1).toNat < 64 := by omega
      by_cases hq : p + (shv : Int) < 0
      · have hge : (-p - 1).toNat ≥ shv := by omega
        have hhigh : ps.b.testBit (64 - shv + (-p - 1).toNat) = false :=
          psWF_b_high_bit ps hwf _ (by omega)
        rw [hhigh]
        by_cases hr : NMF_MINPITCH ≤ p + (shv : Int)
        · rw [psMem_neg_eq _ _ hr hq]
          have harg : (-p - 1).toNat - shv = (-(p + (shv : Int)) - 1).toNat := by
            unfold NMF_MINPITCH at hr
            omega
          rw [decide_eq_true hn, decide_eq_true hge, Bool.true_and, Bool.true_and,
            Bool.or_false, harg]
        · rw [psMem_out _ _ (by omega)]
          have hbig : ps.a.testBit ((-p - 1).toNat - shv) = false := by
            apply psWF_a_bit ps hwf
            unfold NMF_MINPITCH at hr
            omega
          rw [hbig, Bool.and_false, Bool.and_false, Bool.or_false]
      · have hlt : ¬ ((-p - 1).toNat ≥ shv) := by omega
        have harg : 64 - shv + (-p - 1).toNat = ((63 : Int) - (p + (shv : Int))).toNat := by
          omega
        by_cases hr : p + (shv : Int) ≤ NMF_MAXPITCH
        · rw [psMem_nonneg_eq _ _ (by omega) hr]
          rw [harg, decide_eq_false hlt, Bool.false_and, Bool.and_false, Bool.false_or]
        · rw [psMem_out _ _ (by omega)]
          have hbit : ps.b.testBit (64 - shv + (-p - 1).toNat) = false := by
            apply psWF_b_low_bit ps hwf
            unfold NMF_MAXPITCH at hr
            omega
          rw [hbit, decide_eq_false hlt, Bool.false_and, Bool.and_false, Bool.or_false]
    · rw [psMem_nonneg_eq _ _ (by omega) (by unfold NMF_MAXPITCH; omega)]
      rw [psShiftDown_b_bit ps shv]
      have hj : ((63 : Int) - p).toNat < 64 := by omega
      by_cases hjs : ((63 : Int) - p).toNat ≥ shv
      · have harg : ((63 : Int) - p).toNat - shv = ((63 : Int) - (p + (shv : Int))).toNat := by
          omega
        by_cases hr : p + (shv : Int) ≤ NMF_MAXPITCH
        · rw [psMem_nonneg_eq _ _ (by omega) hr, ← harg,
            decide_eq_true hj, decide_eq_true hjs, Bool.true_and, Bool.true_and]
        · rw [psMem_out _ _ (by omega)]
          have hbit : ps.b.testBit (((63 : Int) - p).toNat - shv) = false := by
            apply psWF_b_low_bit ps hwf
            unfold NMF_MAXPITCH at hr
            omega
          rw [hbit, Bool.and_false, Bool.and_false]
      · rw [psMem_out _ _ (by unfold NMF_MAXPITCH; omega)]
        rw [decide_eq_false hjs, Bool.false_and, Bool.and_false]
  · refine ⟨?_, ?_, ?_⟩
    · apply lt_two_pow_of_high_bits
      intro n hn39
      rw [psShiftDown_a_bit ps shv hs64]
      by_cases hn64 : n < 64
      · have hd1 : (decide (n ≥ shv) && ps.a.testBit (n - shv)) = false := by
          by_cases hge : n ≥ shv
          · by_cases h38 : n - shv ≤ 38
            · cases hbit : ps.a.testBit (n - shv)
              · simp
              · exfalso
                have := ha_of_mem (n - shv) h38 hbit
                omega
            · simp [psWF_a_bit ps hwf (n - shv) (by omega)]
          · simp [hge]
        have hd2 : ps.b.testBit (64 - shv + n) = false := by
          by_cases hsz : 64 - shv + n ≤ 63
          · cases hbit : ps.b.testBit (64 - shv + n)
            · rfl
            · exfalso
              have := hb_of_mem (64 - shv + n) (by omega) (by omega) hbit
              omega
          · exact psWF_b_high_bit ps hwf _ (by omega)
        simp [hd1, hd2]
      · have hd2 : ps.b.testBit (64 - shv + n) = false :=
          psWF_b_high_bit ps hwf _ (by omega)
        simp [hn64, hd2]
    · show (ps.b <<< shv) % U64MOD < 2 ^ 64
      rw [U64MOD_eq]
      exact Nat.mod_lt _ (Nat.two_pow_pos 64)
    · apply mod_two_pow_eq_zero_of_low_bits
      intro j hj15
      rw [psShiftDown_b_bit ps shv]
      by_cases hge : j ≥ shv
      · simp [psWF_b_low_bit ps hwf (j - shv) (by omega)]
      · simp [hge]

/-- Semantics of the transpose-up register shuffle: under the range
check every pitch moves up by the shift amount, and well-formedness is
preserved.  Valid for shift amounts up to 64. -/
theorem psShiftUp_mem (ps : NVM_PITCHSET) (hwf : psWF ps) (shv : Nat)
    (hs1 : 1 ≤ shv) (hs64 : shv ≤ 64) (M : Int)
    (hMmax : ∀ p : Int, psMem ps p = true → p ≤ M)
    (hchk : (shv : Int) ≤ 48 - M) :
    (∀ p : Int, NMF_MINPITCH ≤ p → p ≤ NMF_MAXPITCH →
      psMem (psShiftUp ps shv) p = psMem ps (p - shv)) ∧
    psWF (psShiftUp ps shv) := by
  have hb_of_mem : ∀ j : Nat, 15 ≤ j → j ≤ 63 → ps.b.testBit j = true →
      63 - (j : Int) ≤ M := by
    intro j h15 h63 hbit
    apply hMmax
    rw [psMem_nonneg_eq _ _ (by omega) (by unfold NMF_MAXPITCH; omega)]
    have : ((63 : Int) - (63 - (j : Int))).toNat = j := by omega
    rw [this]
    exact hbit
  have ha_of_mem : ∀ m : Nat, m ≤ 38 → ps.a.testBit m = true →
      -((m : Int) + 1) ≤ M := by
    intro m h38 hbit
    apply hMmax
    rw [psMem_neg_eq _ _ (by unfold NMF_MINPITCH; omega) (by omega)]
    have : (-(-((m : Int) + 1)) - 1).toNat = m := by omega
    rw [this]
    exact hbit
  constructor
  · intro p hlo hhi
    unfold NMF_MINPITCH at hlo
    unfold NMF_MAXPITCH at hhi
    by_cases hpneg : p < 0
    · rw [psMem_neg_eq _ _ (by unfold NMF_MINPITCH; omega) hpneg]
      rw [psShiftUp_a_bit ps shv]
      have hq : p - (shv : Int) < 0 := by omega
      by_cases hr : NMF_MINPITCH ≤ p - (shv : Int)
      · rw [psMem_neg_eq _ _ hr hq]
        have harg : shv + (-p - 1).toNat = (-(p - (shv : Int)) - 1).toNat := by
          unfold NMF_MINPITCH at hr
          omega
        rw [harg]
      · rw [psMem_out _ _ (by omega)]
        apply psWF_a_bit ps hwf
        unfold NMF_MINPITCH at hr
        omega
    · rw [psMem_nonneg_eq _ _ (by omega) (by unfold NMF_MAXPITCH; omega)]
      rw [psShiftUp_b_bit ps shv hs64]
      have hj : ((63 : Int) - p).toNat < 64 := by omega
      by_cases hq : 0 ≤ p - (shv : Int)
      · have hd2 : (decide (((63 : Int) - p).toNat ≥ 64 - shv) &&
            ps.a.testBit (((63 : Int) - p).toNat - (64 - shv))) = false := by
          have : ¬ (((63 : Int) - p).toNat ≥ 64 - shv) := by omega
          rw [decide_eq_false this, Bool.false_and]
        have harg : shv + ((63 : Int) - p).toNat = ((63 : Int) - (p - (shv : Int))).toNat := by
          omega
        rw [psMem_nonneg_eq _ _ hq (by unfold NMF_MAXPITCH; omega), ← harg, hd2,
          Bool.and_false, Bool.or_false]
      · have hd1 : ps.b.testBit (shv + ((63 : Int) - p).toNat) = false := by
          apply psWF_b_high_bit ps hwf
          omega
        have hge : ((63 : Int) - p).toNat ≥ 64 - shv := by omega
        by_cases hr : NMF_MINPITCH ≤ p - (shv : Int)
        · rw [psMem_neg_eq _ _ hr (by omega)]
          have harg : ((63 : Int) - p).toNat - (64 - shv) =
              (-(p - (shv : Int)) - 1).toNat := by
            unfold NMF_MINPITCH at hr
            omega
          rw [harg, hd1, Bool.false_or, decide_eq_true hj, Bool.true_and,
            decide_eq_true hge, Bool.true_and]
        · rw [psMem_out _ _ (by omega)]
          have hbit : ps.a.testBit (((63 : Int) - p).toNat - (64 - shv)) = false := by
            apply psWF_a_bit ps hwf
            unfold NMF_MINPITCH at hr
            omega
          rw [hd1, hbit, Bool.and_false, Bool.and_false, Bool.or_false]
  · refine ⟨?_, ?_, ?_⟩
    · apply lt_two_pow_of_high_bits
      intro n hn39
      rw [psShiftUp_a_bit ps shv]
      exact psWF_a_bit ps hwf _ (by omega)
    · apply Nat.or_lt_two_pow
      · calc ps.b >>> shv ≤ ps.b := by
              rw [Nat.shiftRight_eq_div_pow]
              exact Nat.div_le_self _ _
        _ < 2 ^ 64 := hwf.2.1
      · rw [U64MOD_eq]
        exact Nat.mod_lt _ (Nat.two_pow_pos 64)
    · apply mod_two_pow_eq_zero_of_low_bits
      intro j hj15
      rw [psShiftUp_b_bit ps shv hs64]
      have hd1 : ps.b.testBit (shv + j) = false := by
        by_cases hsz : shv + j ≤ 63
        · cases hbit : ps.b.testBit (shv + j)
          · rfl
          · exfalso
            by_cases h15 : 15 ≤ shv + j
            · have := hb_of_mem (shv + j) h15 (by omega) hbit
              omega
            · rw [psWF_b_low_bit ps hwf (shv + j) (by omega)] at hbit
              exact Bool.false_ne_true hbit
        · exact psWF_b_high_bit ps hwf _ (by omega)
      have hd2 : (decide (j ≥ 64 - shv) && ps.a.testBit (j - (64 - shv))) = false := by
        by_cases hge : j ≥ 64 - shv
        · cases hbit : ps.a.testBit (j - (64 - shv))
          · simp
          · exfalso
            have h38 : j - (64 - shv) ≤ 38 := by omega
            have := ha_of_mem (j - (64 - shv)) h38 hbit
            omega
        · simp [hge]
      rw [hd1, Bool.false_or, hd2, Bool.and_false]

/-- Register shuffle of the transpose-down branch for a shift amount of
64 or more: the embedding clamps the negative cross-fill shift count to
zero and truncates the overflowing left shifts, so the b register slides
wholesale into the a register. -/
theorem psShiftDown_big (ps : NVM_PITCHSET) (shv : Nat) (h : 64 ≤ shv) :
    psShiftDown ps shv = ⟨ps.b, 0⟩ := by
  unfold psShiftDown
  have ht : (((64 : Int) - (shv : Nat))).toNat = 0 := by omega
  rw [ht, U64MOD_eq, shiftLeft_big_mod ps.a shv h, shiftLeft_big_mod ps.b shv h]
  simp

/-- Register shuffle of the transpose-up branch for a shift amount of 64
or more: the a register slides wholesale into the b register. -/
theorem psShiftUp_big (ps : NVM_PITCHSET) (shv : Nat) (h : 64 ≤ shv)
    (ha : ps.a < 2 ^ 64) :
    psShiftUp ps shv = ⟨0, ps.b >>> shv ||| ps.a⟩ := by
  unfold psShiftUp
  have ht : (((64 : Int) - (shv : Nat))).toNat = 0 := by omega
  have ha0 : ps.a >>> shv = 0 := by
    rw [Nat.shiftRight_eq_div_pow]
    exact Nat.div_eq_of_lt (lt_of_lt_of_le ha (Nat.pow_le_pow_right (by norm_num) h))
  rw [ht, ha0, U64MOD_eq, Nat.shiftLeft_zero, Nat.mod_eq_of_lt ha]

/-- Well-formed pitch set whose members are all positive: the a register
is zero. -/
theorem psA_zero_of_min_pos (ps : NVM_PITCHSET) (hwf : psWF ps)
    (h : ∀ p : Int, psMem ps p = true → 0 < p) : ps.a = 0 := by
  by_contra ha
  obtain ⟨m, hmeq, hm63, hm1⟩ := nvm_bit_most_spec ps.a (Nat.pos_of_ne_zero ha)
    (lt_trans hwf.1 (by norm_num))
  have h2m := (shiftRight_eq_one_bounds ps.a m hm1).1
  have hm38 : m ≤ 38 := by
    by_contra hgt
    push_neg at hgt
    have h39 : (2 : Nat) ^ 39 ≤ 2 ^ m := Nat.pow_le_pow_right (by norm_num) hgt
    have := hwf.1
    omega
  have hmem : psMem ps (-((m : Int) + 1)) = true := by
    rw [psMem_neg_eq _ _ (by unfold NMF_MINPITCH; omega) (by omega)]
    have harg : (-(-((m : Int) + 1)) - 1).toNat = m := by omega
    rw [harg]
    exact testBit_true_of_shiftRight_eq_one ps.a m hm1
  have := h _ hmem
  omega

/-- Well-formed pitch set whose members are all negative: the b register
is zero. -/
theorem psB_zero_of_max_neg (ps : NVM_PITCHSET) (hwf : psWF ps)
    (h : ∀ p : Int, psMem ps p = true → p < 0) : ps.b = 0 := by
  by_contra hb
  obtain ⟨m, hmeq, hm63, hm1⟩ := nvm_bit_most_spec ps.b (Nat.pos_of_ne_zero hb) hwf.2.1
  have hm15 : 15 ≤ m := by
    by_contra hlt
    push_neg at hlt
    have := testBit_false_of_mod_two_pow ps.b 15 m hwf.2.2 hlt
    rw [testBit_true_of_shiftRight_eq_one ps.b m hm1] at this
    simp at this
  have hmem : psMem ps (63 - (m : Int)) = true := by
    rw [psMem_nonneg_eq _ _ (by omega) (by unfold NMF_MAXPITCH; omega)]
    have harg : ((63 : Int) - (63 - (m : Int))).toNat = m := by omega
    rw [harg]
    exact testBit_true_of_shiftRight_eq_one ps.b m hm1
  have := h _ hmem
  omega

/-- Exhaustive case analysis of a successful return of
nvm_pitchset_transpose: either the guard rejected the call and the set
is unchanged, or the range check failed with status zero and the set is
unchanged, or the matching shift branch ran under a passed range
check. -/
theorem transpose_cases (ps : NVM_PITCHSET) (a : Int) (st : Bool) (t : NVM_PITCHSET)
    (h : nvm_pitchset_transpose ps a = some (st, t)) :
    (st = true ∧ t = ps ∧ (a = 0 ∨ nvm_pitchset_isEmpty ps = true)) ∨
    (st = false ∧ t = ps) ∨
    (st = true ∧ a < 0 ∧ nvm_pitchset_isEmpty ps = false ∧ ∃ L : Int,
      nvm_pitchset_least ps = some L ∧ a ≥ NMF_MINPITCH - L ∧
      t = psShiftDown ps (-a).toNat) ∨
    (st = true ∧ 0 < a ∧ nvm_pitchset_isEmpty ps = false ∧ ∃ M : Int,
      nvm_pitchset_most ps = some M ∧ a ≤ NMF_MAXPITCH - M ∧
      t = psShiftUp ps a.toNat) := by
  unfold nvm_pitchset_transpose at h
  by_cases hc : a ≠ 0 ∧ nvm_pitchset_isEmpty ps = false
  · rw [if_pos hc] at h
    by_cases hneg : a < 0
    · rw [if_pos hneg] at h
      cases hL : nvm_pitchset_least ps with
      | none =>
        rw [hL] at h
        replace h : (none : Option (Bool × NVM_PITCHSET)) = some (st, t) := h
        exact absurd h (by simp)
      | some L =>
        rw [hL] at h
        replace h : (if a ≥ NMF_MINPITCH - L then
            some ((true : Bool), psShiftDown ps (-a).toNat)
          else some ((false : Bool), ps)) = some (st, t) := h
        by_cases hchk : a ≥ NMF_MINPITCH - L
        · rw [if_pos hchk] at h
          simp only [Option.some.injEq, Prod.mk.injEq] at h
          exact Or.inr (Or.inr (Or.inl
            ⟨h.1.symm, hneg, hc.2, L, rfl, hchk, h.2.symm⟩))
        · rw [if_neg hchk] at h
          simp only [Option.some.injEq, Prod.mk.injEq] at h
          exact Or.inr (Or.inl ⟨h.1.symm, h.2.symm⟩)
    · rw [if_neg hneg] at h
      cases hM : nvm_pitchset_most ps with
      | none =>
        rw [hM] at h
        replace h : (none : Option (Bool × NVM_PITCHSET)) = some (st, t) := h
        exact absurd h (by simp)
      | some M =>
        rw [hM] at h
        replace h : (if a ≤ NMF_MAXPITCH - M then
            some ((true : Bool), psShiftUp ps a.toNat)
          else some ((false : Bool), ps)) = some (st, t) := h
        by_cases hchk : a ≤ NMF_MAXPITCH - M
        · rw [if_pos hchk] at h
          simp only [Option.some.injEq, Prod.mk.injEq] at h
          refine Or.inr (Or.inr (Or.inr
            ⟨h.1.symm, ?_, hc.2, M, rfl, hchk, h.2.symm⟩))
          have := hc.1
          omega
        · rw [if_neg hchk] at h
          simp only [Option.some.injEq, Prod.mk.injEq] at h
          exact Or.inr (Or.inl ⟨h.1.symm, h.2.symm⟩)
  · rw [if_neg hc] at h
    simp only [Option.some.injEq, Prod.mk.injEq] at h
    refine Or.inl ⟨h.1.symm, h.2.symm, ?_⟩
    rw [not_and_or] at hc
    rcases hc with hc | hc
    · exact Or.inl (not_not.mp hc)
    · right
      cases hq : nvm_pitchset_isEmpty ps
      · exact absurd hq hc
      · rfl


/-- Claim C7: transposing a well-formed pitch set by an offset and then
by the negated offset, both calls succeeding, restores the original set;
and a transpose call that fails its range check returns the set
unchanged. -/
theorem C7_transpose_roundtrip (ps : NVM_PITCHSET) (a : Int) (hwf : psWF ps) :
    (∀ t u : NVM_PITCHSET,
      nvm_pitchset_transpose ps a = some (true, t) →
      nvm_pitchset_transpose t (-a) = some (true, u) → u = ps) ∧
    (∀ qs : NVM_PITCHSET,
      nvm_pitchset_transpose ps a = some (false, qs) → qs = ps) := by
  constructor
  · intro t u h1 h2
    rcases transpose_cases ps a true t h1 with
      ⟨-, rfl, hz⟩ | ⟨hst, -⟩ | ⟨-, hneg, hne, L, hL, hchk, rfl⟩ |
      ⟨-, hpos, hne, M, hM, hchk, rfl⟩
    · rcases transpose_cases t (-a) true u h2 with
        ⟨-, rfl, -⟩ | ⟨hst, -⟩ | ⟨-, hneg2, hne2, -⟩ | ⟨-, hpos2, hne2, -⟩
      · rfl
      · exact absurd hst (by simp)
      · rcases hz with rfl | hq
        · exfalso; omega
        · rw [hq] at hne2; exact absurd hne2 (by simp)
      · rcases hz with rfl | hq
        · exfalso; omega
        · rw [hq] at hne2; exact absurd hne2 (by simp)
    · exact absurd hst (by simp)
    · obtain ⟨L0, hL0, hLlo, hLhi, hLmem, hLmin⟩ := nvm_pitchset_least_spec ps hwf hne
      have hLL : L0 = L := by rw [hL0] at hL; exact Option.some.inj hL
      subst hLL
      have hs1 : 1 ≤ (-a).toNat := by omega
      unfold NMF_MINPITCH at hchk
      by_cases hs64 : (-a).toNat ≤ 64
      · obtain ⟨hmemt, hwft⟩ := psShiftDown_mem ps hwf (-a).toNat hs1 hs64 L0 hLmin
          (by omega)
        have hmemtL : psMem (psShiftDown ps (-a).toNat) (L0 - (-a).toNat) = true := by
          rw [hmemt (L0 - (-a).toNat) (by unfold NMF_MINPITCH; omega)
            (by unfold NMF_MAXPITCH at hLhi ⊢; omega)]
          have he : L0 - ((((-a).toNat)) : Int) + (((-a).toNat) : Int) = L0 := by ring
          rw [he]
          exact hLmem
        have hnet : nvm_pitchset_isEmpty (psShiftDown ps (-a).toNat) = false :=
          psMem_isEmpty_false _ _ hmemtL
        rcases transpose_cases _ (-a) true u h2 with
          ⟨-, rfl, hz2⟩ | ⟨hst, -⟩ | ⟨-, hneg2, -, -⟩ | ⟨-, -, -, M2, hM2, hchk2, rfl⟩
        · rcases hz2 with h0 | hq
          · exfalso; omega
          · rw [hq] at hnet; exact absurd hnet (by simp)
        · exact absurd hst (by simp)
        · exfalso; omega
        · obtain ⟨M0, hM0, hMlo, hMhi, hMmem, hMmax⟩ :=
            nvm_pitchset_most_spec _ hwft hnet
          have hMM : M0 = M2 := by rw [hM0] at hM2; exact Option.some.inj hM2
          subst hMM
          unfold NMF_MAXPITCH at hchk2
          obtain ⟨hmemu, hwfu⟩ := psShiftUp_mem _ hwft (-a).toNat hs1 hs64 M0 hMmax
            (by omega)
          apply psExt _ _ hwfu hwf
          intro p hplo hphi
          rw [hmemu p hplo hphi]
          by_cases hpr : NMF_MINPITCH ≤ p - (-a).toNat
          · rw [hmemt (p - (-a).toNat) hpr (by unfold NMF_MAXPITCH at hphi ⊢; omega)]
            have he : p - ((((-a).toNat)) : Int) + (((-a).toNat) : Int) = p := by ring
            rw [he]
          · rw [psMem_out _ _ (fun hc => hpr hc.1)]
            cases hmemp : psMem ps p
            · rfl
            · exfalso
              have := hLmin p hmemp
              unfold NMF_MINPITCH at hpr
              omega
      · push_neg at hs64
        have hbig : 64 ≤ (-a).toNat := by omega
        have ha0 : ps.a = 0 := by
          apply psA_zero_of_min_pos ps hwf
          intro p hp
          have := hLmin p hp
          omega
        have hbne : ps.b ≠ 0 := by
          intro hb0
          unfold nvm_pitchset_isEmpty at hne
          rw [ha0, hb0] at hne
          simp at hne
        rw [psShiftDown_big ps (-a).toNat hbig] at h2
        rcases transpose_cases _ (-a) true u h2 with
          ⟨-, rfl, hz2⟩ | ⟨hst, -⟩ | ⟨-, hneg2, -, -⟩ | ⟨-, -, -, M2, hM2, hchk2, rfl⟩
        · rcases hz2 with h0 | hq
          · exfalso; omega
          · exfalso
            unfold nvm_pitchset_isEmpty at hq
            simp at hq
            exact hbne hq
        · exact absurd hst (by simp)
        · exfalso; omega
        · rw [psShiftUp_big ⟨ps.b, 0⟩ (-a).toNat hbig hwf.2.1]
          show (⟨0, (0 : Nat) >>> (-a).toNat ||| ps.b⟩ : NVM_PITCHSET) = ⟨ps.a, ps.b⟩
          rw [Nat.zero_shiftRight, Nat.zero_or, ha0]
    · obtain ⟨M0, hM0, hMlo, hMhi, hMmem, hMmax⟩ := nvm_pitchset_most_spec ps hwf hne
      have hMM : M0 = M := by rw [hM0] at hM; exact Option.some.inj hM
      subst hMM
      have hs1 : 1 ≤ a.toNat := by omega
      unfold NMF_MAXPITCH at hchk
      by_cases hs64 : a.toNat ≤ 64
      · obtain ⟨hmemt, hwft⟩ := psShiftUp_mem ps hwf a.toNat hs1 hs64 M0 hMmax
          (by omega)
        have hmemtM : psMem (psShiftUp ps a.toNat) (M0 + a.toNat) = true := by
          rw [hmemt (M0 + a.toNat) (by unfold NMF_MINPITCH at hMlo ⊢; omega)
            (by unfold NMF_MAXPITCH; omega)]
          have he : M0 + ((a.toNat) : Int) - (a.toNat : Int) = M0 := by ring
          rw [he]
          exact hMmem
        have hnet : nvm_pitchset_isEmpty (psShiftUp ps a.toNat) = false :=
          psMem_isEmpty_false _ _ hmemtM
        rcases transpose_cases _ (-a) true u h2 with
          ⟨-, rfl, hz2⟩ | ⟨hst, -⟩ | ⟨-, -, -, L2, hL2, hchk2, hu⟩ | ⟨-, hpos2, -, -⟩
        · rcases hz2 with h0 | hq
          · exfalso; omega
          · rw [hq] at hnet; exact absurd hnet (by simp)
        · exact absurd hst (by simp)
        · have htn : (-(-a)).toNat = a.toNat := by omega
          rw [htn] at hu
          subst hu
          obtain ⟨L0, hL0, hLlo, hLhi, hLmem, hLmin⟩ :=
            nvm_pitchset_least_spec _ hwft hnet
          have hLL : L0 = L2 := by rw [hL0] at hL2; exact Option.some.inj hL2
          subst hLL
          unfold NMF_MINPITCH at hchk2
          obtain ⟨hmemu, hwfu⟩ := psShiftDown_mem _ hwft a.toNat hs1 hs64 L0 hLmin
            (by omega)
          apply psExt _ _ hwfu hwf
          intro p hplo hphi
          rw [hmemu p hplo hphi]
          by_cases hpr : p + a.toNat ≤ NMF_MAXPITCH
          · rw [hmemt (p + a.toNat) (by unfold NMF_MINPITCH at hplo ⊢; omega) hpr]
            have he : p + ((a.toNat) : Int) - (a.toNat : Int) = p := by ring
            rw [he]
          · rw [psMem_out _ _ (fun hc => hpr hc.2)]
            cases hmemp : psMem ps p
            · rfl
            · exfalso
              have := hMmax p hmemp
              unfold NMF_MAXPITCH at hpr
              omega
        · exfalso; omega
      · push_neg at hs64
        have hbig : 64 ≤ a.toNat := by omega
        have hb0 : ps.b = 0 := by
          apply psB_zero_of_max_neg ps hwf
          intro p hp
          have := hMmax p hp
          omega
        have hane : ps.a ≠ 0 := by
          intro ha0
          unfold nvm_pitchset_isEmpty at hne
          rw [ha0, hb0] at hne
          simp at hne
        have hup : psShiftUp ps a.toNat = ⟨0, ps.a⟩ := by
          rw [psShiftUp_big ps a.toNat hbig (lt_trans hwf.1 (by norm_num))]
          rw [hb0, Nat.zero_shiftRight, Nat.zero_or]
        rw [hup] at h2
        rcases transpose_cases _ (-a) true u h2 with
          ⟨-, rfl, hz2⟩ | ⟨hst, -⟩ | ⟨-, -, -, L2, hL2, hchk2, hu⟩ | ⟨-, hpos2, -, -⟩
        · rcases hz2 with h0 | hq
          · exfalso; omega
          · exfalso
            unfold nvm_pitchset_isEmpty at hq
            simp at hq
            exact hane hq
        · exact absurd hst (by simp)
        · have htn : (-(-a)).toNat = a.toNat := by omega
          rw [htn] at hu
          subst hu
          rw [psShiftDown_big ⟨0, ps.a⟩ a.toNat hbig]
          show (⟨ps.a, 0⟩ : NVM_PITCHSET) = ⟨ps.a, ps.b⟩
          rw [hb0]
        · exfalso; omega
  · intro qs hq
    rcases transpose_cases ps a false qs hq with
      ⟨hst, -⟩ | ⟨-, rfl⟩ | ⟨hst, -⟩ | ⟨hst, -⟩
    · exact absurd hst (by simp)
    · rfl
    · exact absurd hst (by simp)
    · exact absurd hst (by simp)


/-- Witness for C7: the theorem applied to the well-formed one-pitch set
containing pitch 15 and the offset 5, the well-formedness hypothesis
discharged by evaluation. -/
theorem C7_transpose_roundtrip_witness :
    psWF (⟨0, 2 ^ 48⟩ : NVM_PITCHSET) ∧
    ((∀ t u : NVM_PITCHSET,
      nvm_pitchset_transpose ⟨0, 2 ^ 48⟩ 5 = some (true, t) →
      nvm_pitchset_transpose t (-5) = some (true, u) → u = ⟨0, 2 ^ 48⟩) ∧
    (∀ qs : NVM_PITCHSET,
      nvm_pitchset_transpose ⟨0, 2 ^ 48⟩ 5 = some (false, qs) →
      qs = ⟨0, 2 ^ 48⟩)) :=
  ⟨by decide, C7_transpose_roundtrip ⟨0, 2 ^ 48⟩ 5 (by decide)⟩

/-- Claim C10 counterexample: the set holding only pitch 48 with offset
-87 is non-empty, the offset is non-zero, the boundary range check
passes (the least pitch 48 lands exactly on the lower bound -39), and
the executed shift amount is 87, which is not below 64: the C shift
statements are reached with a shift count of 87 and a cross-fill count
of 64 - 87 < 0, both outside the defined range for uint64 shifts. -/
theorem C10_shift_counterexample :
    nvm_pitchset_isEmpty ⟨0, 2 ^ 15⟩ = false ∧
    (-87 : Int) ≠ 0 ∧
    nvm_pitchset_least ⟨0, 2 ^ 15⟩ = some 48 ∧
    (-87 : Int) ≥ NMF_MINPITCH - 48 ∧
    nvm_pitchset_transpose ⟨0, 2 ^ 15⟩ (-87) =
      some (true, psShiftDown ⟨0, 2 ^ 15⟩ 87) ∧
    ¬ ((87 : Nat) < 64) := by
  refine ⟨by decide, by decide, by decide, by decide, ?_, by decide⟩
  decide

/-- Claim C10 amended: for a well-formed non-empty pitch set and a
non-zero offset on which nvm_pitchset_transpose takes a shift branch
(status 1 with a changed set implies the range check passed), the shift
amount, the absolute value of the offset, is between 1 and 87 - it is
not in general below 64, since a boundary pitch as far as 87 steps from
the opposite range limit admits an offset of magnitude 87. -/
theorem C10_shift_amount_amended (ps t : NVM_PITCHSET) (a : Int) (hwf : psWF ps)
    (ha : a ≠ 0) (hne : nvm_pitchset_isEmpty ps = false)
    (h : nvm_pitchset_transpose ps a = some (true, t)) :
    1 ≤ a.natAbs ∧ a.natAbs ≤ 87 := by
  rcases transpose_cases ps a true t h with
    ⟨-, -, hz⟩ | ⟨hst, -⟩ | ⟨-, hneg, -, L, hL, hchk, -⟩ |
    ⟨-, hpos, -, M, hM, hchk, -⟩
  · rcases hz with rfl | hq
    · exact absurd rfl ha
    · rw [hq] at hne
      exact absurd hne (by simp)
  · exact absurd hst (by simp)
  · obtain ⟨L0, hL0, hLlo, hLhi, hLmem, hLmin⟩ := nvm_pitchset_least_spec ps hwf hne
    have hLL : L0 = L := by rw [hL0] at hL; exact Option.some.inj hL
    subst hLL
    unfold NMF_MINPITCH at hchk
    unfold NMF_MAXPITCH at hLhi
    omega
  · obtain ⟨M0, hM0, hMlo, hMhi, hMmem, hMmax⟩ := nvm_pitchset_most_spec ps hwf hne
    have hMM : M0 = M := by rw [hM0] at hM; exact Option.some.inj hM
    subst hMM
    unfold NMF_MAXPITCH at hchk
    unfold NMF_MINPITCH at hMlo
    omega

/-- Witness for the amended C10 theorem: applied to the one-pitch set
containing pitch 15 and the offset 5, every hypothesis discharged by
evaluation. -/
theorem C10_shift_amount_amended_witness :
    psWF (⟨0, 2 ^ 48⟩ : NVM_PITCHSET) ∧ (5 : Int) ≠ 0 ∧
    nvm_pitchset_isEmpty (⟨0, 2 ^ 48⟩ : NVM_PITCHSET) = false ∧
    nvm_pitchset_transpose ⟨0, 2 ^ 48⟩ 5 =
      some (true, psShiftUp ⟨0, 2 ^ 48⟩ 5) ∧
    (1 ≤ (5 : Int).natAbs ∧ (5 : Int).natAbs ≤ 87) :=
  ⟨by decide, by decide, by decide, by decide,
    C10_shift_amount_amended ⟨0, 2 ^ 48⟩ (psShiftUp ⟨0, 2 ^ 48⟩ 5) 5
      (by decide) (by decide) (by decide) (by decide)⟩


theorem event_flipNote_eq (max_offs : Int) (n : NMF_NOTE)
    (h1 : n.dur < 0) (h2 : -max_offs ≤ n.dur) :
    event_flipNote max_offs n = some { n with dur := -((max_offs + 1) + n.dur) } := by
  unfold event_flipNote
  rw [if_neg (by omega), if_neg (by omega)]

theorem event_flipList_eq (max_offs : Int) (l : List NMF_NOTE)
    (h : ∀ n ∈ l, n.dur < 0 ∧ -max_offs ≤ n.dur) :
    event_flipList max_offs l =
      some (l.map fun n => { n with dur := -((max_offs + 1) + n.dur) }) := by
  induction l with
  | nil => rfl
  | cons x xs ih =>
    have hx := h x (List.mem_cons_self x xs)
    rw [List.map_cons]
    unfold event_flipList
    rw [event_flipNote_eq max_offs x hx.1 hx.2,
      ih (fun n hn => h n (List.mem_cons_of_mem x hn))]

/-- Claim C5: event_flip on a buffer whose last count notes are grace
notes with durations -k, 1 ≤ k ≤ max_offs, succeeds and replaces each
such duration with -((max_offs + 1) - k), leaving every other field of
those notes, every earlier note, and the section table unchanged. -/
theorem C5_event_flip (st : EVENT_STATE) (count max_offs : Int)
    (hc0 : 0 ≤ count) (hcl : count ≤ (st.notes.length : Int)) (hm1 : 1 ≤ max_offs)
    (hgrace : ∀ n ∈ st.notes.drop (st.notes.length - count.toNat),
      n.dur < 0 ∧ -max_offs ≤ n.dur) :
    event_flip st count max_offs =
      some { st with notes :=
        (st.notes.take (st.notes.length - count.toNat) ++
          List.map (fun n => { n with dur := -((max_offs + 1) + n.dur) })
            (st.notes.drop (st.notes.length - count.toNat))) } := by
  unfold event_flip
  rw [if_neg (by omega), if_neg (by omega)]
  by_cases hc : count > 0
  · rw [if_pos hc, event_flipList_eq max_offs _ hgrace]
  · rw [if_neg hc]
    have hc0' : count = 0 := by omega
    subst hc0'
    simp

/-- Witness for C5: a buffer of one ordinary note followed by the grace
notes -1 and -2 with max_offs 2; the flip maps them to -2 and -1 and
touches nothing else. -/
theorem C5_event_flip_witness :
    (∀ n ∈ ([⟨0, 5, 0, 0, 0, 0⟩, ⟨1, -1, 3, 0, 0, 0⟩, ⟨1, -2, 4, 0, 0, 0⟩] :
        List NMF_NOTE).drop (3 - (2 : Int).toNat),
      n.dur < 0 ∧ -2 ≤ n.dur) ∧
    event_flip ⟨[0], [⟨0, 5, 0, 0, 0, 0⟩, ⟨1, -1, 3, 0, 0, 0⟩, ⟨1, -2, 4, 0, 0, 0⟩]⟩ 2 2 =
      some ⟨[0], [⟨0, 5, 0, 0, 0, 0⟩, ⟨1, -2, 3, 0, 0, 0⟩, ⟨1, -1, 4, 0, 0, 0⟩]⟩ := by
  refine ⟨by decide, ?_⟩
  have h := C5_event_flip
    ⟨[0], [⟨0, 5, 0, 0, 0, 0⟩, ⟨1, -1, 3, 0, 0, 0⟩, ⟨1, -2, 4, 0, 0, 0⟩]⟩ 2 2
    (by decide) (by decide) (by decide) (by decide)
  rw [h]
  rfl


/-- Claim C2 refuted on the code: a state with one buffered grace note
(gracecount 1, graceoffset 2).  nvm_op_cue succeeds and appends the cue
event while the grace registers and the buffered grace note's duration
stay as they were - no grace flush happens before the cue is emitted.
The second conjunct computes what the grace flush the specification
demands would have done to the same state: flip the grace duration -1 to
-2 and clear both grace registers. -/
theorem C2_cue_skips_grace_flush :
    nvm_op_cue
      ⟨5, false, ⟨0, 0⟩, -1, 0, 0, [], [], [], ⟨0, 0⟩, [], -1, 1, 2,
        ⟨[0], [⟨4, -1, 3, 0, 0, 0⟩]⟩⟩ 7 =
      some (true, ERR_OK,
        ⟨5, false, ⟨0, 0⟩, -1, 0, 0, [], [], [], ⟨0, 0⟩, [], -1, 1, 2,
          ⟨[0], [⟨4, -1, 3, 0, 0, 0⟩, ⟨5, 0, 0, 0, 0, 7⟩]⟩⟩) ∧
    nvm_graceFlush
      ⟨5, false, ⟨0, 0⟩, -1, 0, 0, [], [], [], ⟨0, 0⟩, [], -1, 1, 2,
        ⟨[0], [⟨4, -1, 3, 0, 0, 0⟩]⟩⟩ =
      some ⟨5, false, ⟨0, 0⟩, -1, 0, 0, [], [], [], ⟨0, 0⟩, [], -1, 0, 0,
        ⟨[0], [⟨4, -2, 3, 0, 0, 0⟩]⟩⟩ :=
  ⟨by decide, by decide⟩


theorem repeatLoop_err (fuel : Nat) (durval art : Int) (lr : NVM_LAYERREG)
    (ps : NVM_PITCHSET) (st : NVM_STATE) (ok : Bool) (err : Int) (st' : NVM_STATE)
    (h : nvm_repeatLoop fuel ps st durval art lr = some (ok, err, st')) :
    err = ERR_OK ∨ err = ERR_HUGEGRACE ∨ err = ERR_MANYNOTES := by
  induction fuel generalizing ps st with
  | zero =>
    unfold nvm_repeatLoop at h
    split at h
    · simp only [Option.some.injEq, Prod.mk.injEq] at h
      exact Or.inl h.2.1.symm
    · exact absurd h (by simp)
  | succ fuel ih =>
    unfold nvm_repeatLoop at h
    split at h
    · simp only [Option.some.injEq, Prod.mk.injEq] at h
      exact Or.inl h.2.1.symm
    · split at h
      · exact absurd h (by simp)
      · split at h
        · exact absurd h (by simp)
        · split at h
          · exact absurd h (by simp)
          · split at h
            · split at h
              · split at h
                · exact ih _ _ h
                · simp only [Option.some.injEq, Prod.mk.injEq] at h
                  exact Or.inr (Or.inl h.2.1.symm)
              · exact ih _ _ h
            · simp only [Option.some.injEq, Prod.mk.injEq] at h
              exact Or.inr (Or.inr h.2.1.symm)

theorem op_repeat_err (st : NVM_STATE) (ok : Bool) (err : Int) (st' : NVM_STATE)
    (h : nvm_op_repeat st = some (ok, err, st')) :
    err = ERR_OK ∨ err = ERR_NOPITCH ∨ err = ERR_NODUR ∨ err = ERR_HUGEGRACE ∨
    err = ERR_MANYNOTES ∨ err = ERR_LONGPIECE := by
  unfold nvm_op_repeat at h
  split at h
  · simp only [Option.some.injEq, Prod.mk.injEq] at h
    exact Or.inr (Or.inl h.2.1.symm)
  · split at h
    · simp only [Option.some.injEq, Prod.mk.injEq] at h
      exact Or.inr (Or.inr (Or.inl h.2.1.symm))
    · split at h
      · simp only [Option.some.injEq, Prod.mk.injEq] at h
        exact Or.inr (Or.inr (Or.inr (Or.inl h.2.1.symm)))
      · split at h
        · exact absurd h (by simp)
        · rename_i ok0 err0 st3 heq
          split at h
          · split at h
            · split at h
              · simp only [Option.some.injEq, Prod.mk.injEq] at h
                exact Or.inl h.2.1.symm
              · simp only [Option.some.injEq, Prod.mk.injEq] at h
                exact Or.inr (Or.inr (Or.inr (Or.inr (Or.inr h.2.1.symm))))
            · simp only [Option.some.injEq, Prod.mk.injEq] at h
              exact Or.inl h.2.1.symm
          · simp only [Option.some.injEq, Prod.mk.injEq] at h
            rcases repeatLoop_err _ _ _ _ _ _ _ _ _ heq with h0 | h0 | h0
            · exact Or.inl (h.2.1.symm.trans h0)
            · exact Or.inr (Or.inr (Or.inr (Or.inl (h.2.1.symm.trans h0))))
            · exact Or.inr (Or.inr (Or.inr (Or.inr (Or.inl (h.2.1.symm.trans h0)))))

/-- Claim C9: when nvm_pset fails with ERR_TRANSRNG - the transposition
on the copied pitch set left the valid range - the returned state is the
input state: the pitch register, duration register, cursor, grace
counters, all four stacks, and the event buffer are untouched. -/
theorem C9_pset_transrng (st : NVM_STATE) (ps : NVM_PITCHSET) (st' : NVM_STATE)
    (h : nvm_pset st ps = some (false, ERR_TRANSRNG, st')) : st' = st := by
  unfold nvm_pset at h
  split at h
  · exact absurd h (by simp)
  · split at h
    · rcases op_repeat_err _ _ _ _ h with h0 | h0 | h0 | h0 | h0 | h0 <;>
        simp [ERR_TRANSRNG, ERR_OK, ERR_NOPITCH, ERR_NODUR, ERR_HUGEGRACE,
          ERR_MANYNOTES, ERR_LONGPIECE] at h0
    · simp only [Option.some.injEq, Prod.mk.injEq] at h
      exact h.2.2.symm

/-- Witness for C9: a state whose transposition stack holds 10 and the
pitch set holding only pitch 48; the transposition would move 48 to 58,
outside the range, so nvm_pset reports ERR_TRANSRNG and hands back the
state it was given. -/
theorem C9_pset_transrng_witness :
    nvm_pset ⟨0, false, ⟨0, 0⟩, -1, 0, 0, [], [10], [], ⟨0, 0⟩, [], -1, 0, 0, ⟨[0], []⟩⟩
      ⟨0, 2 ^ 15⟩ =
      some (false, ERR_TRANSRNG,
        ⟨0, false, ⟨0, 0⟩, -1, 0, 0, [], [10], [], ⟨0, 0⟩, [], -1, 0, 0, ⟨[0], []⟩⟩) ∧
    (⟨0, false, ⟨0, 0⟩, -1, 0, 0, [], [10], [], ⟨0, 0⟩, [], -1, 0, 0, ⟨[0], []⟩⟩ : NVM_STATE) =
      ⟨0, false, ⟨0, 0⟩, -1, 0, 0, [], [10], [], ⟨0, 0⟩, [], -1, 0, 0, ⟨[0], []⟩⟩ :=
  ⟨by decide, C9_pset_transrng _ ⟨0, 2 ^ 15⟩ _ (by decide)⟩


theorem one_testBit (m : Nat) : (1 : Nat).testBit m = decide (m = 0) := by
  rw [Nat.testBit_to_div_mod]
  cases m with
  | zero => simp
  | succ m =>
    have hz : (1 : Nat) / 2 ^ (m + 1) = 0 := by
      apply Nat.div_eq_of_lt
      calc (1 : Nat) < 2 ^ 1 := by norm_num
      _ ≤ 2 ^ (m + 1) := Nat.pow_le_pow_right (by norm_num) (by omega)
    rw [hz]
    simp

theorem one_shiftLeft_testBit (k j : Nat) : ((1 : Nat) <<< k).testBit j = decide (j = k) := by
  rw [Nat.testBit_shiftLeft, one_testBit]
  by_cases hge : k ≤ j
  · rw [decide_eq_true (by omega : j ≥ k), Bool.true_and]
    by_cases hjk : j = k
    · rw [decide_eq_true (by omega : j - k = 0), decide_eq_true hjk]
    · rw [decide_eq_false (by omega : ¬ j - k = 0), decide_eq_false hjk]
  · rw [decide_eq_false (by omega : ¬ j ≥ k), Bool.false_and,
      decide_eq_false (by omega : ¬ j = k)]

theorem two_pow_testBit (m j : Nat) : ((2 : Nat) ^ m).testBit j = decide (j = m) := by
  by_cases h : j = m
  · subst h
    rw [Nat.testBit_two_pow_self, decide_eq_true rfl]
  · rw [Nat.testBit_two_pow_of_ne (fun hh => h hh.symm), decide_eq_false h]

theorem two_pow_63_shiftRight (k : Nat) (hk : k ≤ 63) :
    ((2 : Nat) ^ 63) >>> k = 2 ^ (63 - k) := by
  rw [Nat.shiftRight_eq_div_pow]
  exact Nat.pow_div hk (by norm_num)

theorem and_not_bit_testBit (v M k j : Nat)
    (hM : ∀ i : Nat, M.testBit i = decide (i = k)) (hj : j < 64) :
    (v &&& (U64MAX ^^^ M)).testBit j = (v.testBit j && ! decide (j = k)) := by
  rw [Nat.testBit_and, Nat.testBit_xor, hM j]
  have hmax : U64MAX.testBit j = true := by
    have he : U64MAX = 2 ^ 64 - 1 := by norm_num [U64MAX]
    rw [he, Nat.testBit_two_pow_sub_one]
    exact decide_eq_true hj
  rw [hmax, Bool.true_xor]

/-- Dropping an in-range pitch from a pitch set clears exactly that
pitch's bit: the membership of every pitch p in the result is the old
membership conjoined with p being different from the dropped pitch, and
well-formedness is preserved. -/
theorem psDrop_some (ps : NVM_PITCHSET) (L : Int)
    (hlo : NMF_MINPITCH ≤ L) (hhi : L ≤ NMF_MAXPITCH) :
    ∃ ps' : NVM_PITCHSET, nvm_pitchset_drop ps L = some ps' ∧
      (∀ p : Int, psMem ps' p = (psMem ps p && decide (p ≠ L))) ∧
      (psWF ps → psWF ps') := by
  unfold nvm_pitchset_drop
  rw [if_neg (by omega)]
  by_cases hneg : L < 0
  · rw [if_pos hneg]
    refine ⟨_, rfl, ?_, ?_⟩
    · intro p
      by_cases hp : NMF_MINPITCH ≤ p ∧ p < 0
      · rw [psMem_neg_eq _ _ hp.1 hp.2, psMem_neg_eq _ _ hp.1 hp.2]
        show (ps.a &&& (U64MAX ^^^ 1 <<< (-L - 1).toNat)).testBit (-p - 1).toNat = _
        rw [and_not_bit_testBit ps.a _ ((-L - 1).toNat) _
          (fun i => one_shiftLeft_testBit ((-L - 1).toNat) i)
          (by unfold NMF_MINPITCH at hp; omega)]
        congr 1
        by_cases hpl : p = L
        · rw [decide_eq_true (by omega : (-p - 1).toNat = (-L - 1).toNat),
            decide_eq_false (by omega : ¬ p ≠ L)]
          rfl
        · rw [decide_eq_false
            (by unfold NMF_MINPITCH at hlo hp; omega : ¬ (-p - 1).toNat = (-L - 1).toNat),
            decide_eq_true (by omega : p ≠ L)]
          rfl
      · by_cases hq : 0 ≤ p ∧ p ≤ NMF_MAXPITCH
        · rw [psMem_nonneg_eq _ _ hq.1 hq.2, psMem_nonneg_eq _ _ hq.1 hq.2]
          show ps.b.testBit ((63 : Int) - p).toNat = _
          rw [decide_eq_true (by omega : p ≠ L), Bool.and_true]
        · rw [psMem_out _ _ (by omega), psMem_out _ _ (by omega), Bool.false_and]
    · intro hwf
      refine ⟨?_, hwf.2.1, hwf.2.2⟩
      calc ps.a &&& (U64MAX ^^^ 1 <<< (-L - 1).toNat) ≤ ps.a := Nat.and_le_left
      _ < 2 ^ 39 := hwf.1
  · rw [if_neg hneg]
    refine ⟨_, rfl, ?_, ?_⟩
    · intro p
      by_cases hp : 0 ≤ p ∧ p ≤ NMF_MAXPITCH
      · rw [psMem_nonneg_eq _ _ hp.1 hp.2, psMem_nonneg_eq _ _ hp.1 hp.2]
        show (ps.b &&& (U64MAX ^^^ 0x8000000000000000 >>> L.toNat)).testBit
          ((63 : Int) - p).toNat = _
        have hmask : ∀ i : Nat,
            ((0x8000000000000000 : Nat) >>> L.toNat).testBit i =
              decide (i = 63 - L.toNat) := by
          intro i
          have h63 : (0x8000000000000000 : Nat) = 2 ^ 63 := by norm_num
          rw [h63, two_pow_63_shiftRight L.toNat (by unfold NMF_MAXPITCH at hhi; omega),
            two_pow_testBit]
        rw [and_not_bit_testBit ps.b _ (63 - L.toNat) _ hmask
          (by unfold NMF_MAXPITCH at hp; omega)]
        congr 1
        by_cases hpl : p = L
        · rw [decide_eq_true
            (by unfold NMF_MAXPITCH at hhi; omega : ((63 : Int) - p).toNat = 63 - L.toNat),
            decide_eq_false (by omega : ¬ p ≠ L)]
          rfl
        · rw [decide_eq_false
            (by unfold NMF_MAXPITCH at hhi hp; omega :
              ¬ ((63 : Int) - p).toNat = 63 - L.toNat),
            decide_eq_true (by omega : p ≠ L)]
          rfl
      · by_cases hq : NMF_MINPITCH ≤ p ∧ p < 0
        · rw [psMem_neg_eq _ _ hq.1 hq.2, psMem_neg_eq _ _ hq.1 hq.2]
          show ps.a.testBit (-p - 1).toNat = _
          rw [decide_eq_true (by omega : p ≠ L), Bool.and_true]
        · rw [psMem_out _ _ (by omega), psMem_out _ _ (by omega), Bool.false_and]
    · intro hwf
      refine ⟨hwf.1, ?_, ?_⟩
      · calc ps.b &&& (U64MAX ^^^ 0x8000000000000000 >>> L.toNat) ≤ ps.b :=
          Nat.and_le_left
        _ < 2 ^ 64 := hwf.2.1
      · apply mod_two_pow_eq_zero_of_low_bits
        intro j hj
        rw [Nat.testBit_and, psWF_b_low_bit ps hwf j hj, Bool.false_and]


theorem psCandidates_pairwise : List.Pairwise (· < ·) psCandidates := by decide

theorem psCandidates_mem (p : Int) : p ∈ psCandidates ↔ -39 ≤ p ∧ p ≤ 48 := by
  unfold psCandidates
  constructor
  · intro h
    obtain ⟨n, hn, he⟩ := List.mem_map.mp h
    rw [List.mem_range] at hn
    omega
  · intro h
    exact List.mem_map.mpr ⟨(p + 39).toNat, List.mem_range.mpr (by omega), by omega⟩

theorem psList_mem (ps : NVM_PITCHSET) (p : Int) :
    p ∈ psList ps ↔ psMem ps p = true := by
  unfold psList
  rw [List.mem_filter]
  constructor
  · exact fun h => h.2
  · intro h
    refine ⟨?_, h⟩
    have hrange : NMF_MINPITCH ≤ p ∧ p ≤ NMF_MAXPITCH := by
      by_contra hc
      rw [psMem_out ps p hc] at h
      exact Bool.false_ne_true h
    unfold NMF_MINPITCH NMF_MAXPITCH at hrange
    exact (psCandidates_mem p).mpr (by omega)

theorem psList_sorted (ps : NVM_PITCHSET) : List.Pairwise (· < ·) (psList ps) :=
  List.Pairwise.filter _ psCandidates_pairwise

/-- Filtering a strictly ascending list by a predicate whose least
satisfying element is L yields L followed by the filter of the
predicate with L removed. -/
theorem filter_min_cons (f g : Int → Bool) (L : Int)
    (hg : ∀ p : Int, g p = (f p && decide (p ≠ L))) (hfL : f L = true) :
    ∀ C : List Int, List.Pairwise (· < ·) C → L ∈ C →
      (∀ p ∈ C, f p = true → L ≤ p) → C.filter f = L :: C.filter g := by
  intro C
  induction C with
  | nil =>
    intro _ hLC _
    cases hLC
  | cons x rest ih =>
    intro hpair hLC hmin
    rcases List.mem_cons.mp hLC with rfl | hLrest
    · have hgL : g L = false := by
        rw [hg L, decide_eq_false (by omega : ¬ L ≠ L), Bool.and_false]
      rw [List.filter_cons, List.filter_cons, hfL, hgL]
      simp only [if_true, Bool.false_eq_true, if_false]
      refine congrArg (L :: ·) (List.filter_congr ?_)
      intro p hp
      have hlt := (List.pairwise_cons.mp hpair).1 p hp
      rw [hg p, decide_eq_true (by omega : p ≠ L), Bool.and_true]
    · have hxL : x < L := (List.pairwise_cons.mp hpair).1 L hLrest
      have hfx : f x = false := by
        cases hfxv : f x
        · rfl
        · have := hmin x (List.mem_cons_self x rest) hfxv
          omega
      have hgx : g x = false := by rw [hg x, hfx, Bool.false_and]
      rw [List.filter_cons, List.filter_cons, hfx, hgx]
      simp only [Bool.false_eq_true, if_false]
      exact ih (List.pairwise_cons.mp hpair).2 hLrest
        (fun p hp hf => hmin p (List.mem_cons_of_mem x hp) hf)

/-- Enumeration of a pitch set whose least member is L: L first, then
the enumeration of the set with L dropped. -/
theorem psList_cons (ps ps' : NVM_PITCHSET) (L : Int)
    (hmemL : psMem ps L = true)
    (hmin : ∀ p : Int, psMem ps p = true → L ≤ p)
    (hdrop : ∀ p : Int, psMem ps' p = (psMem ps p && decide (p ≠ L))) :
    psList ps = L :: psList ps' := by
  have hLC : L ∈ psCandidates := by
    have hrange : NMF_MINPITCH ≤ L ∧ L ≤ NMF_MAXPITCH := by
      by_contra hc
      rw [psMem_out ps L hc] at hmemL
      exact Bool.false_ne_true hmemL
    unfold NMF_MINPITCH NMF_MAXPITCH at hrange
    exact (psCandidates_mem L).mpr (by omega)
  unfold psList
  exact filter_min_cons (fun p => psMem ps p) (fun p => psMem ps' p) L hdrop hmemL
    psCandidates psCandidates_pairwise hLC (fun p _ hf => hmin p hf)

theorem event_note_true (ev : EVENT_STATE) (t dur pitch art sect layer : Int)
    (ev2 : EVENT_STATE) (h : event_note ev t dur pitch art sect layer = some (true, ev2)) :
    ev2 = { ev with notes := ev.notes ++ [⟨t, dur, pitch, art, sect, layer - 1⟩] } := by
  unfold event_note at h
  split at h
  · exact absurd h (by simp)
  · split at h
    · exact absurd h (by simp)
    · split at h
      · exact absurd h (by simp)
      · split at h
        · exact absurd h (by simp)
        · split at h
          · exact absurd h (by simp)
          · split at h
            · exact absurd h (by simp)
            · split at h
              · exact absurd h (by simp)
              · split at h
                · simp only [Option.some.injEq, Prod.mk.injEq] at h
                  exact h.2.symm
                · simp at h


theorem psList_nil (ps : NVM_PITCHSET) (h : nvm_pitchset_isEmpty ps = true) :
    psList ps = [] := by
  unfold psList
  rw [List.filter_eq_nil_iff]
  intro p _ hmem
  rw [psMem_isEmpty_false ps p hmem] at h
  exact Bool.false_ne_true h

/-- Success of the nvm_op_repeat emission loop on a well-formed pitch
set: the error slot is untouched, the notes appended to the event buffer
are exactly the pitches of the set in ascending order with the chosen
duration, articulation, section and layer, and nothing else of the state
changes but the grace event count. -/
theorem repeatLoop_spec (durval art : Int) (lr : NVM_LAYERREG) :
    ∀ (fuel : Nat) (ps : NVM_PITCHSET) (st : NVM_STATE) (err : Int) (st' : NVM_STATE),
    psWF ps → (psList ps).length ≤ fuel →
    nvm_repeatLoop fuel ps st durval art lr = some (true, err, st') →
    err = ERR_OK ∧
    ∃ g : Int, st' = { st with
      ev := ⟨st.ev.sects, st.ev.notes ++ (psList ps).map
        (fun p => ⟨st.cursor, durval, p, art, lr.sect, lr.layer_i + 1 - 1⟩)⟩,
      gracecount := g } := by
  intro fuel
  induction fuel with
  | zero =>
    intro ps st err st' hwf hlen h
    unfold nvm_repeatLoop at h
    split at h
    · rename_i hemp
      simp only [Option.some.injEq, Prod.mk.injEq] at h
      refine ⟨h.2.1.symm, st.gracecount, ?_⟩
      rw [psList_nil ps hemp, List.map_nil, List.append_nil]
      exact h.2.2.symm
    · exact absurd h (by simp)
  | succ fuel ih =>
    intro ps st err st' hwf hlen h
    unfold nvm_repeatLoop at h
    split at h
    · rename_i hemp
      simp only [Option.some.injEq, Prod.mk.injEq] at h
      refine ⟨h.2.1.symm, st.gracecount, ?_⟩
      rw [psList_nil ps hemp, List.map_nil, List.append_nil]
      exact h.2.2.symm
    · rename_i hemp
      have hne : nvm_pitchset_isEmpty ps = false := by
        cases hv : nvm_pitchset_isEmpty ps
        · rfl
        · exact absurd hv hemp
      split at h
      · exact absurd h (by simp)
      · rename_i pitch hleast
        obtain ⟨L, hL, hLlo, hLhi, hLmem, hLmin⟩ := nvm_pitchset_least_spec ps hwf hne
        rw [hL] at hleast
        replace hleast := Option.some.inj hleast
        subst hleast
        split at h
        · exact absurd h (by simp)
        · rename_i ps2 hdropeq
          obtain ⟨ps2', hdrop', hdmem, hdwf⟩ := psDrop_some ps L hLlo hLhi
          rw [hdrop'] at hdropeq
          replace hdropeq := Option.some.inj hdropeq
          subst hdropeq
          have hcons := psList_cons ps ps2' L hLmem hLmin hdmem
          have hlen2 : (psList ps2').length ≤ fuel := by
            rw [hcons] at hlen
            simp only [List.length_cons] at hlen
            omega
          split at h
          · exact absurd h (by simp)
          · rename_i ok ev2 hnote
            split at h
            · rename_i hok
              subst hok
              have hev2 := event_note_true _ _ _ _ _ _ _ _ hnote
              subst hev2
              split at h
              · split at h
                · obtain ⟨herr, g, hst'⟩ := ih ps2' _ err st' (hdwf hwf) hlen2 h
                  refine ⟨herr, g, ?_⟩
                  rw [hst', hcons]
                  simp [List.map_cons, List.append_assoc]
                · exact absurd h (by simp)
              · obtain ⟨herr, g, hst'⟩ := ih ps2' _ err st' (hdwf hwf) hlen2 h
                refine ⟨herr, g, ?_⟩
                rw [hst', hcons]
                simp [List.map_cons, List.append_assoc]
            · exact absurd h (by simp)

theorem repeat_bump_fields (st : NVM_STATE) :
    (nvm_repeat_bump st).pitch = st.pitch ∧ (nvm_repeat_bump st).cursor = st.cursor ∧
    (nvm_repeat_bump st).ev = st.ev := by
  unfold nvm_repeat_bump
  dsimp only
  by_cases h1 : st.dur = 0
  · rw [if_pos h1]
    split
    · exact ⟨rfl, rfl, rfl⟩
    · exact ⟨rfl, rfl, rfl⟩
  · rw [if_neg h1]
    split
    · exact ⟨rfl, rfl, rfl⟩
    · exact ⟨rfl, rfl, rfl⟩

/-- Claim C6: a successful repeat operation on a non-empty well-formed
pitch register appends exactly one note per pitch of the register,
enumerated in strictly ascending pitch order, each note carrying the
cursor as time offset, the effective duration, articulation, section and
layer (the stored layer index is one less than the layer number passed
to the event buffer); a positive effective duration then advances the
cursor by that amount, and otherwise the cursor stays. -/
theorem C6_repeat_emission (st : NVM_STATE) (err : Int) (st' : NVM_STATE)
    (hwf : psWF st.pitch) (hne : nvm_pitchset_isEmpty st.pitch = false)
    (h : nvm_op_repeat st = some (true, err, st')) :
    st'.ev.notes = st.ev.notes ++ (psList st.pitch).map
      (fun p => ⟨st.cursor, nvm_repeat_durval st, p, nvm_repeat_art st,
        (nvm_repeat_lr st).sect, (nvm_repeat_lr st).layer_i⟩) ∧
    List.Pairwise (· < ·) (psList st.pitch) ∧
    psList st.pitch ≠ [] ∧
    (∀ p : Int, p ∈ psList st.pitch ↔ psMem st.pitch p = true) ∧
    (nvm_repeat_durval st > 0 → st'.cursor = st.cursor + nvm_repeat_durval st) ∧
    (¬ nvm_repeat_durval st > 0 → st'.cursor = st.cursor) := by
  have hbump := repeat_bump_fields st
  have hnenil : psList st.pitch ≠ [] := by
    obtain ⟨L, _, _, _, hLmem, _⟩ := nvm_pitchset_least_spec st.pitch hwf hne
    exact List.ne_nil_of_mem ((psList_mem _ _).mpr hLmem)
  have hlen88 : (psList st.pitch).length ≤ 88 := by
    have h1 : (psList st.pitch).length ≤ psCandidates.length := by
      unfold psList
      exact List.length_filter_le _ _
    have h2 : psCandidates.length = 88 := by decide
    omega
  unfold nvm_op_repeat at h
  split at h
  · simp at h
  · split at h
    · simp at h
    · split at h
      · simp at h
      · split at h
        · exact absurd h (by simp)
        · rename_i ok0 err0 st3 heq
          rw [hbump.1] at heq
          split at h
          · rename_i hok
            subst hok
            obtain ⟨herr0, g, hst3⟩ := repeatLoop_spec (nvm_repeat_durval st)
              (nvm_repeat_art st) (nvm_repeat_lr st) 88 st.pitch
              (nvm_repeat_bump st) err0 st3 hwf hlen88 heq
            split at h
            · rename_i hdpos
              split at h
              · simp only [Option.some.injEq, Prod.mk.injEq] at h
                obtain ⟨-, herr, hfin⟩ := h
                subst hfin
                refine ⟨?_, psList_sorted _, hnenil, fun p => psList_mem _ p, ?_, ?_⟩
                · simp only [hst3, hbump.2.1, hbump.2.2, add_sub_cancel_right]
                · intro _
                  simp only [hst3, hbump.2.1]
                · intro hc
                  exact absurd hdpos hc
              · simp at h
            · rename_i hdnpos
              simp only [Option.some.injEq, Prod.mk.injEq] at h
              obtain ⟨-, herr, hfin⟩ := h
              subst hfin
              refine ⟨?_, psList_sorted _, hnenil, fun p => psList_mem _ p, ?_, ?_⟩
              · simp only [hst3, hbump.2.1, hbump.2.2, add_sub_cancel_right]
              · intro hc
                exact absurd hc hdnpos
              · intro _
                simp only [hst3, hbump.2.1]
          · simp at h


/-- Witness for C6: a state whose pitch register holds pitches 0 and 4
(bits 63 and 59 of the b register) with duration 2.  The repeat
operation emits the two notes in ascending pitch order at the cursor and
advances the cursor by 2; the hypotheses and the emitted note list are
checked by evaluation through the applied theorem. -/
theorem C6_repeat_emission_witness :
    psWF (⟨0, 2 ^ 63 + 2 ^ 59⟩ : NVM_PITCHSET) ∧
    nvm_pitchset_isEmpty (⟨0, 2 ^ 63 + 2 ^ 59⟩ : NVM_PITCHSET) = false ∧
    nvm_op_repeat
      ⟨0, true, ⟨0, 2 ^ 63 + 2 ^ 59⟩, 2, 0, 0, [], [], [], ⟨0, 0⟩, [], -1, 0, 0, ⟨[0], []⟩⟩ =
      some (true, ERR_OK,
        ⟨2, true, ⟨0, 2 ^ 63 + 2 ^ 59⟩, 2, 0, 0, [], [], [], ⟨0, 0⟩, [], -1, 0, 0,
          ⟨[0], [⟨0, 2, 0, 0, 0, 0⟩, ⟨0, 2, 4, 0, 0, 0⟩]⟩⟩) ∧
    (⟨2, true, ⟨0, 2 ^ 63 + 2 ^ 59⟩, 2, 0, 0, [], [], [], ⟨0, 0⟩, [], -1, 0, 0,
        ⟨[0], [⟨0, 2, 0, 0, 0, 0⟩, ⟨0, 2, 4, 0, 0, 0⟩]⟩⟩ : NVM_STATE).ev.notes =
      (⟨0, true, ⟨0, 2 ^ 63 + 2 ^ 59⟩, 2, 0, 0, [], [], [], ⟨0, 0⟩, [], -1, 0, 0,
        ⟨[0], []⟩⟩ : NVM_STATE).ev.notes ++
      (psList (⟨0, 2 ^ 63 + 2 ^ 59⟩ : NVM_PITCHSET)).map
        (fun p => ⟨(⟨0, true, ⟨0, 2 ^ 63 + 2 ^ 59⟩, 2, 0, 0, [], [], [], ⟨0, 0⟩, [],
            -1, 0, 0, ⟨[0], []⟩⟩ : NVM_STATE).cursor,
          nvm_repeat_durval ⟨0, true, ⟨0, 2 ^ 63 + 2 ^ 59⟩, 2, 0, 0, [], [], [],
            ⟨0, 0⟩, [], -1, 0, 0, ⟨[0], []⟩⟩, p,
          nvm_repeat_art ⟨0, true, ⟨0, 2 ^ 63 + 2 ^ 59⟩, 2, 0, 0, [], [], [],
            ⟨0, 0⟩, [], -1, 0, 0, ⟨[0], []⟩⟩,
          (nvm_repeat_lr ⟨0, true, ⟨0, 2 ^ 63 + 2 ^ 59⟩, 2, 0, 0, [], [], [],
            ⟨0, 0⟩, [], -1, 0, 0, ⟨[0], []⟩⟩).sect,
          (nvm_repeat_lr ⟨0, true, ⟨0, 2 ^ 63 + 2 ^ 59⟩, 2, 0, 0, [], [], [],
            ⟨0, 0⟩, [], -1, 0, 0, ⟨[0], []⟩⟩).layer_i⟩) :=
  ⟨by decide, by decide, by decide,
    (C6_repeat_emission
      ⟨0, true, ⟨0, 2 ^ 63 + 2 ^ 59⟩, 2, 0, 0, [], [], [], ⟨0, 0⟩, [], -1, 0, 0, ⟨[0], []⟩⟩
      ERR_OK
      ⟨2, true, ⟨0, 2 ^ 63 + 2 ^ 59⟩, 2, 0, 0, [], [], [], ⟨0, 0⟩, [], -1, 0, 0,
        ⟨[0], [⟨0, 2, 0, 0, 0, 0⟩, ⟨0, 2, 4, 0, 0, 0⟩]⟩⟩
      (by decide) (by decide) (by decide)).1⟩


/-- Claim C3 refuted on the code: the well-formed grave operator token
0x60 '7' ';' (cue number 7, within range, decodable by the entity
module's own integer parameter parser) falls through to the default of
the entity_op switch and is rejected with ERR_BADOP; it never reaches
nvm_op_cue, although that operation accepts cue number 7 and appends the
cue event, as the third conjunct evaluates on a fresh machine state. -/
theorem C3_grave_rejected :
    entity_op [0x60, 0x37, 0x3b] = ENTITY_ACTION.act_reject ERR_BADOP ∧
    entity_intOp [0x60, 0x37, 0x3b] = some 7 ∧
    (0 : Int) ≤ 7 ∧ (7 : Int) ≤ NOIR_MAXCUE ∧
    nvm_op_cue ⟨0, false, ⟨0, 0⟩, -1, 0, 0, [], [], [], ⟨0, 0⟩, [], -1, 0, 0,
        ⟨[0], []⟩⟩ 7 =
      some (true, ERR_OK,
        ⟨0, false, ⟨0, 0⟩, -1, 0, 0, [], [], [], ⟨0, 0⟩, [], -1, 0, 0,
          ⟨[0], [⟨0, 0, 0, 0, 0, 7⟩]⟩⟩) :=
  ⟨by decide, by decide, by decide, by decide, by decide⟩


theorem isAccidental_plain (b : Nat) (h : token_isAccidental (b : Int) = true) :
    33 ≤ b ∧ b ≤ 126 ∧ b ≠ 0x23 := by
  unfold token_isAccidental at h
  rw [decide_eq_true_eq] at h
  unfold ASCII_X_LOWER ASCII_X_UPPER ASCII_S_LOWER ASCII_S_UPPER ASCII_N_LOWER
    ASCII_N_UPPER ASCII_H_LOWER ASCII_H_UPPER ASCII_T_LOWER ASCII_T_UPPER at h
  omega

theorem isSuffix_plain (b : Nat) (h : token_isSuffix (b : Int) = true) :
    33 ≤ b ∧ b ≤ 126 ∧ b ≠ 0x23 := by
  unfold token_isSuffix at h
  rw [decide_eq_true_eq] at h
  unfold ASCII_APOS ASCII_COMMA ASCII_PERIOD at h
  omega

theorem isSuffix_not_accidental (c : Int) (h : token_isSuffix c = true) :
    token_isAccidental c = false := by
  unfold token_isSuffix at h
  rw [decide_eq_true_eq] at h
  unfold ASCII_APOS ASCII_COMMA ASCII_PERIOD at h
  unfold token_isAccidental
  rw [decide_eq_false_iff_not]
  unfold ASCII_X_LOWER ASCII_X_UPPER ASCII_S_LOWER ASCII_S_UPPER ASCII_N_LOWER
    ASCII_N_UPPER ASCII_H_LOWER ASCII_H_UPPER ASCII_T_LOWER ASCII_T_UPPER
  omega

theorem pitchStart_props (b : Nat) (h : token_isPitchString (b : Int) = true) :
    33 ≤ b ∧ b ≤ 126 ∧ b ≠ 0x23 ∧ token_isWhitespace (b : Int) = false ∧
    token_isAtomic (b : Int) = false := by
  unfold token_isPitchString at h
  rw [decide_eq_true_eq] at h
  unfold ASCII_A_UPPER ASCII_G_UPPER ASCII_A_LOWER ASCII_G_LOWER at h
  refine ⟨by omega, by omega, by omega, ?_, ?_⟩
  · unfold token_isWhitespace
    rw [decide_eq_false_iff_not]
    unfold ASCII_SP ASCII_HT ASCII_LF ASCII_CR
    omega
  · unfold token_isAtomic
    rw [decide_eq_false_iff_not]
    unfold ASCII_LPAREN ASCII_RPAREN ASCII_R_UPPER ASCII_R_LOWER ASCII_LSQUARE
      ASCII_RSQUARE ASCII_SLASH ASCII_DOLLAR ASCII_ATSIGN ASCII_LCURLY
      ASCII_COLON ASCII_RCURLY ASCII_EQUALS ASCII_TILDE ASCII_HYPHEN
    omega

/-- Reading through token_readByteFinal on a state with an empty
pushback register whose next input byte is a plain printing character
(not the comment sign): exactly that byte is consumed and returned. -/
theorem readByteFinal_plain (fuel : Nat) (b : Nat) (rest : List Nat)
    (first : Bool) (prev line : Int)
    (h1 : 33 ≤ b) (h2 : b ≤ 126) (h3 : b ≠ 0x23) :
    token_readByteFinal (fuel + 1) ⟨b :: rest, first, prev, line, -1⟩ =
      ((b : Int), ERR_OK, ⟨rest, false, (b : Int), line, -1⟩) := by
  have hfil : token_readByteFilter (fuel + 1) ⟨b :: rest, first, prev, line, -1⟩ =
      ((b : Int), ERR_OK, ⟨rest, false, (b : Int), line, -1⟩) := by
    unfold token_readByteFilter
    dsimp only
    rw [if_neg (by omega : ¬ b = 0)]
    rw [if_neg (by
      rintro ⟨-, hb⟩
      omega : ¬ (first = true ∧ b = 0xef))]
    rw [if_neg (by
      unfold ASCII_LF ASCII_CR
      rintro (⟨hb, -⟩ | ⟨hb, -⟩) <;> omega)]
    rw [if_neg (by unfold ASCII_CR; omega : ¬ ((b : Int) = (ASCII_CR : Int)))]
  unfold token_readByteFinal
  rw [if_neg (by omega : ¬ ((-1 : Int) ≥ 0))]
  rw [hfil]
  dsimp only
  rw [if_neg (by unfold ASCII_NUMSIGN; omega : ¬ ((b : Int) = (ASCII_NUMSIGN : Int)))]
  dsimp only
  rw [if_neg (by unfold ASCII_LF; omega : ¬ ((b : Int) = (ASCII_LF : Int)))]

/-- Reading through token_readByteFinal on a state whose pushback
register is set: the register is served and cleared. -/
theorem readByteFinal_pushback (fuel : Nat) (inp : List Nat) (first : Bool)
    (prev line p : Int) (hp : 0 ≤ p) :
    token_readByteFinal fuel ⟨inp, first, prev, line, p⟩ =
      (p, ERR_OK, ⟨inp, first, prev, line, -1⟩) := by
  unfold token_readByteFinal
  rw [if_pos (show (⟨inp, first, prev, line, p⟩ : TOKEN_SRC).pushback ≥ 0 from hp)]

/-- The whitespace loop of token_read stops immediately on a plain
printing character. -/
theorem skipWhite_plain (fuel : Nat) (b : Nat) (rest : List Nat) (first : Bool)
    (prev line : Int) (h1 : 33 ≤ b) (h2 : b ≤ 126) (h3 : b ≠ 0x23) :
    token_skipWhite (fuel + 1) ⟨b :: rest, first, prev, line, -1⟩ =
      ((b : Int), ERR_OK, ⟨rest, false, (b : Int), line, -1⟩) := by
  unfold token_skipWhite
  rw [readByteFinal_plain fuel b rest first prev line h1 h2 h3]
  dsimp only
  rw [if_neg (by
    rintro ⟨-, hw⟩
    unfold token_isWhitespace at hw
    rw [decide_eq_true_eq] at hw
    unfold ASCII_SP ASCII_HT ASCII_LF ASCII_CR at hw
    omega)]

/-- The collection loop of token_read on an input whose next bytes are a
run of plain characters satisfying the predicate followed by a plain
character that does not: the run is appended to the buffer and the loop
stops on the follower, provided the buffer and the fuel suffice. -/
theorem collectWhile_run (pred : Int → Bool) :
    ∀ (run : List Nat) (fuel : Nat) (stop : Nat) (rest acc : List Nat)
      (first : Bool) (prev line : Int),
    (∀ x ∈ run, pred (x : Int) = true ∧ 33 ≤ x ∧ x ≤ 126 ∧ x ≠ 0x23) →
    pred (stop : Int) = false → 33 ≤ stop → stop ≤ 126 → stop ≠ 0x23 →
    acc.length + run.length ≤ 31 →
    run.length + 1 ≤ fuel →
    token_collectWhile pred fuel ⟨run ++ stop :: rest, first, prev, line, -1⟩ acc =
      (true, (stop : Int), ERR_OK, acc ++ run,
        ⟨rest, false, (stop : Int), line, -1⟩) := by
  intro run
  induction run with
  | nil =>
    intro fuel stop rest acc first prev line hrun hstop h1 h2 h3 hlen hfuel
    cases fuel with
    | zero => exact absurd hfuel (by omega)
    | succ f =>
      unfold token_collectWhile
      rw [show (([] : List Nat) ++ stop :: rest) = stop :: rest from rfl]
      rw [readByteFinal_plain f stop rest first prev line h1 h2 h3]
      dsimp only
      rw [hstop]
      simp
  | cons x xs ih =>
    intro fuel stop rest acc first prev line hrun hstop h1 h2 h3 hlen hfuel
    cases fuel with
    | zero => exact absurd hfuel (by omega)
    | succ f =>
      obtain ⟨hx, hx1, hx2, hx3⟩ := hrun x (List.mem_cons_self x xs)
      unfold token_collectWhile
      rw [show ((x :: xs) ++ stop :: rest) = x :: (xs ++ stop :: rest) from rfl]
      rw [readByteFinal_plain f x (xs ++ stop :: rest) first prev line hx1 hx2 hx3]
      dsimp only
      rw [hx]
      rw [if_pos rfl]
      rw [if_pos (by
        unfold TOKEN_MAXCHAR
        simp only [List.length_cons] at hlen
        push_cast
        omega)]
      rw [show ((x : Int)).toNat = x from by omega]
      rw [ih f stop rest (acc ++ [x]) false ((x : Int)) line
        (fun y hy => hrun y (List.mem_cons_of_mem x hy)) hstop h1 h2 h3
        (by simp only [List.length_append, List.length_cons, List.length_nil] at hlen ⊢
            omega)
        (by simp only [List.length_cons] at hfuel; omega)]
      simp [List.append_assoc]


/-- Claim C8 amended: a token beginning with a pitch letter consists of
that letter, then a run of accidental characters, then a run of
register-mark suffix characters drawn from the three-character set
apostrophe, comma, period (token_isSuffix), and the first following
character outside that set is not consumed: it is left in the pushback
register and the rest of the input is untouched. -/
theorem C8_pitch_token_amended (fuel : Nat) (letter stop : Nat)
    (accs sufs rest : List Nat) (first : Bool) (prev line : Int)
    (hletter : token_isPitchString (letter : Int) = true)
    (haccs : ∀ b ∈ accs, token_isAccidental (b : Int) = true)
    (hsufs : ∀ b ∈ sufs, token_isSuffix (b : Int) = true)
    (hstop1 : token_isSuffix (stop : Int) = false)
    (hstop2 : token_isAccidental (stop : Int) = false)
    (hstop3 : 33 ≤ stop) (hstop4 : stop ≤ 126) (hstop5 : stop ≠ 0x23)
    (hlen : accs.length + sufs.length ≤ 30)
    (hfuel : accs.length + sufs.length + 2 ≤ fuel) :
    token_read fuel ⟨letter :: (accs ++ (sufs ++ stop :: rest)), first, prev, line, -1⟩ =
      some (true, ⟨letter :: (accs ++ sufs), ERR_OK, line⟩,
        ⟨rest, false, (stop : Int), line, (stop : Int)⟩) := by
  cases fuel with
  | zero => exact absurd hfuel (by omega)
  | succ f =>
    obtain ⟨hl1, hl2, hl3, hlw, hla⟩ := pitchStart_props letter hletter
    have hplain : ∀ x ∈ accs, token_isAccidental (x : Int) = true ∧
        33 ≤ x ∧ x ≤ 126 ∧ x ≠ 0x23 := by
      intro x hx
      obtain ⟨p1, p2, p3⟩ := isAccidental_plain x (haccs x hx)
      exact ⟨haccs x hx, p1, p2, p3⟩
    unfold token_read
    rw [skipWhite_plain f letter (accs ++ (sufs ++ stop :: rest)) first prev line
      hl1 hl2 hl3]
    dsimp only
    rw [if_neg (by omega : ¬ ((letter : Int) < 0))]
    rw [if_neg (by omega : ¬ ((letter : Int) = 0))]
    rw [if_neg (by simp [hla] : ¬ (token_isAtomic (letter : Int) = true))]
    rw [if_pos hletter]
    rw [show ((letter : Int)).toNat = letter from by omega]
    cases sufs with
    | nil =>
      rw [List.nil_append]
      rw [collectWhile_run token_isAccidental accs (f + 1) stop rest [letter] false
        (letter : Int) line hplain hstop2 hstop3 hstop4 hstop5
        (by have ha : ([letter] : List Nat).length = 1 := rfl
            have hb : ([] : List Nat).length = 0 := rfl
            omega)
        (by have hb : ([] : List Nat).length = 0 := rfl
            omega)]
      dsimp only
      rw [if_neg (by simp : ¬ ((true : Bool) = false))]
      rw [if_neg (by omega : ¬ ((stop : Int) < 0))]
      rw [show token_pushbackFn ⟨rest, false, (stop : Int), line, -1⟩ (stop : Int) =
        some ⟨rest, false, (stop : Int), line, (stop : Int)⟩ from by
          unfold token_pushbackFn
          rw [if_neg (by omega)]]
      dsimp only
      unfold token_collectWhile
      rw [readByteFinal_pushback (f + 1) rest false (stop : Int) line (stop : Int)
        (by omega)]
      dsimp only
      rw [if_neg (by simp [hstop1] : ¬ (token_isSuffix (stop : Int) = true))]
      dsimp only
      rw [if_neg (by simp : ¬ ((true : Bool) = false))]
      rw [if_neg (by omega : ¬ ((stop : Int) < 0))]
      rw [show token_pushbackFn ⟨rest, false, (stop : Int), line, -1⟩ (stop : Int) =
        some ⟨rest, false, (stop : Int), line, (stop : Int)⟩ from by
          unfold token_pushbackFn
          rw [if_neg (by omega)]]
      dsimp only
      simp
    | cons s sufs' =>
      have hs := hsufs s (List.mem_cons_self s sufs')
      obtain ⟨hs1, hs2, hs3⟩ := isSuffix_plain s hs
      have hsacc : token_isAccidental (s : Int) = false := isSuffix_not_accidental _ hs
      have hsufplain : ∀ x ∈ sufs', token_isSuffix (x : Int) = true ∧
          33 ≤ x ∧ x ≤ 126 ∧ x ≠ 0x23 := by
        intro x hx
        have h := hsufs x (List.mem_cons_of_mem s hx)
        obtain ⟨p1, p2, p3⟩ := isSuffix_plain x h
        exact ⟨h, p1, p2, p3⟩
      rw [List.cons_append]
      rw [collectWhile_run token_isAccidental accs (f + 1) s (sufs' ++ stop :: rest)
        [letter] false (letter : Int) line hplain hsacc hs1 hs2 hs3
        (by have ha : ([letter] : List Nat).length = 1 := rfl
            have hb : (s :: sufs').length = sufs'.length + 1 := rfl
            omega)
        (by have hb : (s :: sufs').length = sufs'.length + 1 := rfl
            omega)]
      dsimp only
      rw [if_neg (by simp : ¬ ((true : Bool) = false))]
      rw [if_neg (by omega : ¬ ((s : Int) < 0))]
      rw [show token_pushbackFn ⟨sufs' ++ stop :: rest, false, (s : Int), line, -1⟩
          (s : Int) =
        some ⟨sufs' ++ stop :: rest, false, (s : Int), line, (s : Int)⟩ from by
          unfold token_pushbackFn
          rw [if_neg (by omega)]]
      dsimp only
      unfold token_collectWhile
      rw [readByteFinal_pushback (f + 1) (sufs' ++ stop :: rest) false (s : Int) line
        (s : Int) (by omega)]
      dsimp only
      rw [if_pos hs]
      rw [if_pos (by
        have hb : (s :: sufs').length = sufs'.length + 1 := rfl
        have hc : ([letter] ++ accs).length = accs.length + 1 := by simp
        rw [hc]
        unfold TOKEN_MAXCHAR
        push_cast
        omega : ((([letter] ++ accs).length : Int) < TOKEN_MAXCHAR - 1))]
      rw [show ((s : Int)).toNat = s from by omega]
      rw [collectWhile_run token_isSuffix sufs' f stop rest (([letter] ++ accs) ++ [s])
        false (s : Int) line hsufplain hstop1 hstop3 hstop4 hstop5
        (by simp only [List.length_append, List.length_cons, List.length_nil]
            have hb : (s :: sufs').length = sufs'.length + 1 := rfl
            omega)
        (by have hb : (s :: sufs').length = sufs'.length + 1 := rfl
            omega)]
      dsimp only
      rw [if_neg (by simp : ¬ ((true : Bool) = false))]
      rw [if_neg (by omega : ¬ ((stop : Int) < 0))]
      rw [show token_pushbackFn ⟨rest, false, (stop : Int), line, -1⟩ (stop : Int) =
        some ⟨rest, false, (stop : Int), line, (stop : Int)⟩ from by
          unfold token_pushbackFn
          rw [if_neg (by omega)]]
      dsimp only
      simp [List.append_assoc]

/-- Claim C8 counterexample: on the input bytes c . ; the lexer consumes
the period into the pitch token, producing the token string c. with the
semicolon pushed back - the period is a register mark to token_isSuffix,
refuting the claim that only apostrophe and comma are consumed. -/
theorem C8_period_consumed_counterexample :
    token_read 8 ⟨[0x63, 0x2e, 0x3b], false, -1, 1, -1⟩ =
      some (true, ⟨[0x63, 0x2e], ERR_OK, 1⟩, ⟨[], false, 0x3b, 1, 0x3b⟩) ∧
    token_isSuffix (ASCII_PERIOD : Int) = true ∧
    token_isPitchString ((0x63 : Nat) : Int) = true :=
  ⟨by decide, by decide, by decide⟩

/-- Witness for the amended C8 theorem: letter c, accidental s, suffixes
apostrophe and period, stopped by a semicolon. -/
theorem C8_pitch_token_amended_witness :
    token_read 10 ⟨[0x63, 0x73, 0x27, 0x2e, 0x3b, 0x41], false, -1, 1, -1⟩ =
      some (true, ⟨[0x63, 0x73, 0x27, 0x2e], ERR_OK, 1⟩,
        ⟨[0x41], false, 0x3b, 1, 0x3b⟩) := by
  have h := C8_pitch_token_amended 10 0x63 0x3b [0x73] [0x27, 0x2e] [0x41] false (-1) 1
    (by decide) (by decide) (by decide) (by decide) (by decide)
    (by decide) (by decide) (by decide) (by decide) (by decide)
  exact h


theorem shl8_eq (x : Nat) : x <<< 8 = x * 256 := by
  rw [Nat.shiftLeft_eq]

theorem or_of_lt (x b : Nat) (hb : b < 256) : x * 256 ||| b = x * 256 + b := by
  apply Nat.eq_of_testBit_eq
  intro j
  rw [Nat.testBit_or]
  by_cases hj : j < 8
  · have hx : (x * 256).testBit j = false := by
      rw [show x * 256 = x <<< 8 from (shl8_eq x).symm, Nat.testBit_shiftLeft]
      simp only [decide_eq_false (by omega : ¬ j ≥ 8), Bool.false_and]
    rw [hx, Bool.false_or]
    rw [Nat.testBit_to_div_mod, Nat.testBit_to_div_mod]
    have hd : (x * 256 + b) / 2 ^ j % 2 = b / 2 ^ j % 2 := by
      interval_cases j <;> omega
    rw [hd]
  · have hbf : b.testBit j = false := Nat.testBit_eq_false_of_lt (by
      calc b < 2 ^ 8 := by omega
      _ ≤ 2 ^ j := Nat.pow_le_pow_right (by norm_num) (by omega))
    have hx : (x * 256).testBit j = x.testBit (j - 8) := by
      rw [show x * 256 = x <<< 8 from (shl8_eq x).symm, Nat.testBit_shiftLeft]
      simp only [decide_eq_true (by omega : j ≥ 8), Bool.true_and]
    rw [hbf, hx, Bool.or_false]
    rw [Nat.testBit_to_div_mod, Nat.testBit_to_div_mod]
    have hdiv : (x * 256 + b) / 2 ^ j = x / 2 ^ (j - 8) := by
      have hj8 : 2 ^ j = 256 * 2 ^ (j - 8) := by
        rw [show (256 : Nat) = 2 ^ 8 from by norm_num, ← pow_add]
        congr 1
        omega
      rw [hj8, ← Nat.div_div_eq_div_mul]
      congr 1
      omega
    rw [hdiv]

theorem accum4 (b0 b1 b2 b3 : Nat) (h1 : b1 < 256) (h2 : b2 < 256) (h3 : b3 < 256)
    (hb0 : b0 < 256) :
    (((((((0 <<< 8) % 4294967296 ||| b0) <<< 8) % 4294967296 ||| b1) <<< 8)
      % 4294967296 ||| b2) <<< 8) % 4294967296 ||| b3 =
      ((b0 * 256 + b1) * 256 + b2) * 256 + b3 := by
  rw [show (0 : Nat) <<< 8 = 0 from rfl, Nat.zero_mod, Nat.zero_or]
  rw [shl8_eq b0, Nat.mod_eq_of_lt (show b0 * 256 < 4294967296 by omega),
    or_of_lt b0 b1 h1]
  rw [shl8_eq (b0 * 256 + b1),
    Nat.mod_eq_of_lt (show (b0 * 256 + b1) * 256 < 4294967296 by omega),
    or_of_lt (b0 * 256 + b1) b2 h2]
  rw [shl8_eq ((b0 * 256 + b1) * 256 + b2),
    Nat.mod_eq_of_lt (show ((b0 * 256 + b1) * 256 + b2) * 256 < 4294967296 by omega),
    or_of_lt ((b0 * 256 + b1) * 256 + b2) b3 h3]

theorem accum2 (b0 b1 : Nat) (h1 : b1 < 256) (hb0 : b0 < 256) :
    (((0 <<< 8) % 65536 ||| b0) <<< 8) % 65536 ||| b1 = b0 * 256 + b1 := by
  rw [show (0 : Nat) <<< 8 = 0 from rfl, Nat.zero_mod, Nat.zero_or]
  rw [shl8_eq b0, Nat.mod_eq_of_lt (show b0 * 256 < 65536 by omega),
    or_of_lt b0 b1 h1]

theorem and255_eq (x : Nat) : x &&& 0xff = x % 256 := by
  have h := and_low_mask x 8
  norm_num at h
  exact h

theorem read32_write (v : Nat) (rest : List Nat) (hv : v < 4294967296) :
    nmf_read32 (nmf_writeUint32 [] v ++ rest) = some (v, rest) := by
  unfold nmf_writeUint32 nmf_read32
  simp only [List.nil_append, List.cons_append]
  have hb0 : v >>> 24 < 256 := by
    rw [Nat.shiftRight_eq_div_pow]
    omega
  have e16 := and255_eq (v >>> 16)
  have e8 := and255_eq (v >>> 8)
  have e0 := and255_eq v
  rw [accum4 (v >>> 24) ((v >>> 16) &&& 0xff) ((v >>> 8) &&& 0xff) (v &&& 0xff)
    (by omega) (by omega) (by omega) hb0]
  rw [e16, e8, e0]
  rw [Nat.shiftRight_eq_div_pow, Nat.shiftRight_eq_div_pow, Nat.shiftRight_eq_div_pow]
  congr 2
  omega

theorem read16_write (v : Nat) (rest : List Nat) (hv : v < 65536) :
    nmf_read16 (nmf_writeUint16 [] v ++ rest) = some (v, rest) := by
  unfold nmf_writeUint16 nmf_read16
  simp only [List.nil_append, List.cons_append]
  have hb0 : v >>> 8 < 256 := by
    rw [Nat.shiftRight_eq_div_pow]
    omega
  have e0 := and255_eq v
  rw [accum2 (v >>> 8) (v &&& 0xff) (by omega) hb0]
  rw [e0, Nat.shiftRight_eq_div_pow]
  congr 2
  omega

theorem readUint32_write (v : Nat) (rest : List Nat) (hv : v ≤ 2147483647) :
    nmf_readUint32 (nmf_writeUint32 [] v ++ rest) = ((v : Int), rest) := by
  unfold nmf_readUint32
  simp only [read32_write v rest (show v < 4294967296 by omega)]
  rw [if_neg (show ¬ v > NMF_MAXUINT32 by unfold NMF_MAXUINT32; omega)]

theorem readUint16_write (v : Nat) (rest : List Nat) (hv : v ≤ 65535) :
    nmf_readUint16 (nmf_writeUint16 [] v ++ rest) = ((v : Int), rest) := by
  unfold nmf_readUint16
  simp only [read16_write v rest (show v < 65536 by omega)]
  rw [if_neg (show ¬ v > NMF_MAXUINT16 by unfold NMF_MAXUINT16; omega)]

theorem bias32_roundtrip (d : Int) (rest : List Nat)
    (h1 : -2147483647 ≤ d) (h2 : d ≤ 2147483647) :
    nmf_writeBias32 [] d = some (nmf_writeUint32 [] (d + NMF_BIAS32).toNat) ∧
    nmf_readBias32 (nmf_writeUint32 [] (d + NMF_BIAS32).toNat ++ rest) =
      some (d, rest) := by
  have hB : NMF_BIAS32 = (2147483648 : Int) := rfl
  constructor
  · unfold nmf_writeBias32
    rw [if_pos (show 0 ≤ d + NMF_BIAS32 ∧ d + NMF_BIAS32 ≤ 4294967295 by
      rw [hB]; omega)]
  · unfold nmf_readBias32
    simp only [read32_write ((d + NMF_BIAS32).toNat) rest
      (show (d + NMF_BIAS32).toNat < 4294967296 by rw [hB]; omega)]
    rw [if_neg (show ¬ ((d + NMF_BIAS32).toNat < 1 ∨
        (d + NMF_BIAS32).toNat > NMF_MAXBIAS32) by
      rw [hB]; unfold NMF_MAXBIAS32; omega)]
    have harg : (((d + NMF_BIAS32).toNat : Int)) - NMF_BIAS32 = d := by
      rw [hB]; omega
    rw [harg]

theorem bias16_roundtrip (d : Int) (rest : List Nat)
    (h1 : -32767 ≤ d) (h2 : d ≤ 32767) :
    nmf_writeBias16 [] d = some (nmf_writeUint16 [] (d + NMF_BIAS16).toNat) ∧
    nmf_readBias16 (nmf_writeUint16 [] (d + NMF_BIAS16).toNat ++ rest) =
      some (d, rest) := by
  have hB : NMF_BIAS16 = (32768 : Int) := rfl
  constructor
  · unfold nmf_writeBias16
    rw [if_pos (show 0 ≤ d + NMF_BIAS16 ∧ d + NMF_BIAS16 ≤ 65535 by
      rw [hB]; omega)]
  · unfold nmf_readBias16
    simp only [read16_write ((d + NMF_BIAS16).toNat) rest
      (show (d + NMF_BIAS16).toNat < 65536 by rw [hB]; omega)]
    rw [if_neg (show ¬ ((d + NMF_BIAS16).toNat < 1 ∨
        (d + NMF_BIAS16).toNat > NMF_MAXBIAS16) by
      rw [hB]; unfold NMF_MAXBIAS16; omega)]
    have harg : (((d + NMF_BIAS16).toNat : Int)) - NMF_BIAS16 = d := by
      rw [hB]; omega
    rw [harg]

theorem writeUint32_append (out : List Nat) (v : Nat) :
    nmf_writeUint32 out v = out ++ nmf_writeUint32 [] v := by
  unfold nmf_writeUint32
  rw [List.nil_append]

theorem writeUint16_append (out : List Nat) (v : Nat) :
    nmf_writeUint16 out v = out ++ nmf_writeUint16 [] v := by
  unfold nmf_writeUint16
  rw [List.nil_append]

theorem writeBias32_append (out : List Nat) (v : Int) (bs : List Nat)
    (h : nmf_writeBias32 [] v = some bs) :
    nmf_writeBias32 out v = some (out ++ bs) := by
  unfold nmf_writeBias32 at h ⊢
  replace h : (if 0 ≤ v + NMF_BIAS32 ∧ v + NMF_BIAS32 ≤ 4294967295 then
      some (nmf_writeUint32 [] (v + NMF_BIAS32).toNat) else none) = some bs := h
  show (if 0 ≤ v + NMF_BIAS32 ∧ v + NMF_BIAS32 ≤ 4294967295 then
      some (nmf_writeUint32 out (v + NMF_BIAS32).toNat) else none) = some (out ++ bs)
  split at h
  · rw [if_pos (by assumption)]
    simp only [Option.some.injEq] at h
    rw [← h, writeUint32_append]
  · exact absurd h (by simp)

theorem writeBias16_append (out : List Nat) (v : Int) (bs : List Nat)
    (h : nmf_writeBias16 [] v = some bs) :
    nmf_writeBias16 out v = some (out ++ bs) := by
  unfold nmf_writeBias16 at h ⊢
  replace h : (if 0 ≤ v + NMF_BIAS16 ∧ v + NMF_BIAS16 ≤ 65535 then
      some (nmf_writeUint16 [] (v + NMF_BIAS16).toNat) else none) = some bs := h
  show (if 0 ≤ v + NMF_BIAS16 ∧ v + NMF_BIAS16 ≤ 65535 then
      some (nmf_writeUint16 out (v + NMF_BIAS16).toNat) else none) = some (out ++ bs)
  split at h
  · rw [if_pos (by assumption)]
    simp only [Option.some.injEq] at h
    rw [← h, writeUint16_append]
  · exact absurd h (by simp)


theorem readBias32_write (d : Int) (rest : List Nat)
    (h1 : -2147483647 ≤ d) (h2 : d ≤ 2147483647) :
    nmf_readBias32 (nmf_writeUint32 [] (d + NMF_BIAS32).toNat ++ rest) =
      some (d, rest) :=
  (bias32_roundtrip d rest h1 h2).2

theorem readBias16_write (d : Int) (rest : List Nat)
    (h1 : -32767 ≤ d) (h2 : d ≤ 32767) :
    nmf_readBias16 (nmf_writeUint16 [] (d + NMF_BIAS16).toNat ++ rest) =
      some (d, rest) :=
  (bias16_roundtrip d rest h1 h2).2

theorem writeSects_append (l : List Int) :
    ∀ out, nmf_writeSects l out = out ++ nmf_writeSects l [] := by
  induction l with
  | nil =>
    intro out
    show out = out ++ nmf_writeSects [] []
    rw [show nmf_writeSects [] [] = ([] : List Nat) from rfl, List.append_nil]
  | cons v rest ih =>
    intro out
    show nmf_writeSects rest (nmf_writeUint32 out (v % 4294967296).toNat) =
      out ++ nmf_writeSects rest (nmf_writeUint32 [] (v % 4294967296).toNat)
    rw [ih (nmf_writeUint32 out (v % 4294967296).toNat),
      ih (nmf_writeUint32 [] (v % 4294967296).toNat)]
    rw [writeUint32_append out, List.append_assoc]

theorem writeNote_eq (out : List Nat) (n : NMF_NOTE)
    (ht1 : 0 ≤ n.t) (ht2 : n.t ≤ 2147483647)
    (hd1 : -2147483647 ≤ n.dur) (hd2 : n.dur ≤ 2147483647)
    (hp1 : -32767 ≤ n.pitch) (hp2 : n.pitch ≤ 32767) :
    nmf_writeNote out n = some (out ++
      (nmf_writeUint32 [] n.t.toNat ++
       (nmf_writeUint32 [] (n.dur + NMF_BIAS32).toNat ++
        (nmf_writeUint16 [] (n.pitch + NMF_BIAS16).toNat ++
         (nmf_writeUint16 [] (n.art % 65536).toNat ++
          (nmf_writeUint16 [] (n.sect % 65536).toNat ++
           nmf_writeUint16 [] (n.layer_i % 65536).toNat)))))) := by
  unfold nmf_writeNote
  rw [show n.t % 4294967296 = n.t from by omega]
  rw [writeUint32_append out n.t.toNat]
  have h1 : nmf_writeBias32 (out ++ nmf_writeUint32 [] n.t.toNat) n.dur =
      some ((out ++ nmf_writeUint32 [] n.t.toNat) ++
        nmf_writeUint32 [] (n.dur + NMF_BIAS32).toNat) :=
    writeBias32_append _ n.dur _ (bias32_roundtrip n.dur [] hd1 hd2).1
  simp only [h1]
  have h2 : nmf_writeBias16 ((out ++ nmf_writeUint32 [] n.t.toNat) ++
      nmf_writeUint32 [] (n.dur + NMF_BIAS32).toNat) n.pitch =
      some (((out ++ nmf_writeUint32 [] n.t.toNat) ++
        nmf_writeUint32 [] (n.dur + NMF_BIAS32).toNat) ++
        nmf_writeUint16 [] (n.pitch + NMF_BIAS16).toNat) :=
    writeBias16_append _ n.pitch _ (bias16_roundtrip n.pitch [] hp1 hp2).1
  simp only [h2]
  rw [writeUint16_append, writeUint16_append, writeUint16_append]
  simp only [List.append_assoc]

theorem parseNote_round (n : NMF_NOTE) (sects : List Int) (rest : List Nat)
    (hwf : nmf_noteWF sects n) (hslen : sects.length ≤ 65535) :
    nmf_parseNote
      ((nmf_writeUint32 [] n.t.toNat ++
        (nmf_writeUint32 [] (n.dur + NMF_BIAS32).toNat ++
         (nmf_writeUint16 [] (n.pitch + NMF_BIAS16).toNat ++
          (nmf_writeUint16 [] (n.art % 65536).toNat ++
           (nmf_writeUint16 [] (n.sect % 65536).toNat ++
            nmf_writeUint16 [] (n.layer_i % 65536).toNat))))) ++ rest) sects =
      some (n, rest) := by
  obtain ⟨ht1, ht2, hd1, hd2, hp1, hp2, ha1, ha2, hs1, hs2, hl1, hl2, hsoff⟩ := hwf
  rw [show NMF_MINPITCH = (-39 : Int) from rfl] at hp1
  rw [show NMF_MAXPITCH = (48 : Int) from rfl] at hp2
  rw [show NMF_MAXART = (61 : Int) from rfl] at ha2
  rw [show n.art % 65536 = n.art from by omega,
    show n.sect % 65536 = n.sect from by omega,
    show n.layer_i % 65536 = n.layer_i from by omega]
  simp only [List.append_assoc]
  unfold nmf_parseNote
  have ct : ((n.t.toNat : Int)) = n.t := by omega
  have ca : ((n.art.toNat : Int)) = n.art := by omega
  have cs : ((n.sect.toNat : Int)) = n.sect := by omega
  have cl : ((n.layer_i.toNat : Int)) = n.layer_i := by omega
  simp (disch := omega) only [readUint32_write, readBias32_write, readBias16_write,
    readUint16_write, ct, ca, cs, cl]
  rw [if_neg (show ¬ n.t < 0 by omega)]
  rw [if_neg (show ¬ n.art < 0 by omega)]
  rw [if_neg (show ¬ n.sect < 0 by omega)]
  rw [if_neg (show ¬ n.layer_i < 0 by omega)]
  rw [if_neg (show ¬ (n.pitch < NMF_MINPITCH ∨ n.pitch > NMF_MAXPITCH) by
    rw [show NMF_MINPITCH = (-39 : Int) from rfl, show NMF_MAXPITCH = (48 : Int) from rfl]
    omega)]
  rw [if_neg (show ¬ n.art > NMF_MAXART by
    rw [show NMF_MAXART = (61 : Int) from rfl]
    omega)]
  rw [if_neg (show ¬ n.sect ≥ (sects.length : Int) by omega)]
  cases hg : sects.get? n.sect.toNat with
  | none =>
    exfalso
    rw [List.get?_eq_none] at hg
    omega
  | some soff =>
    simp only [hg]
    rw [if_neg (show ¬ n.t < soff by have := hsoff soff hg; omega)]


theorem parseSects_round (l : List Int) :
    ∀ (acc : List Int) (rest : List Nat),
      (∀ s ∈ l, 0 ≤ s ∧ s ≤ 2147483647) →
      List.Chain' (fun a b => a ≤ b) l →
      (acc = [] → l.head? = some 0 ∨ l = []) →
      (∀ p, acc.getLast? = some p → ∀ h0, l.head? = some h0 → p ≤ h0) →
      nmf_parseSects l.length (nmf_writeSects l [] ++ rest) acc =
        some (acc ++ l, rest) := by
  induction l with
  | nil =>
    intro acc rest _ _ _ _
    show nmf_parseSects 0 (nmf_writeSects [] [] ++ rest) acc = some (acc ++ [], rest)
    rw [show nmf_writeSects [] [] = ([] : List Nat) from rfl, List.nil_append,
      List.append_nil]
    rfl
  | cons v l' ih =>
    intro acc rest h1 h2 h3 h4
    obtain ⟨hv0, hv1⟩ := h1 v (List.mem_cons_self v l')
    have hws : nmf_writeSects (v :: l') [] =
        nmf_writeUint32 [] v.toNat ++ nmf_writeSects l' [] := by
      show nmf_writeSects l' (nmf_writeUint32 [] (v % 4294967296).toNat) = _
      rw [show v % 4294967296 = v from by omega, writeSects_append]
    rw [hws, List.append_assoc]
    show nmf_parseSects (l'.length + 1)
      (nmf_writeUint32 [] v.toNat ++ (nmf_writeSects l' [] ++ rest)) acc =
      some (acc ++ v :: l', rest)
    unfold nmf_parseSects
    have hr := readUint32_write v.toNat (nmf_writeSects l' [] ++ rest) (by omega)
    rw [show ((v.toNat : Int)) = v from by omega] at hr
    simp only [hr]
    rw [if_neg (show ¬ v < 0 by omega)]
    have hch := List.chain'_cons'.mp h2
    have h4' : ∀ p, (acc ++ [v]).getLast? = some p →
        ∀ h0, l'.head? = some h0 → p ≤ h0 := by
      intro p hp h0 hh0
      rw [List.getLast?_concat] at hp
      have hpv : p = v := (Option.some.inj hp).symm
      subst hpv
      exact hch.1 h0 (Option.mem_def.mpr hh0)
    have hrec := ih (acc ++ [v]) rest
      (fun s hs => h1 s (List.mem_cons_of_mem v hs))
      hch.2
      (fun habs => absurd habs (by simp))
      h4'
    cases hacc : acc.getLast? with
    | none =>
      simp only [hacc]
      have haccnil : acc = [] := by
        cases acc with
        | nil => rfl
        | cons a as =>
          exfalso
          have hsome : (a :: as).getLast?.isSome := by
            rw [List.getLast?_isSome]
            simp
          rw [hacc] at hsome
          simp at hsome
      have hv00 : v = 0 := by
        rcases h3 haccnil with hh | hh
        · exact Option.some.inj hh
        · exact absurd hh (by simp)
      rw [if_neg (show ¬ v ≠ 0 from fun hne => hne hv00), hrec]
      rw [show (acc ++ [v]) ++ l' = acc ++ v :: l' from by simp]
    | some p =>
      simp only [hacc]
      have hple : p ≤ v := h4 p hacc v rfl
      rw [if_neg (show ¬ v < p by omega), hrec]
      rw [show (acc ++ [v]) ++ l' = acc ++ v :: l' from by simp]

theorem parseNotes_round (sects : List Int) (hslen : sects.length ≤ 65535) :
    ∀ (l : List NMF_NOTE), (∀ n ∈ l, nmf_noteWF sects n) →
    ∀ (out : List Nat) (acc : List NMF_NOTE) (rest : List Nat),
    ∃ body, nmf_writeNotes l out = some (out ++ body) ∧
      nmf_parseNotes l.length (body ++ rest) sects acc = some (acc ++ l, rest) := by
  intro l
  induction l with
  | nil =>
    intro _ out acc rest
    refine ⟨[], ?_, ?_⟩
    · show some out = some (out ++ [])
      rw [List.append_nil]
    · show some (acc, [] ++ rest) = some (acc ++ [], rest)
      rw [List.nil_append, List.append_nil]
  | cons n l' ih =>
    intro hwf out acc rest
    obtain ⟨ht1, ht2, hd1, hd2, hp1, hp2, ha1, ha2, hs1, hs2, hl1, hl2, hsoff⟩ :=
      hwf n (List.mem_cons_self n l')
    have hp1' : (-32767 : Int) ≤ n.pitch := by
      rw [show NMF_MINPITCH = (-39 : Int) from rfl] at hp1
      omega
    have hp2' : n.pitch ≤ (32767 : Int) := by
      rw [show NMF_MAXPITCH = (48 : Int) from rfl] at hp2
      omega
    set NB : List Nat := nmf_writeUint32 [] n.t.toNat ++
      (nmf_writeUint32 [] (n.dur + NMF_BIAS32).toNat ++
       (nmf_writeUint16 [] (n.pitch + NMF_BIAS16).toNat ++
        (nmf_writeUint16 [] (n.art % 65536).toNat ++
         (nmf_writeUint16 [] (n.sect % 65536).toNat ++
          nmf_writeUint16 [] (n.layer_i % 65536).toNat)))) with hNB
    have hnw := writeNote_eq out n ht1 ht2 hd1 hd2 hp1' hp2'
    rw [← hNB] at hnw
    obtain ⟨body', hw', hpars'⟩ := ih (fun m hm => hwf m (List.mem_cons_of_mem n hm))
      (out ++ NB) (acc ++ [n]) rest
    refine ⟨NB ++ body', ?_, ?_⟩
    · show (match nmf_writeNote out n with
        | none => none
        | some out2 => nmf_writeNotes l' out2) = some (out ++ (NB ++ body'))
      simp only [hnw]
      rw [hw', List.append_assoc]
    · show nmf_parseNotes (l'.length + 1) ((NB ++ body') ++ rest) sects acc =
        some (acc ++ n :: l', rest)
      unfold nmf_parseNotes
      have hpn : nmf_parseNote ((NB ++ body') ++ rest) sects =
          some (n, body' ++ rest) := by
        rw [List.append_assoc, hNB]
        exact parseNote_round n sects (body' ++ rest)
          ⟨ht1, ht2, hd1, hd2, hp1, hp2, ha1, ha2, hs1, hs2, hl1, hl2, hsoff⟩ hslen
      simp only [hpn]
      rw [hpars']
      rw [show (acc ++ [n]) ++ l' = acc ++ n :: l' from by simp]


/-- C4: for every NMF data value that is sorted, has at least one note,
and satisfies the format invariants, parsing the byte stream produced by
serializing it succeeds and yields the same basis, the same section
table, and the same note list in the same order. -/
theorem C4_roundtrip (d : NMF_DATA) (hwf : nmfWF d) (_hsorted : nmfCmpSorted d.notes) :
    ∃ bs, nmf_serialize d = some (true, bs) ∧ nmf_parse bs = some d := by
  obtain ⟨hbasis, hsl1, hsl2, hnl1, hnl2, hhead, hchain, hsects, hnotes⟩ := hwf
  rw [show NMF_MAXSECT = (65535 : Int) from rfl] at hsl2
  rw [show NMF_MAXNOTE = (1048576 : Int) from rfl] at hnl2
  have hbasis' : d.basis = 0 ∨ d.basis = 1 ∨ d.basis = 2 := by
    rcases hbasis with h | h | h
    · exact Or.inl h
    · exact Or.inr (Or.inl h)
    · exact Or.inr (Or.inr h)
  have hslen : d.sects.length ≤ 65535 := by omega
  have hmb : d.basis % 65536 = d.basis := by omega
  have hmsl : (d.sects.length : Int) % 65536 = (d.sects.length : Int) := by omega
  have hmnl : (d.notes.length : Int) % 4294967296 = (d.notes.length : Int) := by omega
  obtain ⟨body, hwN, hpN⟩ := parseNotes_round d.sects hslen d.notes hnotes
    (((((nmf_writeUint32 [] NMF_SIGPRI.toNat ++ nmf_writeUint32 [] NMF_SIGSEC.toNat)
        ++ nmf_writeUint16 [] d.basis.toNat)
        ++ nmf_writeUint16 [] ((d.sects.length : Int)).toNat)
        ++ nmf_writeUint32 [] ((d.notes.length : Int)).toNat)
      ++ nmf_writeSects d.sects []) [] []
  refine ⟨(((((nmf_writeUint32 [] NMF_SIGPRI.toNat ++ nmf_writeUint32 [] NMF_SIGSEC.toNat)
        ++ nmf_writeUint16 [] d.basis.toNat)
        ++ nmf_writeUint16 [] ((d.sects.length : Int)).toNat)
        ++ nmf_writeUint32 [] ((d.notes.length : Int)).toNat)
      ++ nmf_writeSects d.sects []) ++ body, ?_, ?_⟩
  · unfold nmf_serialize
    rw [if_pos (show 0 < d.notes.length by omega)]
    rw [hmb, hmsl, hmnl]
    rw [writeUint32_append, writeUint16_append, writeUint16_append, writeUint32_append]
    rw [writeSects_append d.sects]
    simp only [hwN]
  · unfold nmf_parse
    simp only [List.append_assoc]
    have c1 : ((NMF_SIGPRI.toNat : Int)) = NMF_SIGPRI := rfl
    have c2 : ((NMF_SIGSEC.toNat : Int)) = NMF_SIGSEC := rfl
    have cb : ((d.basis.toNat : Int)) = d.basis := by omega
    have csl : ((((d.sects.length : Int)).toNat : Int)) = (d.sects.length : Int) := by
      omega
    have cnl : ((((d.notes.length : Int)).toNat : Int)) = (d.notes.length : Int) := by
      omega
    have hS1 : NMF_SIGPRI = (1928196216 : Int) := rfl
    have hS2 : NMF_SIGSEC = (1313818926 : Int) := rfl
    simp (disch := omega) only [readUint32_write, readUint16_write, c1, c2, cb, csl, cnl]
    rw [if_neg (show ¬ NMF_SIGPRI ≠ NMF_SIGPRI from fun h => h rfl)]
    rw [if_neg (show ¬ NMF_SIGSEC ≠ NMF_SIGSEC from fun h => h rfl)]
    rw [if_neg (show ¬ (d.basis ≠ NMF_BASIS_Q96 ∧ d.basis ≠ NMF_BASIS_44100 ∧
        d.basis ≠ NMF_BASIS_48000) by
      rw [show NMF_BASIS_Q96 = (0 : Int) from rfl,
        show NMF_BASIS_44100 = (1 : Int) from rfl,
        show NMF_BASIS_48000 = (2 : Int) from rfl]
      omega)]
    rw [if_neg (show ¬ ((d.sects.length : Int) < 1 ∨
        (d.sects.length : Int) > NMF_MAXSECT) by
      rw [show NMF_MAXSECT = (65535 : Int) from rfl]
      omega)]
    rw [if_neg (show ¬ ((d.notes.length : Int) < 1 ∨
        (d.notes.length : Int) > NMF_MAXNOTE) by
      rw [show NMF_MAXNOTE = (1048576 : Int) from rfl]
      omega)]
    rw [show (((d.sects.length : Int)).toNat) = d.sects.length from by omega]
    have hps := parseSects_round d.sects [] body hsects hchain
      (fun _ => Or.inl hhead) (fun p hp => absurd hp (by simp))
    rw [List.nil_append] at hps
    simp only [hps]
    rw [show (((d.notes.length : Int)).toNat) = d.notes.length from by omega]
    rw [List.append_nil] at hpN
    rw [List.nil_append] at hpN
    simp only [hpN]

/-- Witness for C4: a one-section, one-note data value round-trips. -/
theorem C4_roundtrip_witness :
    ∃ bs, nmf_serialize ⟨0, [0], [⟨0, 4, 0, 0, 0, 0⟩]⟩ = some (true, bs) ∧
      nmf_parse bs = some ⟨0, [0], [⟨0, 4, 0, 0, 0, 0⟩]⟩ :=
  C4_roundtrip ⟨0, [0], [⟨0, 4, 0, 0, 0, 0⟩]⟩
    (by
      refine ⟨Or.inl rfl, by decide, by decide, by decide, by decide, rfl,
        List.chain'_singleton 0, ?_, ?_⟩
      · intro s hs
        rw [List.mem_singleton] at hs
        subst hs
        exact ⟨by decide, by decide⟩
      · intro n hn
        rw [List.mem_singleton] at hn
        subst hn
        refine ⟨by decide, by decide, by decide, by decide, by decide, by decide,
          by decide, by decide, by decide, by decide, by decide, by decide, ?_⟩
        intro soff h
        have h' : some (0 : Int) = some soff := h
        have h'' := Option.some.inj h'
        show soff ≤ (0 : Int)
        omega)
    (by unfold nmfCmpSorted; simp)

end Noir
